import Mathlib

/-!
# hw7_microservice: access policy and call interceptors

A shallow embedding of `src/hw7_microservice/service.go`.

* Go strings are modelled by `String`.  The source only inspects the ASCII
  bytes `/` and `*`, so splitting by characters agrees with Go's splitting
  by bytes on every valid UTF-8 string.
* A Go `map[string][]string` is modelled by an association list read with
  `List.lookup`; a key that is absent from the map is a key whose lookup is
  `none`.
* A Go `error` result is modelled by `Option GoError`, `nil` being `none`.
* Channel sends and the handler invocation are recorded, in program order,
  in a `Trace` that is passed through the interceptors.
* The loop of `Statistics` is a fold over the samples and ticks it takes
  from its `select`.
* The dispatch loop, the `Logging` and `Statistics` handlers and the
  cancellation are the step function `Hub.step` on a state `Hub`; a call of
  an interceptor runs against the hub as a `Call`, its sends being steps
  taken together with the dispatch loop.
* `StartMyMicroservice` is run on a model of what `json.Unmarshal` accepts
  for `map[string][]string`, with `net.Listen` as a parameter.

The namespaces `Coverage` (`hw4_test_coverage`), `Signer` (`hw2_signer`),
`Codegen` (`hw5_codegen`) and `I2s` (`hw8_i2s`) embed functions of the other
packages of the repository; `GoLib` holds the library functions they share.
-/

namespace Microservice

/-! ## Library functions used by the source -/

namespace strings

/-- Go `strings.TrimLeft(s, cutset)`: `s` without its longest leading run of
characters that occur in `cutset`. -/
def TrimLeft (s cutset : String) : String :=
  ⟨s.data.dropWhile (fun c => decide (c ∈ cutset.data))⟩

/-- Pieces of a character list between the occurrences of `sep`. -/
def splitChars (sep : Char) : List Char → List (List Char)
  | [] => [[]]
  | c :: cs =>
    if c = sep then [] :: splitChars sep cs
    else
      match splitChars sep cs with
      | [] => [[c]]
      | piece :: pieces => (c :: piece) :: pieces

/-- Go `strings.Split(s, sep)` for a separator of one character, the only way
the source calls it (`sep = "/"`): the substrings of `s` between the
occurrences of `sep`; `n` occurrences give `n + 1` substrings, and the empty
string gives the one substring `""`. -/
def Split (s : String) (sep : Char) : List String :=
  (splitChars sep s.data).map String.mk

end strings

/-- gRPC status codes the source uses (`google.golang.org/grpc/codes`). -/
inductive codes.Code
  | Internal
  | Unauthenticated
  deriving DecidableEq, Repr

/-- Go name of a status code, as `Code.String()` prints it. -/
def codes.Code.String : codes.Code → String
  | .Internal => "Internal"
  | .Unauthenticated => "Unauthenticated"

/-- Go error values built by the source: errors of `github.com/pkg/errors`
(`errors.New`, `errors.Errorf`), which carry a message, and gRPC status errors
(`status.Errorf`), which carry a code and a message. -/
inductive GoError
  | plain (msg : String)
  | status (code : codes.Code) (msg : String)
  deriving DecidableEq, Repr

/-- Go `err.Error()`. -/
def GoError.Error : GoError → String
  | .plain msg => msg
  | .status code msg => "rpc error: code = " ++ code.String ++ " desc = " ++ msg

/-- Status code of an error, when it is a gRPC status error. -/
def GoError.code? : GoError → Option codes.Code
  | .plain _ => none
  | .status code _ => some code

/-! ## Data model -/

/-- `type ACLs map[string][]string`. -/
abbrev ACLs := List (String × List String)

/-- `type MainServer struct`: the access-control lists (the embedded managers
hold the channels, whose traffic is the `Trace` below). -/
structure MainServer where
  acls : ACLs

/-- The reason `reqAuth` gives for a consumer that is not in the ACL. -/
def unknownConsumer (consumer : String) : GoError :=
  .plain ("no such consumer: " ++ consumer ++ " in ACL list")

/-- The reason `reqAuth` gives when no pattern matches. -/
def accessDenied : GoError :=
  .plain "access denied"

/-- One iteration body of the loop of `reqAuth`: does pattern `m` grant
`method`?  Both are stripped of leading `/` and split on `/`; a side that
does not have exactly two parts makes the loop `continue`. -/
def reqAuth.allows (method m : String) : Bool :=
  match strings.Split (strings.TrimLeft m "/") '/' with
  | [allowed0, allowed1] =>
    match strings.Split (strings.TrimLeft method "/") '/' with
    | [methodParts0, methodParts1] =>
      if methodParts0 = allowed0 ∨ allowed0 = "*" then
        if methodParts1 = allowed1 ∨ allowed1 = "*" then true else false
      else false
    | _ => false
  | _ => false

/-- The loop of `reqAuth` over the consumer's patterns, in order: return
`nil` at the first pattern that grants, `access denied` after the last. -/
def reqAuth.scan (method : String) : List String → Option GoError
  | [] => some accessDenied
  | m :: rest => if reqAuth.allows method m then none else reqAuth.scan method rest

/-- `func (ms MainServer) reqAuth(consumer, method string) error`. -/
def reqAuth (ms : MainServer) (consumer method : String) : Option GoError :=
  match ms.acls.lookup consumer with
  | none => some (unknownConsumer consumer)
  | some allowedMethods => reqAuth.scan method allowedMethods

/-! ### The matching rule in the words of the specification -/

/-- The segments of a pattern or of a method identifier: its parts between
the `/` separators, the leading separator being stripped first. -/
def segments (s : String) : List String :=
  strings.Split (strings.TrimLeft s "/") '/'

/-- A pattern matches a method when both have two segments and each pattern
segment is equal to the corresponding method segment or is `*`. -/
def patternMatches (pattern method : String) : Prop :=
  (segments pattern).length = 2 ∧ (segments method).length = 2 ∧
  ∀ i, i < 2 →
    (segments pattern).getD i "" = (segments method).getD i "" ∨
    (segments pattern).getD i "" = "*"

instance (pattern method : String) : Decidable (patternMatches pattern method) := by
  unfold patternMatches
  infer_instance

/-! ## Call context -/

/-- Go `metadata.MD`, a `map[string][]string` of the call's metadata. -/
abbrev metadata.MD := List (String × List String)

/-- Go `md.Get(k)`: the values stored under `k` (`nil` when the key is
absent).  The library lower-cases `k` first; the source passes `"consumer"`,
which is already lower case. -/
def metadata.MD.Get (md : metadata.MD) (k : String) : List String :=
  (md.lookup k).getD []

/-- Go `peer.Peer`; `Addr` stands for the text `p.Addr.String()`. -/
structure peer.Peer where
  Addr : String
  deriving DecidableEq, Repr

/-- What the interceptors read from a Go `context.Context`: the incoming
metadata (`metadata.FromIncomingContext`, `none` when its `ok` is false) and
the peer (`peer.FromContext`, `none` when its `ok` is false). -/
structure context.Context where
  md : Option metadata.MD
  peer : Option peer.Peer
  deriving DecidableEq, Repr

/-- Go `grpc.UnaryServerInfo`: the interceptor reads `FullMethod`. -/
structure grpc.UnaryServerInfo where
  FullMethod : String

/-- Go `grpc.StreamServerInfo`: the interceptor reads `FullMethod`. -/
structure grpc.StreamServerInfo where
  FullMethod : String

/-- Go `grpc.ServerStream`: the interceptor reads `ss.Context()`. -/
structure grpc.ServerStream where
  Context : context.Context

/-- Go `status.Errorf(c, format)` called with a format and no operands, as the
interceptors do with `err.Error()`: the message is `fmt.Sprintf(format)`.
`Sprintf` is that library function; it returns a format without `%`
unchanged. -/
def status.Errorf (Sprintf : String → String) (c : codes.Code) (format : String) : GoError :=
  .status c (Sprintf format)

/-! ## Telemetry -/

/-- The `Event` message of the generated service code, with the fields the
interceptors set. -/
structure Event where
  Consumer : String
  Method : String
  Host : String
  deriving DecidableEq, Repr

/-- `type statS struct`. -/
structure statS where
  consumer : String
  method : String
  deriving DecidableEq, Repr

/-- One observable step of an interceptor: a send on `ms.loggingBroadcast`, a
send on `ms.statisticBroadcast`, or the invocation of the handler. -/
inductive Action
  | loggingBroadcast (event : Event)
  | statisticBroadcast (signal : statS)
  | handler
  deriving DecidableEq, Repr

/-- The steps taken so far, oldest first. -/
abbrev Trace := List Action

/-! ## Interceptors -/

/-- `func (ms *MainServer) consumerFromCtx(ctx context.Context) (string, error)`. -/
def consumerFromCtx (ctx : context.Context) : String × Option GoError :=
  match ctx.md with
  | none => ("", some (.plain "no metadata in incoming context"))
  | some md =>
    match metadata.MD.Get md "consumer" with
    | [] => ("", some (.status .Unauthenticated "no consumer key in context metadata"))
    | mdValues0 :: _ => (mdValues0, none)

/-- `func (ms *MainServer) unaryInterceptor(ctx, req, info, handler)
(interface{}, error)`, run on the trace `t`; it returns the trace afterwards
and the Go result pair.  `α` is the request and `β` the reply behind
`interface{}`, `none` being `nil`.  The trace lists the statements of the
call in program order, as they run when no send has to wait; `Call` below
runs them against the hub, where each send waits for the dispatch loop. -/
def unaryInterceptor {α β : Type} (Sprintf : String → String) (ms : MainServer)
    (ctx : context.Context) (req : α) (info : grpc.UnaryServerInfo)
    (handler : context.Context → α → Option β × Option GoError) (t : Trace) :
    Trace × (Option β × Option GoError) :=
  match consumerFromCtx ctx with
  | (_, some err) => (t, (none, some (status.Errorf Sprintf .Unauthenticated err.Error)))
  | (consumer, none) =>
    match ctx.peer with
    | none => (t, (none, some (.status .Internal "can`t get peer from context")))
    | some p =>
      match reqAuth ms consumer info.FullMethod with
      | some err => (t, (none, some (status.Errorf Sprintf .Unauthenticated err.Error)))
      | none =>
        let t1 := t ++ [.loggingBroadcast ⟨consumer, info.FullMethod, p.Addr⟩]
        let t2 := t1 ++ [.statisticBroadcast ⟨consumer, info.FullMethod⟩]
        (t2 ++ [.handler], handler ctx req)

/-- `func (ms *MainServer) streamInterceptor(srv, ss, info, handler) error`,
run on the trace `t`; it returns the trace afterwards and the Go error.  As
for `unaryInterceptor`, the trace lists the statements in program order and
`Call` runs them against the hub. -/
def streamInterceptor {σ : Type} (Sprintf : String → String) (ms : MainServer)
    (srv : σ) (ss : grpc.ServerStream) (info : grpc.StreamServerInfo)
    (handler : σ → grpc.ServerStream → Option GoError) (t : Trace) :
    Trace × Option GoError :=
  match consumerFromCtx ss.Context with
  | (_, some err) => (t, some (status.Errorf Sprintf .Unauthenticated err.Error))
  | (consumer, none) =>
    match ss.Context.peer with
    | none => (t, some (.status .Internal "can`t get peer from context"))
    | some p =>
      match reqAuth ms consumer info.FullMethod with
      | some err => (t, some (status.Errorf Sprintf .Unauthenticated err.Error))
      | none =>
        let t1 := t ++ [.loggingBroadcast ⟨consumer, info.FullMethod, p.Addr⟩]
        let t2 := t1 ++ [.statisticBroadcast ⟨consumer, info.FullMethod⟩]
        (t2 ++ [.handler], handler srv ss)

/-! ## Statistics window -/

/-- Go `map[string]uint64`, the type of the two counter maps of `Stat`.  A
counter grows by one per sample and is modelled by a natural number (a run
does not reach 2^64 samples). -/
abbrev Counters := List (String × Nat)

/-- Go `m[k]` on a counter map: the stored count, zero for an absent key. -/
def Counters.get (m : Counters) (k : String) : Nat :=
  (m.lookup k).getD 0

/-- Go `m[k]++` on a counter map: an absent key is inserted with count one. -/
def Counters.incr : Counters → String → Counters
  | [], k => [(k, 1)]
  | (k', n) :: rest, k =>
    if k' = k then (k', n + 1) :: rest else (k', n) :: Counters.incr rest k

/-- The `Stat` message of the generated service code, with the two maps that
`NewStat` and `Statistics` use. -/
structure Stat where
  ByConsumer : Counters
  ByMethod : Counters
  deriving DecidableEq, Repr

/-- `func NewStat() Stat`. -/
def NewStat : Stat :=
  { ByConsumer := [], ByMethod := [] }

/-- Where a handler goroutine (`Logging` or `Statistics`) stands: blocked in
its `select`, inside the `Send` of its stream, or returned with an error
value (`none` for `nil`). -/
inductive Handler
  | select
  | send
  | returned (err : Option GoError)
  deriving DecidableEq, Repr

/-- A statistics listener: the local state of one running
`func (am *AdminManager) Statistics`, reader of the channel it registered.
`stat` is the current window, `sent` are the snapshots passed to
`asSrv.Send`, oldest first. -/
structure StatisticListener where
  stat : Stat
  sent : List Stat
  pc : Handler
  deriving DecidableEq, Repr

/-- The state of `Statistics` when it enters its loop: `stat := NewStat()`,
nothing sent. -/
def Statistics.start : StatisticListener :=
  { stat := NewStat, sent := [], pc := Handler.select }

/-- Branch `case s := <-ch:` of `Statistics`:
`stat.ByMethod[s.method]++; stat.ByConsumer[s.consumer]++`. -/
def Statistics.accumulate (l : StatisticListener) (s : statS) : StatisticListener :=
  { l with stat :=
      { ByMethod := Counters.incr l.stat.ByMethod s.method,
        ByConsumer := Counters.incr l.stat.ByConsumer s.consumer } }

/-- Branch `case <-intervalTicker.C:` of `Statistics`, up to the call
`asSrv.Send(&stat)`: the current window is handed to the stream. -/
def Statistics.tickSend (l : StatisticListener) : StatisticListener :=
  { l with sent := l.sent ++ [l.stat], pc := Handler.send }

/-- The rest of the tick branch, once `asSrv.Send` has returned (its error is
only printed): `stat = NewStat()`, back to the `select`. -/
def Statistics.tickReset (l : StatisticListener) : StatisticListener :=
  { l with stat := NewStat, pc := Handler.select }

/-- The whole tick branch. -/
def Statistics.tick (l : StatisticListener) : StatisticListener :=
  Statistics.tickReset (Statistics.tickSend l)

/-- What one turn of the loop of `Statistics` can take from its `select`
while the context is not done: a sample from its channel or a tick. -/
inductive Statistics.Input
  | sample (s : statS)
  | tick
  deriving DecidableEq, Repr

/-- One turn of the loop of `Statistics`. -/
def Statistics.turn (l : StatisticListener) : Statistics.Input → StatisticListener
  | .sample s => Statistics.accumulate l s
  | .tick => Statistics.tick l

/-- The loop of `Statistics` over a sequence of inputs. -/
def Statistics.run (l : StatisticListener) (inputs : List Statistics.Input) :
    StatisticListener :=
  inputs.foldl Statistics.turn l

/-- Number of samples of consumer `c` among the inputs. -/
def Statistics.samplesOfConsumer (c : String) (inputs : List Statistics.Input) : Nat :=
  inputs.countP fun i => match i with
    | .sample s => decide (s.consumer = c)
    | .tick => false

/-- Number of samples of method `m` among the inputs. -/
def Statistics.samplesOfMethod (m : String) (inputs : List Statistics.Input) : Nat :=
  inputs.countP fun i => match i with
    | .sample s => decide (s.method = m)
    | .tick => false


/-! ## The hub: dispatch loop, listeners, cancellation

The goroutines that share the `AdminManager` are modelled by one state and a
step function.  A step is one atomic action of one goroutine; a send on an
unbuffered channel is a step of sender and receiver together, enabled only
when both stand at the matching statement. -/

/-- A logging listener: one running `func (am *AdminManager) Logging`, reader
of the channel it registered.  `received` are the events it has taken from
its channel and passed to `alSrv.Send`, oldest first. -/
structure LoggingListener where
  received : List Event
  pc : Handler
  deriving DecidableEq, Repr

/-- Where the dispatch goroutine started by `StartMyMicroservice` stands:
at its `select`; holding an event or a signal received from a broadcast
channel, before `ms.mu.Lock()` (`next = none`) or inside the `range` loop with
the lock held, `ch <- item` for listener `i` being the next statement
(`next = some i`); or returned. -/
inductive Dispatch
  | select
  | event (event : Event) (next : Option Nat)
  | signal (signal : statS) (next : Option Nat)
  | returned
  deriving DecidableEq, Repr

/-- Whether the dispatch goroutine holds `ms.mu`. -/
def Dispatch.holdsLock : Dispatch → Bool
  | .event _ (some _) => true
  | .signal _ (some _) => true
  | _ => false

/-- State of the hub: whether `ctx.Done()` is closed, the dispatch goroutine,
and the listeners in the order of `am.loggingListeners` and
`am.statisticListeners`. -/
structure Hub where
  done : Bool
  dispatch : Dispatch
  loggingListeners : List LoggingListener
  statisticListeners : List StatisticListener
  deriving DecidableEq, Repr

/-- The hub that `NewMainServer` builds and `StartMyMicroservice` starts: no
listeners, the dispatch goroutine at its `select`. -/
def Hub.start : Hub :=
  { done := false, dispatch := Dispatch.select, loggingListeners := [],
    statisticListeners := [] }

/-- The atomic actions of the goroutines of the hub. -/
inductive Step
  | cancel
  | publishEvent (event : Event)
  | publishSignal (signal : statS)
  | lock
  | deliver
  | dispatchDone
  | addLogListenersCh
  | addStatListenersCh
  | loggingSent (i : Nat)
  | loggingDone (i : Nat)
  | tick (i : Nat)
  | statisticsSent (i : Nat)
  | statisticsDone (i : Nat)
  deriving DecidableEq, Repr

/-- One step of the hub, `none` when the step is not enabled.

* `cancel`: the context is cancelled.
* `publishEvent e`: an interceptor's `ms.loggingBroadcast <- e` meets
  `case event := <-ms.loggingBroadcast` of the dispatch loop.
* `publishSignal s`: the same for `ms.statisticBroadcast`.
* `lock`: `ms.mu.Lock()` of the dispatch loop.
* `deliver`: one `ch <- item` of the `range` loop, received by the listener
  at its `select`; past the last listener, `ms.mu.Unlock()` and back to the
  `select`.
* `dispatchDone`: `case <-ctx.Done(): return nil` of the dispatch loop.
* `addLogListenersCh`, `addStatListenersCh`: a handler registers a new
  channel under the lock and enters its loop.
* `loggingSent i`: `alSrv.Send` returns in listener `i`.
* `tick i`, `statisticsSent i`: the two halves of the tick branch.
* `loggingDone i`, `statisticsDone i`: `case <-am.ctx.Done(): return nil`. -/
def Hub.step (h : Hub) : Step → Option Hub
  | .cancel => some { h with done := true }
  | .publishEvent e =>
    match h.dispatch with
    | .select => some { h with dispatch := .event e none }
    | _ => none
  | .publishSignal s =>
    match h.dispatch with
    | .select => some { h with dispatch := .signal s none }
    | _ => none
  | .lock =>
    match h.dispatch with
    | .event e none => some { h with dispatch := .event e (some 0) }
    | .signal s none => some { h with dispatch := .signal s (some 0) }
    | _ => none
  | .deliver =>
    match h.dispatch with
    | .event e (some i) =>
      match h.loggingListeners[i]? with
      | none => some { h with dispatch := .select }
      | some l =>
        match l.pc with
        | .select =>
          some { h with
            loggingListeners :=
              h.loggingListeners.set i { received := l.received ++ [e], pc := .send }
            dispatch := .event e (some (i + 1)) }
        | _ => none
    | .signal s (some i) =>
      match h.statisticListeners[i]? with
      | none => some { h with dispatch := .select }
      | some l =>
        match l.pc with
        | .select =>
          some { h with
            statisticListeners := h.statisticListeners.set i (Statistics.accumulate l s)
            dispatch := .signal s (some (i + 1)) }
        | _ => none
    | _ => none
  | .dispatchDone =>
    match h.dispatch with
    | .select => if h.done then some { h with dispatch := .returned } else none
    | _ => none
  | .addLogListenersCh =>
    if h.dispatch.holdsLock then none
    else some { h with
      loggingListeners := h.loggingListeners ++ [{ received := [], pc := .select }] }
  | .addStatListenersCh =>
    if h.dispatch.holdsLock then none
    else some { h with statisticListeners := h.statisticListeners ++ [Statistics.start] }
  | .loggingSent i =>
    match h.loggingListeners[i]? with
    | some l =>
      match l.pc with
      | .send => some { h with loggingListeners := h.loggingListeners.set i { l with pc := .select } }
      | _ => none
    | none => none
  | .loggingDone i =>
    match h.loggingListeners[i]? with
    | some l =>
      match l.pc with
      | .select =>
        if h.done then
          some { h with
            loggingListeners := h.loggingListeners.set i { l with pc := .returned none } }
        else none
      | _ => none
    | none => none
  | .tick i =>
    match h.statisticListeners[i]? with
    | some l =>
      match l.pc with
      | .select =>
        some { h with statisticListeners := h.statisticListeners.set i (Statistics.tickSend l) }
      | _ => none
    | none => none
  | .statisticsSent i =>
    match h.statisticListeners[i]? with
    | some l =>
      match l.pc with
      | .send =>
        some { h with statisticListeners := h.statisticListeners.set i (Statistics.tickReset l) }
      | _ => none
    | none => none
  | .statisticsDone i =>
    match h.statisticListeners[i]? with
    | some l =>
      match l.pc with
      | .select =>
        if h.done then
          some { h with
            statisticListeners := h.statisticListeners.set i { l with pc := .returned none } }
        else none
      | _ => none
    | none => none

/-- A sequence of steps, `none` when one of them is not enabled. -/
def Hub.run (h : Hub) : List Step → Option Hub
  | [] => some h
  | s :: rest =>
    match h.step s with
    | none => none
    | some h' => h'.run rest

/-- The events published in a sequence of steps, in order. -/
def Step.published (steps : List Step) : List Event :=
  steps.filterMap fun s => match s with
    | .publishEvent e => some e
    | _ => none

/-- The events that the listener at index `j` of a list of logging listeners
has received (none for an index past the end). -/
def LoggingListener.receivedAt (ls : List LoggingListener) (j : Nat) : List Event :=
  match ls[j]? with
  | some l => l.received
  | none => []

/-- The events that logging listener `j` of the hub has received. -/
def Hub.received (h : Hub) (j : Nat) : List Event :=
  LoggingListener.receivedAt h.loggingListeners j

/-- The events the dispatch goroutine holds and has not yet sent to logging
listener `j`. -/
def Dispatch.pendingFor : Dispatch → Nat → List Event
  | .event e none, _ => [e]
  | .event e (some i), j => if j < i then [] else [e]
  | _, _ => []


/-- The step that the dispatch goroutine waits for when the send `ch <- item`
it stands at cannot proceed: the listener whose turn it is exists and is not
at its `select`, and only the return of its `Send` brings it back there.
`none` when the dispatch goroutine is not blocked in a send. -/
def Hub.blockedBy (h : Hub) : Option Step :=
  match h.dispatch with
  | .event _ (some i) =>
    match h.loggingListeners[i]? with
    | some l => if l.pc = Handler.select then none else some (Step.loggingSent i)
    | none => none
  | .signal _ (some i) =>
    match h.statisticListeners[i]? with
    | some l => if l.pc = Handler.select then none else some (Step.statisticsSent i)
    | none => none
  | _ => none

namespace json

/-- The JSON tokens that occur in an accepted payload. -/
inductive Token
  | lbrace
  | rbrace
  | lbracket
  | rbracket
  | colon
  | comma
  | null
  | string (s : String)
  deriving DecidableEq, Repr

/-- JSON white space: space, tab, carriage return, line feed. -/
def isSpace (c : Char) : Bool :=
  c = ' ' || c = '\t' || c = '\r' || c = '\n'

/-- Value of a hexadecimal digit. -/
def hexDigit (c : Char) : Option Nat :=
  if '0' ≤ c ∧ c ≤ '9' then some (c.toNat - '0'.toNat)
  else if 'a' ≤ c ∧ c ≤ 'f' then some (c.toNat - 'a'.toNat + 10)
  else if 'A' ≤ c ∧ c ≤ 'F' then some (c.toNat - 'A'.toNat + 10)
  else none

/-- Go `getu4` on the four characters after `\u`: their value as a
hexadecimal number. -/
def getu4 (a b c d : Char) : Option Nat :=
  match hexDigit a, hexDigit b, hexDigit c, hexDigit d with
  | some x, some y, some z, some w => some (((x * 16 + y) * 16 + z) * 16 + w)
  | _, _, _, _ => none

/-- Go `utf16.DecodeRune(r1, r2)` when it is not the replacement character:
the code point of a valid surrogate pair. -/
def decodeSurrogates (r1 r2 : Nat) : Option Nat :=
  if 0xd800 ≤ r1 ∧ r1 < 0xdc00 ∧ 0xdc00 ≤ r2 ∧ r2 < 0xe000 then
    some ((r1 - 0xd800) * 0x400 + (r2 - 0xdc00) + 0x10000)
  else none

/-- Go `unquote` on what follows a backslash inside a string literal: the
decoded character and the number of payload characters the escape takes after
the backslash; `none` for an invalid escape.  An unpaired surrogate becomes
U+FFFD. -/
def unescape : List Char → Option (Char × Nat)
  | '"' :: _ => some ('"', 1)
  | '\\' :: _ => some ('\\', 1)
  | '/' :: _ => some ('/', 1)
  | 'b' :: _ => some (Char.ofNat 8, 1)
  | 'f' :: _ => some (Char.ofNat 12, 1)
  | 'n' :: _ => some ('\n', 1)
  | 'r' :: _ => some ('\r', 1)
  | 't' :: _ => some ('\t', 1)
  | 'u' :: a :: b :: c :: d :: r =>
    match getu4 a b c d with
    | none => none
    | some rr =>
      if 0xd800 ≤ rr ∧ rr < 0xe000 then
        match r with
        | '\\' :: 'u' :: a2 :: b2 :: c2 :: d2 :: _ =>
          match (getu4 a2 b2 c2 d2).bind (decodeSurrogates rr) with
          | some dec => some (Char.ofNat dec, 11)
          | none => some (Char.ofNat 0xfffd, 5)
        | _ => some (Char.ofNat 0xfffd, 5)
      else some (Char.ofNat rr, 5)
  | _ => none

/-- Splits a payload into tokens, `none` on a character that no accepted
payload has at that place.  `skip` counts characters already consumed by a
look-ahead; `acc = none` outside a string literal, and inside one `acc` holds
the decoded characters read so far, last first. -/
def lex (skip : Nat) (acc : Option (List Char)) : List Char → Option (List Token)
  | [] =>
    match skip, acc with
    | 0, none => some []
    | _, _ => none
  | c :: rest =>
    match skip with
    | n + 1 => lex n acc rest
    | 0 =>
      match acc with
      | none =>
        if isSpace c then lex 0 none rest
        else if c = '{' then (lex 0 none rest).map (Token.lbrace :: ·)
        else if c = '}' then (lex 0 none rest).map (Token.rbrace :: ·)
        else if c = '[' then (lex 0 none rest).map (Token.lbracket :: ·)
        else if c = ']' then (lex 0 none rest).map (Token.rbracket :: ·)
        else if c = ':' then (lex 0 none rest).map (Token.colon :: ·)
        else if c = ',' then (lex 0 none rest).map (Token.comma :: ·)
        else if c = '"' then lex 0 (some []) rest
        else if c = 'n' ∧ rest.take 3 = ['u', 'l', 'l'] then
          (lex 3 none rest).map (Token.null :: ·)
        else none
      | some s =>
        if c = '"' then (lex 0 none rest).map (Token.string (String.mk s.reverse) :: ·)
        else if c = '\\' then
          match unescape rest with
          | some (d, n) => lex n (some (d :: s)) rest
          | none => none
        else if c.toNat < 0x20 then none
        else lex 0 (some (c :: s)) rest

/-- Where the decoder stands in a payload: `m` is the map built so far (a
later entry for a key is put in front and shadows an earlier one), `k` the
key being decoded and `xs` the elements of its array so far. -/
inductive State
  | start
  | objOpen (m : List (String × List String))
  | key (m : List (String × List String)) (k : String)
  | value (m : List (String × List String)) (k : String)
  | arrOpen (m : List (String × List String)) (k : String)
  | elem (m : List (String × List String)) (k : String) (xs : List String)
  | arrComma (m : List (String × List String)) (k : String) (xs : List String)
  | member (m : List (String × List String))
  | objComma (m : List (String × List String))
  | done (m : List (String × List String))
  deriving DecidableEq, Repr

/-- One token of the payload. -/
def State.next : State → Token → Option State
  | .start, .null => some (.done [])
  | .start, .lbrace => some (.objOpen [])
  | .objOpen m, .rbrace => some (.done m)
  | .objOpen m, .string k => some (.key m k)
  | .key m k, .colon => some (.value m k)
  | .value m k, .null => some (.member ((k, []) :: m))
  | .value m k, .lbracket => some (.arrOpen m k)
  | .arrOpen m k, .rbracket => some (.member ((k, []) :: m))
  | .arrOpen m k, .string x => some (.elem m k [x])
  | .arrOpen m k, .null => some (.elem m k [""])
  | .elem m k xs, .rbracket => some (.member ((k, xs) :: m))
  | .elem m k xs, .comma => some (.arrComma m k xs)
  | .arrComma m k xs, .string x => some (.elem m k (xs ++ [x]))
  | .arrComma m k xs, .null => some (.elem m k (xs ++ [""]))
  | .member m, .rbrace => some (.done m)
  | .member m, .comma => some (.objComma m)
  | .objComma m, .string k => some (.key m k)
  | _, _ => none

/-- All tokens of the payload. -/
def State.run (s : State) : List Token → Option State
  | [] => some s
  | t :: rest =>
    match s.next t with
    | none => none
    | some s' => s'.run rest

/-- Go `json.Unmarshal([]byte(data), &acls)` for `var acls ACLs`: the map it
stores in `acls` when it returns `nil`, `none` when it returns an error. -/
def Unmarshal (data : String) : Option (List (String × List String)) :=
  match lex 0 none data.data with
  | none => none
  | some tokens =>
    match State.start.run tokens with
    | some (.done m) => some m
    | _ => none

end json

/-- The errors `StartMyMicroservice` returns: the decoder's error wrapped by
`errors.Wrap(err, "unmarshal ACLs error")`, or the error of `net.Listen`
as it is. -/
inductive StartError
  | unmarshalACLs
  | listen (err : GoError)
  deriving DecidableEq, Repr

/-- What `StartMyMicroservice` sets going, in program order: the listener
bound by `net.Listen("tcp", addr)`, the goroutine that registers the services
of `NewMainServer(ctx, acls)` and serves, the goroutine of the dispatch loop
on the new hub, and the goroutine that stops the server on `ctx.Done()`. -/
inductive StartAction
  | listen (addr : String)
  | serve (acls : ACLs)
  | dispatch (hub : Hub)
  | stop
  deriving DecidableEq, Repr

/-- `func StartMyMicroservice(ctx context.Context, addr, ACLData string)
error`.  `Listen` is `net.Listen("tcp", ·)`: the error it returns for an
address, `none` when it binds the listener. -/
def StartMyMicroservice (Listen : String → Option GoError) (addr ACLData : String) :
    List StartAction × Option StartError :=
  match json.Unmarshal ACLData with
  | none => ([], some StartError.unmarshalACLs)
  | some acls =>
    match Listen addr with
    | some err => ([], some (StartError.listen err))
    | none =>
      ([StartAction.listen addr, StartAction.serve acls, StartAction.dispatch Hub.start,
        StartAction.stop], none)


/-! ## A call running against the hub

The interceptors above list the statements of an accepted call in program
order.  Each of the two sends is a send on an unbuffered channel
(`make(chan *Event)`, `make(chan *statS)`): it completes only as a step taken
together with the dispatch loop, and the call stands at it until then.
`Call` runs the statements of one call one by one against a `Hub`. -/

/-- One call in progress: the hub, the statements of the call that are still
ahead (`todo`, in program order, the next one first) and the statements it
has completed (`trace`, oldest first). -/
structure Call where
  hub : Hub
  todo : List Action
  trace : Trace
  deriving DecidableEq, Repr

/-- A step of the system made of one call and the hub: a step of a goroutine
of the hub or of another publisher (`hub s`), or the next statement of the
call (`call`). -/
inductive Move
  | hub (s : Step)
  | call
  deriving DecidableEq, Repr

/-- One step of a call and the hub, `none` when the step is not enabled.  The
send `ms.loggingBroadcast <- e` of the call is the step `publishEvent e` of
the hub and the send `ms.statisticBroadcast <- s` is its step
`publishSignal s`: both need the dispatch loop at its `select`.  The call of
the handler needs nothing of the hub. -/
def Call.step (c : Call) : Move → Option Call
  | Move.hub s =>
    match c.hub.step s with
    | some h => some { c with hub := h }
    | none => none
  | Move.call =>
    match c.todo with
    | [] => none
    | Action.loggingBroadcast e :: rest =>
      match c.hub.step (Step.publishEvent e) with
      | some h =>
        some { hub := h, todo := rest, trace := c.trace ++ [Action.loggingBroadcast e] }
      | none => none
    | Action.statisticBroadcast s :: rest =>
      match c.hub.step (Step.publishSignal s) with
      | some h =>
        some { hub := h, todo := rest, trace := c.trace ++ [Action.statisticBroadcast s] }
      | none => none
    | Action.handler :: rest =>
      some { c with todo := rest, trace := c.trace ++ [Action.handler] }

/-- A sequence of steps of a call and the hub, `none` when one of them is not
enabled. -/
def Call.run (c : Call) : List Move → Option Call
  | [] => some c
  | m :: rest =>
    match c.step m with
    | none => none
    | some c' => c'.run rest

/-- A call of `unaryInterceptor` that starts against the hub `h`: ahead of it
are the statements that the interceptor runs for this request, nothing is
completed. -/
def Call.unary {α β : Type} (Sprintf : String → String) (ms : MainServer)
    (ctx : context.Context) (req : α) (info : grpc.UnaryServerInfo)
    (handler : context.Context → α → Option β × Option GoError) (h : Hub) : Call :=
  { hub := h, todo := (unaryInterceptor Sprintf ms ctx req info handler []).1, trace := [] }

/-- A call of `streamInterceptor` that starts against the hub `h`. -/
def Call.stream {σ : Type} (Sprintf : String → String) (ms : MainServer) (srv : σ)
    (ss : grpc.ServerStream) (info : grpc.StreamServerInfo)
    (handler : σ → grpc.ServerStream → Option GoError) (h : Hub) : Call :=
  { hub := h, todo := (streamInterceptor Sprintf ms srv ss info handler []).1, trace := [] }

/-- The next statement of the call is one of its two sends. -/
def Call.atSend (c : Call) : Bool :=
  match c.todo with
  | Action.loggingBroadcast _ :: _ => true
  | Action.statisticBroadcast _ :: _ => true
  | _ => false


end Microservice

/-!
# Library functions shared by the other packages

Models of the functions of the Go standard library that `hw2_signer`,
`hw4_test_coverage` and `hw5_codegen` call.  Go strings are `String`; on
valid UTF-8 text the byte-wise search and the byte-wise order of Go agree
with the character-wise search and order used here.
-/

namespace GoLib

namespace strconv

/-- Value of a run of ASCII decimal digits, most significant first, on top of
the value `acc` read so far; `none` at the first character that is not a
digit. -/
def digitsValue (acc : Nat) : List Char → Option Nat
  | [] => some acc
  | c :: cs => if c.isDigit then digitsValue (acc * 10 + (c.toNat - '0'.toNat)) cs else none

/-- A non-empty run of decimal digits read as a number (the unsigned part of
`strconv.ParseInt(s, 10, 0)`). -/
def parseDigits (cs : List Char) : Option Nat :=
  if cs = [] then none else digitsValue 0 cs

/-- Go `strconv.Atoi(s)` on a 64-bit platform: an optional sign `+` or `-`
followed by one or more decimal digits, with a value in the range of `int`
(`-2^63 .. 2^63 - 1`); `none` stands for a returned error (bad syntax or out
of range). -/
def Atoi (s : String) : Option Int :=
  match s.data with
  | '-' :: cs =>
    match parseDigits cs with
    | some n => if n ≤ 2 ^ 63 then some (-(n : Int)) else none
    | none => none
  | '+' :: cs =>
    match parseDigits cs with
    | some n => if n < 2 ^ 63 then some (n : Int) else none
    | none => none
  | cs =>
    match parseDigits cs with
    | some n => if n < 2 ^ 63 then some (n : Int) else none
    | none => none

end strconv

namespace strings

/-- Whether `pat` occurs in `cs` as a run of consecutive characters. -/
def containsChars (pat : List Char) : List Char → Bool
  | [] => pat.isEmpty
  | c :: cs => pat.isPrefixOf (c :: cs) || containsChars pat cs

/-- Go `strings.Contains(s, substr)`: `substr` occurs within `s`. -/
def Contains (s substr : String) : Bool :=
  containsChars substr.data s.data

/-- Lexicographic comparison of two character lists by code point. -/
def lessChars : List Char → List Char → Bool
  | _, [] => false
  | [], _ :: _ => true
  | a :: as, b :: bs =>
    if a.toNat < b.toNat then true
    else if b.toNat < a.toNat then false
    else lessChars as bs

/-- Go `a < b` on strings: lexicographic order (`a > b` is `Less b a`). -/
def Less (a b : String) : Bool :=
  lessChars a.data b.data

/-- Go `strings.Join(elems, sep)`: the elements concatenated, with `sep`
between consecutive elements; the empty string for no element. -/
def Join : List String → String → String
  | [], _ => ""
  | [a], _ => a
  | a :: b :: rest, sep => a ++ sep ++ Join (b :: rest) sep

end strings

namespace sort

/-- Go `sort.Slice(x, less)`, as the slice it leaves in `x`.  The comparison
`less` of the source reads two elements of the slice, so it is a function of
the two elements here.  The sort is an insertion sort that puts an element
before the first one that is not `less` than it; which of two elements that
are not `less` than each other comes first is not fixed by the library, and
no theorem below depends on it. -/
def Slice {α : Type} (x : List α) (less : α → α → Bool) : List α :=
  x.insertionSort (fun a b => less b a = false)

/-- Go `sort.Strings(x)`: `x` sorted in increasing order. -/
def Strings (x : List String) : List String :=
  Slice x (fun a b => strings.Less a b)

end sort

end GoLib

/-!
# hw4_test_coverage: the search server of the tests

A shallow embedding of `SearchServer` (`client_test.go`) and `sortUsers`
(`util.go`).  A request is read through `Header.Get` and `FormValue`; the
answer written to the `ResponseWriter` is a value of `Response`.  The type
`User` and the constants `OrderByAsc`, `OrderByDesc` are declared in
`client.go`, which is not part of the sources at hand: the constants are
parameters of the functions that use them.
-/

namespace Coverage

open GoLib

/-- The record `User`.  Its declaration is in `client.go`; the fields are the
ones that `getUsers` fills (`util.go`) and that `sortUsers`, `SearchServer`
and the tests read, with the types of the values they are given. -/
structure User where
  Id : Int
  Name : String
  Age : Int
  About : String
  Gender : String
  deriving DecidableEq, Repr

/-- What a request handler reads from `*http.Request`: `r.Header.Get(key)`
and `r.FormValue(key)`, both the empty string for a key that is absent. -/
structure Request where
  header : String → String
  form : String → String

/-- What `SearchServer` leaves in the `ResponseWriter`. -/
inductive Response
  /-- The call `http.Error(w, body, status)`. -/
  | error (body : String) (status : Nat)
  /-- The calls `w.WriteHeader(status)` (or none, status 200) and `w.Write(body)`. -/
  | raw (status : Nat) (body : String)
  /-- The JSON encoding of `SearchErrorResponse{msg}` under `status`. -/
  | searchError (status : Nat) (msg : String)
  /-- The JSON encoding of the slice `users` under status 200. -/
  | users (users : List User)
  /-- A run-time panic of a slice expression with a bound out of range. -/
  | panic
  deriving DecidableEq, Repr

def validAccessToken : String := "access"

/-- Source `sortUsers(users, orderField, orderBy)` (`util.go`).  Under
`case OrderByAsc` the comparison handed to `sort.Slice` is `>` on the chosen
field, under `case OrderByDesc` it is `<`; any other `orderBy` or
`orderField` leaves the slice as it is. -/
def sortUsers (OrderByAsc OrderByDesc : Int) (users : List User) (orderField : String)
    (orderBy : Int) : List User :=
  if orderBy = OrderByAsc then
    if orderField = "Name" then sort.Slice users (fun ui uj => strings.Less uj.Name ui.Name)
    else if orderField = "Id" then sort.Slice users (fun ui uj => decide (ui.Id > uj.Id))
    else if orderField = "Age" then sort.Slice users (fun ui uj => decide (ui.Age > uj.Age))
    else users
  else if orderBy = OrderByDesc then
    if orderField = "Name" then sort.Slice users (fun ui uj => strings.Less ui.Name uj.Name)
    else if orderField = "Id" then sort.Slice users (fun ui uj => decide (ui.Id < uj.Id))
    else if orderField = "Age" then sort.Slice users (fun ui uj => decide (ui.Age < uj.Age))
    else users
  else users

/-- The filter of `SearchServer`: for a non-empty query the users whose
`Name` or `About` contains it, in the order of the data set; all users for
the empty query. -/
def matching (query : String) (allUsers : List User) : List User :=
  if query ≠ "" then
    allUsers.filter (fun user => strings.Contains user.Name query || strings.Contains user.About query)
  else allUsers

/-- The two slice expressions that end `SearchServer`:
`if len(users) > limit { users = users[:limit] }` and
`if len(users) > offset { users = users[offset:] }`; `none` is the panic of a
negative bound. -/
def paginate (users : List User) (limit offset : Int) : Option (List User) :=
  let cut : Option (List User) :=
    if (users.length : Int) > limit then
      if limit < 0 then none else some (users.take limit.toNat)
    else some users
  match cut with
  | none => none
  | some users =>
    if (users.length : Int) > offset then
      if offset < 0 then none else some (users.drop offset.toNat)
    else some users

/-- Source `SearchServer(w, r)` (`client_test.go`).  `getUsers` is the result
of the function of that name on a file (`none` for an error); the sleep of the
query `timeout_error` takes time and changes nothing else. -/
def SearchServer (OrderByAsc OrderByDesc : Int) (getUsers : String → Option (List User))
    (r : Request) : Response :=
  let accessToken := r.header "AccessToken"
  if accessToken ≠ validAccessToken then Response.error "Bad AccessToken" 401
  else
    let query := r.form "query"
    if query = "invalid_json" then Response.raw 200 "invalid json test"
    else if query = "bad_request_invalid_json" then Response.raw 400 "invalid json test"
    else if query = "bad_request_unknown_error" then Response.searchError 400 "UnknownError"
    else if query = "internal_server_error" then Response.error "InternalServerError" 500
    else
      match strconv.Atoi (r.form "limit") with
      | none => Response.error "InternalServerError" 500
      | some limit =>
        match strconv.Atoi (r.form "offset") with
        | none => Response.error "InternalServerError" 500
        | some offset =>
          let orderField := if r.form "order_field" = "" then "Name" else r.form "order_field"
          match strconv.Atoi (r.form "order_by") with
          | none => Response.error "InternalServerError" 500
          | some orderBy =>
            if orderField ≠ "Name" ∧ orderField ≠ "Id" ∧ orderField ≠ "Age" then
              Response.searchError 400 "ErrorBadOrderField"
            else
              match getUsers "dataset.xml" with
              | none => Response.error "InternalServerError" 500
              | some allUsers =>
                let users := matching query allUsers
                if orderBy > 1 ∨ orderBy < -1 then Response.error "ErrorBadOrderBy" 400
                else
                  let users := sortUsers OrderByAsc OrderByDesc users orderField orderBy
                  match paginate users limit offset with
                  | none => Response.panic
                  | some users => Response.users users

end Coverage

/-!
# hw2_signer: the last stage of the pipeline

A shallow embedding of `CombineResults` (`signer.go`).  The values that the
stage receives from its input channel until the channel is closed are a
list, in the order of arrival; what it sends to its output channel is a
list as well.
-/

namespace Signer

open GoLib

/-- A value of type `interface{}` taken from the input channel: a string, or
a value of another dynamic type. -/
inductive Input
  | string (s : String)
  | other
  deriving DecidableEq, Repr

/-- The loop `for input := range in { str = append(str, input.(string)) }`:
the strings received, in order; `none` is the panic of the type assertion on
a value that is not a string. -/
def collect : List Input → Option (List String)
  | [] => some []
  | Input.string s :: rest =>
    match collect rest with
    | some str => some (s :: str)
    | none => none
  | Input.other :: _ => none

/-- Source `CombineResults(in, out)`: the values sent to `out` when `inputs`
are the values received from `in` before it is closed; `none` when the stage
panics. -/
def CombineResults (inputs : List Input) : Option (List String) :=
  match collect inputs with
  | none => none
  | some str =>
    let str := sort.Strings str
    let result := strings.Join str "_"
    some [result]

end Signer

/-!
# hw5_codegen: the generated handler of `Create`

A shallow embedding of `(*MyApi).handlerCreate` (`api_handlers.go`).  The
request is what the handler reads of it; the business method `Create` is a
parameter.  The types `ApiError` and `CreateParams` are declared in `api.go`
and are given here by the fields that the handler fills.
-/

namespace Codegen

open GoLib

/-- What the handler reads from `*http.Request`: `r.Method`,
`r.Header.Get(key)`, `r.URL.Query()[key]` (`none` for an absent key) and
`r.FormValue(key)`. -/
structure Request where
  Method : String
  header : String → String
  query : String → Option (List String)
  form : String → String

/-- The value `ApiError{HTTPStatus, errors.New(Err)}`. -/
structure ApiError where
  HTTPStatus : Nat
  Err : String
  deriving DecidableEq, Repr

/-- The value `CreateParams{Login, Name, Status, Age}`. -/
structure CreateParams where
  Login : String
  Name : String
  Status : String
  Age : Int
  deriving DecidableEq, Repr

/-- How a run of the handler ends, for a business method that returns a
result of type `ρ` or an error of type `ε`. -/
inductive Outcome (ρ ε : Type)
  /-- The handler returns an `ApiError` of its own; `Create` has not been called. -/
  | apiError (e : ApiError)
  /-- `Create` has been called with `params` and has returned the error `err`,
  which the handler returns. -/
  | createFailed (params : CreateParams) (err : ε)
  /-- `Create` has been called with `params` and has returned `res`; the handler
  writes the JSON object with the fields `error` (empty) and `response` (`res`),
  and returns `nil`. -/
  | ok (params : CreateParams) (res : ρ)
  deriving DecidableEq, Repr

/-- The argument that `Create` has been called with, if it has been called. -/
def Outcome.called {ρ ε : Type} : Outcome ρ ε → Option CreateParams
  | Outcome.apiError _ => none
  | Outcome.createFailed params _ => some params
  | Outcome.ok params _ => some params

/-- The `switch r.Method` that reads the parameter `key`: the first value of
the URL query for `GET`, the form value for `POST`, the empty string for any
other method. -/
def param (r : Request) (key : String) : String :=
  if r.Method = "GET" then
    match r.query key with
    | some (v :: _) => v
    | _ => ""
  else if r.Method = "POST" then r.form key
  else ""

/-- Source `(srv *MyApi) handlerCreate(w, r)`.  `Create params` is the pair
`(res, err)` that `srv.Create(ctx, params)` returns, `err = none` being
`nil`; `len(login)` is the length of the string in bytes. -/
def handlerCreate {ρ ε : Type} (Create : CreateParams → ρ × Option ε) (r : Request) :
    Outcome ρ ε :=
  if r.Method ≠ "POST" then Outcome.apiError ⟨406, "bad method"⟩
  else if r.header "X-Auth" ≠ "100500" then Outcome.apiError ⟨403, "unauthorized"⟩
  else
    let login := param r "login"
    if login = "" then Outcome.apiError ⟨400, "login must be not empty"⟩
    else if login.utf8ByteSize < 10 then Outcome.apiError ⟨400, "login len must be >= 10"⟩
    else
      let name := param r "full_name"
      let status := param r "status"
      if status ≠ "" ∧ (status ≠ "user" ∧ status ≠ "moderator" ∧ status ≠ "admin") then
        Outcome.apiError ⟨400, "status must be one of [user, moderator, admin]"⟩
      else
        let status := if status = "" then "user" else status
        match strconv.Atoi (param r "age") with
        | none => Outcome.apiError ⟨400, "age must be int"⟩
        | some age =>
          if age < 0 then Outcome.apiError ⟨400, "age must be >= 0"⟩
          else if age > 128 then Outcome.apiError ⟨400, "age must be <= 128"⟩
          else
            let params : CreateParams := ⟨login, name, status, age⟩
            match Create params with
            | (_, some err) => Outcome.createFailed params err
            | (res, none) => Outcome.ok params res

/-- The condition of the claim under which the handler reaches `Create`: the
method is `POST`, the header `X-Auth` is `100500`, the login is non-empty and
at least 10 bytes long, the status is empty or one of the three roles, and
the age parses as an integer between 0 and 128. -/
def createAccepted (r : Request) : Prop :=
  r.Method = "POST" ∧ r.header "X-Auth" = "100500" ∧
  r.form "login" ≠ "" ∧ 10 ≤ (r.form "login").utf8ByteSize ∧
  r.form "status" ∈ ["", "user", "moderator", "admin"] ∧
  ∃ age : Int, strconv.Atoi (r.form "age") = some age ∧ 0 ≤ age ∧ age ≤ 128

end Codegen

/-!
# hw8_i2s: decoding generic data into a typed value

A shallow embedding of `i2s`, `unmarshalStruct`, `unmarshalSlice` and
`keyIndex` (`i2s.go`).  The source works through `reflect`: the target `out`
is a pointer to a variable of some type, and `data` is a value of type
`interface{}`.  Here

* a Go type is a `GoType`, a value of a type is a `Value` (a struct value is
  the list of its field values, in the order of the fields of its type; a
  slice is `nil` or holds a list of elements, which may be empty);
* a struct field is exported when its name begins with an upper-case letter
  (`isExported`); `reflect` panics when an unexported field is set or turned
  into an interface value;
* `data` is an `Iface`: the values that `encoding/json` decodes into an
  `interface{}` (`nil`, `float64`, `string`, `bool`, `map[string]interface{}`,
  `[]interface{}`); a finite `float64` number is given by its exact value, a
  rational number;
* a call returns the new content of the variable, an error, or panics; what
  the variable holds after a returned error is not modelled.
-/

namespace I2s

/-- The kinds of `reflect.Kind` that the source meets. -/
inductive Kind
  | Invalid | Bool | Int | Float64 | Map | Slice | String | Struct | Other
  deriving DecidableEq, Repr

/-- Go types: `int`, `string`, `bool`, a struct type with its fields in
order, a slice type, and `other` for a type of a kind that the source does
not name.  Array types, which the source sends to `unmarshalSlice`, are left
out. -/
inductive GoType
  | int
  | string
  | bool
  | struct (fields : List (String × GoType))
  | slice (elem : GoType)
  | other

/-- Values of the types of `GoType`.  `nilSlice` is the `nil` slice, the zero
value of a slice type; `slice elems` is a slice that is not `nil`. -/
inductive Value
  | int (n : Int)
  | string (s : String)
  | bool (b : Bool)
  | struct (fields : List Value)
  | nilSlice
  | slice (elems : List Value)
  | other

/-- Values of type `interface{}` as `encoding/json` decodes them. -/
inductive Iface
  | nil
  | float64 (x : ℚ)
  | string (s : String)
  | bool (b : Bool)
  | map (entries : List (String × Iface))
  | slice (elems : List Iface)

/-- The errors that the source builds with `fmt.Errorf`. -/
inductive I2sError
  /-- The text `<out> not pointer value`. -/
  | notPointer
  /-- The text `unsupported out value type <kind>`. -/
  | unsupportedOut (kind : Kind)
  /-- The text `invalid data type got: <got>, want: <want>`. -/
  | invalidDataType (got want : Kind)
  /-- The text `invalid value type got: <got>, want: <want>`. -/
  | invalidValueType (got want : Kind)
  /-- The text `bad data structure got: <got>, want: <want>`. -/
  | badDataStructure (got want : Kind)
  deriving DecidableEq, Repr

/-- How a call ends: `ok out` is the return of `nil` with the content `out` of
the target, `error e` the return of an error, `panic` a run-time panic. -/
inductive Result (α : Type)
  | ok (out : α)
  | error (e : I2sError)
  | panic

/-- Go `reflect.TypeOf(out).Elem().Kind()` for a target of type `t`. -/
def GoType.Kind : GoType → Kind
  | GoType.int => Kind.Int
  | GoType.string => Kind.String
  | GoType.bool => Kind.Bool
  | GoType.struct _ => Kind.Struct
  | GoType.slice _ => Kind.Slice
  | GoType.other => Kind.Other

/-- Kind of the dynamic value of an interface, `Invalid` for `nil`
(`reflect.Value.Elem().Kind()` on a map entry). -/
def Iface.Kind : Iface → Kind
  | Iface.nil => Kind.Invalid
  | Iface.float64 _ => Kind.Float64
  | Iface.string _ => Kind.String
  | Iface.bool _ => Kind.Bool
  | Iface.map _ => Kind.Map
  | Iface.slice _ => Kind.Slice

mutual
/-- Go `reflect.Zero(t)`: the zero value of a type. -/
def zero : GoType → Value
  | GoType.int => Value.int 0
  | GoType.string => Value.string ""
  | GoType.bool => Value.bool false
  | GoType.struct fields => Value.struct (zeroFields fields)
  | GoType.slice _ => Value.nilSlice
  | GoType.other => Value.other
/-- The zero values of the fields of a struct type. -/
def zeroFields : List (String × GoType) → List Value
  | [] => []
  | (_, t) :: fields => zero t :: zeroFields fields
end

/-- Whether a struct field of this name is exported: the name begins with an
upper-case letter.  The letters `A` to `Z` are recognised; a name that begins
with an upper-case letter outside ASCII counts as unexported here. -/
def isExported (name : String) : Bool :=
  match name.data with
  | c :: _ => c.isUpper
  | [] => false

/-- Go `int64(f)` for a finite `float64` number `f`: the value truncated
towards zero.  For a value outside the range of `int64` the language leaves
the result to the implementation; it is `-2^63` here, as on amd64. -/
def int64 (f : ℚ) : Int :=
  if -(2 : Int) ^ 63 ≤ f.num.tdiv f.den ∧ f.num.tdiv f.den < (2 : Int) ^ 63 then f.num.tdiv f.den
  else -(2 : Int) ^ 63

/-- The loop of `unmarshalSlice` from index `i` on: for each element of the
data, append the zero value `zeroElem` to the slice `cur`, then decode the
element into `cur[i]` with `i2sElem`. -/
def unmarshalSlice.loop (i2sElem : Iface → Value → Result Value) (zeroElem : Value) :
    List Iface → Nat → List Value → Result (List Value)
  | [], _, cur => Result.ok cur
  | d :: rest, i, cur =>
    let cur := cur ++ [zeroElem]
    match i2sElem d (cur.getD i zeroElem) with
    | Result.ok v => unmarshalSlice.loop i2sElem zeroElem rest (i + 1) (cur.set i v)
    | Result.error e => Result.error e
    | Result.panic => Result.panic

/-- Source `unmarshalSlice(data, out)` for a target slice with the content
`out`, whose element type has the zero value `zeroElem` and is decoded by
`i2sElem` (the call of `i2s` on a pointer to an element).  `data = nil` makes
`reflect.TypeOf(data).Kind()` panic.  With no element in the data the loop
does not run and the target keeps its content, a `nil` slice stays `nil`;
`reflect.Append` on a `nil` slice gives a slice that is not `nil`. -/
def unmarshalSlice (i2sElem : Iface → Value → Result Value) (zeroElem : Value) (data : Iface)
    (out : Value) : Result Value :=
  match data with
  | Iface.nil => Result.panic
  | Iface.slice elems =>
    match out with
    | Value.nilSlice =>
      match elems with
      | [] => Result.ok Value.nilSlice
      | _ :: _ =>
        match unmarshalSlice.loop i2sElem zeroElem elems 0 [] with
        | Result.ok cur => Result.ok (Value.slice cur)
        | Result.error e => Result.error e
        | Result.panic => Result.panic
    | Value.slice cur =>
      match unmarshalSlice.loop i2sElem zeroElem elems 0 cur with
      | Result.ok cur => Result.ok (Value.slice cur)
      | Result.error e => Result.error e
      | Result.panic => Result.panic
    | _ => Result.panic
  | d => Result.error (I2sError.badDataStructure d.Kind Kind.Slice)

mutual
/-- Source `i2s(data, out)` for `out` a pointer to a variable of type `t`
with the content `out`: a struct goes to `unmarshalStruct`, a slice to
`unmarshalSlice`, any other kind is an error. -/
def i2sPtr (data : Iface) : GoType → Value → Result Value
  | GoType.struct fields, out =>
    -- unmarshalStruct
    match data with
    | Iface.nil => Result.panic
    | Iface.map entries =>
      match out with
      | Value.struct outFields =>
        match unmarshalStruct.fields entries fields outFields with
        | Result.ok outFields => Result.ok (Value.struct outFields)
        | Result.error e => Result.error e
        | Result.panic => Result.panic
      | _ => Result.panic
    | d => Result.error (I2sError.invalidDataType d.Kind Kind.Map)
  | GoType.slice elem, out =>
    unmarshalSlice (fun d x => i2sPtr d elem x) (zero elem) data out
  | t, _ => Result.error (I2sError.unsupportedOut t.Kind)
/-- The loop of `unmarshalStruct` over the fields of the target: a field
whose name is no key of the map keeps its content; a field of kind `int`,
`string` or `bool` takes the value of the entry if the entry has the kind
`float64`, `string` or `bool`; a field of kind slice or struct is decoded by
`i2s` from an entry of kind slice or map; a field of another kind keeps its
content.  The kind of the entry is checked first; then, on an unexported
field, `SetInt`, `SetString`, `SetBool` and `outField.Addr().Interface()`
panic. -/
def unmarshalStruct.fields (entries : List (String × Iface)) :
    List (String × GoType) → List Value → Result (List Value)
  | [], _ => Result.ok []
  | _ :: _, [] => Result.panic
  | (outFieldName, t) :: fields, outField :: outFields =>
    let field : Result Value :=
      match entries.lookup outFieldName with
      | none => Result.ok outField
      | some dataKeyValue =>
        match t.Kind with
        | Kind.Int =>
          match dataKeyValue with
          | Iface.float64 fValue =>
            if isExported outFieldName then Result.ok (Value.int (int64 fValue))
            else Result.panic
          | d => Result.error (I2sError.invalidValueType d.Kind Kind.Float64)
        | Kind.String =>
          match dataKeyValue with
          | Iface.string s =>
            if isExported outFieldName then Result.ok (Value.string s) else Result.panic
          | d => Result.error (I2sError.invalidValueType d.Kind Kind.String)
        | Kind.Bool =>
          match dataKeyValue with
          | Iface.bool b =>
            if isExported outFieldName then Result.ok (Value.bool b) else Result.panic
          | d => Result.error (I2sError.invalidValueType d.Kind Kind.Bool)
        | Kind.Slice =>
          if dataKeyValue.Kind ≠ Kind.Slice then
            Result.error (I2sError.invalidValueType dataKeyValue.Kind Kind.Slice)
          else if isExported outFieldName then i2sPtr dataKeyValue t outField
          else Result.panic
        | Kind.Struct =>
          if dataKeyValue.Kind ≠ Kind.Map then
            Result.error (I2sError.invalidValueType dataKeyValue.Kind Kind.Map)
          else if isExported outFieldName then i2sPtr dataKeyValue t outField
          else Result.panic
        | _ => Result.ok outField
    match field with
    | Result.ok v =>
      match unmarshalStruct.fields entries fields outFields with
      | Result.ok vs => Result.ok (v :: vs)
      | Result.error e => Result.error e
      | Result.panic => Result.panic
    | Result.error e => Result.error e
    | Result.panic => Result.panic
end

/-- The second argument of `i2s`: a pointer to a variable of type `t` with the
content `v`, or a value that is not a pointer. -/
inductive Out
  | ptr (t : GoType) (v : Value)
  | nonPointer

/-- Source `i2s(data, out)`. -/
def i2s (data : Iface) : Out → Result Value
  | Out.nonPointer => Result.error I2sError.notPointer
  | Out.ptr t v => i2sPtr data t v

/-! ## The generic representation of a value -/

/-- Number of low bits that a natural number below `2^64` loses when it is
held with 53 significant bits: the number of `k < 12` with `2^(53+k) ≤ a`. -/
def float64Dropped (a : Nat) : Nat :=
  ((List.range 12).filter (fun k => decide (2 ^ (53 + k) ≤ a))).length

/-- A natural number below `2^64` rounded to 53 significant bits: the nearest
such number, a tie going to the one with an even last bit. -/
def float64Round (a : Nat) : Nat :=
  let k := float64Dropped a
  let q := a / 2 ^ k
  let r := a % 2 ^ k
  let q := if 2 * r > 2 ^ k ∨ (2 * r = 2 ^ k ∧ q % 2 = 1) then q + 1 else q
  q * 2 ^ k

/-- Go `float64(n)` for an `int` `n`, which is also the number that
`encoding/json` decodes from the decimal digits of `n`: the nearest number
with 53 significant bits, with the sign of `n`. -/
def float64OfInt (n : Int) : ℚ :=
  Rat.ofInt (n.sign * (float64Round n.natAbs : Int))

mutual
/-- The generic representation of a value `v` of type `t`, as `encoding/json`
decodes the JSON text of `v` into an `interface{}`: an `int` is the `float64`
number nearest to it, a string and a bool are themselves, a struct is the map
from the names of its exported fields to the representations of these fields
(an unexported field has no entry), a `nil` slice is `nil` (JSON `null`), any
other slice is the slice of the representations of its elements. -/
def repr : GoType → Value → Iface
  | GoType.int, Value.int n => Iface.float64 (float64OfInt n)
  | GoType.string, Value.string s => Iface.string s
  | GoType.bool, Value.bool b => Iface.bool b
  | GoType.struct fields, Value.struct vs => Iface.map (reprFields fields vs)
  | GoType.slice elem, Value.slice vs => Iface.slice (vs.map (fun v => repr elem v))
  | _, _ => Iface.nil
/-- The entries of the representation of a struct. -/
def reprFields : List (String × GoType) → List Value → List (String × Iface)
  | (name, t) :: fields, v :: vs =>
    if isExported name then (name, repr t v) :: reprFields fields vs
    else reprFields fields vs
  | _, _ => []
end

mutual
/-- The types that the amended claim is about: a struct type with distinct
field names whose fields are exported and of kind `int`, `string` or `bool`
or of such a type again, and a slice type whose elements are of such a
type. -/
def GoType.decodable : GoType → Bool
  | GoType.struct fields =>
    decide ((fields.map Prod.fst).Nodup) && GoType.fieldsDecodable fields
  | GoType.slice elem => GoType.decodable elem
  | _ => false
/-- Every field is exported and of kind `int`, `string` or `bool`, or of a
decodable type. -/
def GoType.fieldsDecodable : List (String × GoType) → Bool
  | [] => true
  | (name, t) :: fields =>
    isExported name &&
    (decide (t.Kind = Kind.Int) || decide (t.Kind = Kind.String) || decide (t.Kind = Kind.Bool)
      || GoType.decodable t) && GoType.fieldsDecodable fields
end

mutual
/-- The types of the claim as it stands: a struct type with distinct field
names whose fields are of kind `int`, `string` or `bool`, of such a struct
type, or slices of such a struct type. -/
def GoType.claimed : GoType → Bool
  | GoType.struct fields =>
    decide ((fields.map Prod.fst).Nodup) && GoType.fieldsClaimed fields
  | _ => false
/-- Every field is of one of the kinds of the claim. -/
def GoType.fieldsClaimed : List (String × GoType) → Bool
  | [] => true
  | (_, t) :: fields =>
    (match t with
      | GoType.int => true
      | GoType.string => true
      | GoType.bool => true
      | GoType.struct fs => GoType.claimed (GoType.struct fs)
      | GoType.slice (GoType.struct fs) => GoType.claimed (GoType.struct fs)
      | _ => false) && GoType.fieldsClaimed fields
end

mutual
/-- The value `v` is a value of the type `t`; an `int` is in `-2^63 .. 2^63 - 1`. -/
def hasType : GoType → Value → Bool
  | GoType.int, Value.int n => decide (-(2 : Int) ^ 63 ≤ n ∧ n < (2 : Int) ^ 63)
  | GoType.string, Value.string _ => true
  | GoType.bool, Value.bool _ => true
  | GoType.struct fields, Value.struct vs => fieldsHaveType fields vs
  | GoType.slice _, Value.nilSlice => true
  | GoType.slice elem, Value.slice vs => vs.all (fun v => hasType elem v)
  | GoType.other, Value.other => true
  | _, _ => false
/-- The values `vs` are values of the types of the fields, in order. -/
def fieldsHaveType : List (String × GoType) → List Value → Bool
  | [], [] => true
  | (_, t) :: fields, v :: vs => hasType t v && fieldsHaveType fields vs
  | _, _ => false
end

mutual
/-- Every `int` inside the value is a number that `float64` holds exactly. -/
def Value.exact : Value → Bool
  | Value.int n => decide (float64OfInt n = (n : ℚ))
  | Value.struct vs => Value.allExact vs
  | Value.slice vs => Value.allExact vs
  | _ => true
/-- Every value of the list is exact. -/
def Value.allExact : List Value → Bool
  | [] => true
  | v :: vs => Value.exact v && Value.allExact vs
end

mutual
/-- Every slice inside the value has at least one element (so it is not
`nil` either). -/
def Value.slicesNonEmpty : Value → Bool
  | Value.nilSlice => false
  | Value.slice [] => false
  | Value.slice (v :: vs) => Value.slicesNonEmpty v && Value.allSlicesNonEmpty vs
  | Value.struct vs => Value.allSlicesNonEmpty vs
  | _ => true
/-- Every slice inside the values of the list has at least one element. -/
def Value.allSlicesNonEmpty : List Value → Bool
  | [] => true
  | v :: vs => Value.slicesNonEmpty v && Value.allSlicesNonEmpty vs
end

/-- The entries `entries` map the name of every field to the representation
of its value. -/
def agrees (entries : List (String × Iface)) : List (String × GoType) → List Value → Prop
  | (name, t) :: fields, v :: vs =>
    entries.lookup name = some (repr t v) ∧ agrees entries fields vs
  | _, _ => True

end I2s

namespace Microservice


/-! ## Theorems -/

theorem reqAuth.allows_iff (method m : String) :
    reqAuth.allows method m = true ↔ patternMatches m method := by
  unfold reqAuth.allows patternMatches segments
  generalize strings.Split (strings.TrimLeft m "/") '/' = a
  generalize strings.Split (strings.TrimLeft method "/") '/' = b
  rcases a with _ | ⟨a0, _ | ⟨a1, _ | ⟨a2, as⟩⟩⟩ <;>
    rcases b with _ | ⟨b0, _ | ⟨b1, _ | ⟨b2, bs⟩⟩⟩ <;>
    simp [Nat.forall_lt_succ]
  constructor <;> rintro ⟨h0, h1⟩ <;> constructor <;>
    first
    | exact h0.imp_left Eq.symm
    | exact h1.imp_left Eq.symm

theorem reqAuth.scan_eq_none_iff (method : String) (patterns : List String) :
    reqAuth.scan method patterns = none ↔ ∃ p ∈ patterns, patternMatches p method := by
  induction patterns with
  | nil => simp [reqAuth.scan]
  | cons m rest ih =>
    by_cases h : reqAuth.allows method m = true
    · have hm := (reqAuth.allows_iff method m).1 h
      simp [reqAuth.scan, h, hm]
    · have hm : ¬ patternMatches m method := fun hp => h ((reqAuth.allows_iff method m).2 hp)
      simp [reqAuth.scan, h, hm, ih]

theorem reqAuth.scan_eq_none_or_denied (method : String) (patterns : List String) :
    reqAuth.scan method patterns = none ∨ reqAuth.scan method patterns = some accessDenied := by
  induction patterns with
  | nil => simp [reqAuth.scan]
  | cons m rest ih =>
    by_cases h : reqAuth.allows method m = true <;> simp [reqAuth.scan, h, ih]

theorem strings.TrimLeft_slash_append (m : String) :
    strings.TrimLeft ("/" ++ m) "/" = strings.TrimLeft m "/" := by
  simp [strings.TrimLeft, String.data_append]

theorem reqAuth.allows_slash_append (m pattern : String) :
    reqAuth.allows ("/" ++ m) pattern = reqAuth.allows m pattern := by
  unfold reqAuth.allows
  rw [strings.TrimLeft_slash_append]

theorem reqAuth.scan_slash_append (m : String) (patterns : List String) :
    reqAuth.scan ("/" ++ m) patterns = reqAuth.scan m patterns := by
  induction patterns with
  | nil => rfl
  | cons p rest ih => simp [reqAuth.scan, reqAuth.allows_slash_append, ih]

theorem unknownConsumer_ne_accessDenied (consumer : String) :
    unknownConsumer consumer ≠ accessDenied := by
  intro h
  have hd := congrArg (fun e => (GoError.Error e).data.head?) h
  simp [unknownConsumer, accessDenied, GoError.Error, String.data_append] at hd

/-- C1: for a consumer whose ACL entry is `patterns`, `reqAuth` grants access
(returns `nil`) if and only if some pattern of the entry matches the method,
segment by segment with `*` as wildcard; when no pattern matches it returns
the error `access denied`. -/
theorem reqAuth_grants_iff_pattern_matches (ms : MainServer) (consumer method : String)
    (patterns : List String) (h : ms.acls.lookup consumer = some patterns) :
    (reqAuth ms consumer method = none ↔ ∃ p ∈ patterns, patternMatches p method) ∧
    ((∀ p ∈ patterns, ¬ patternMatches p method) →
      reqAuth ms consumer method = some (GoError.plain "access denied")) := by
  have hreq : reqAuth ms consumer method = reqAuth.scan method patterns := by
    simp [reqAuth, h]
  refine ⟨by rw [hreq]; exact reqAuth.scan_eq_none_iff method patterns, fun hno => ?_⟩
  rw [hreq]
  rcases reqAuth.scan_eq_none_or_denied method patterns with hn | hd
  · obtain ⟨p, hp, hm⟩ := (reqAuth.scan_eq_none_iff method patterns).1 hn
    exact absurd hm (hno p hp)
  · exact hd

theorem reqAuth_grants_iff_pattern_matches_witness :
    (reqAuth ⟨[("biz_admin", ["/main.Biz/*"]), ("logger", ["/main.Admin/Logging"])]⟩
        "biz_admin" "/main.Biz/Check" = none ↔
      ∃ p ∈ ["/main.Biz/*"], patternMatches p "/main.Biz/Check") ∧
    ((∀ p ∈ ["/main.Biz/*"], ¬ patternMatches p "/main.Biz/Check") →
      reqAuth ⟨[("biz_admin", ["/main.Biz/*"]), ("logger", ["/main.Admin/Logging"])]⟩
        "biz_admin" "/main.Biz/Check" = some (GoError.plain "access denied")) :=
  reqAuth_grants_iff_pattern_matches
    ⟨[("biz_admin", ["/main.Biz/*"]), ("logger", ["/main.Admin/Logging"])]⟩
    "biz_admin" "/main.Biz/Check" ["/main.Biz/*"] (by decide)

/-- C2: for a consumer that is not a key of the ACL, `reqAuth` returns the
error `no such consumer: <consumer> in ACL list` for every method; the result
is neither the `access denied` error nor `nil`. -/
theorem reqAuth_unknown_consumer (ms : MainServer) (consumer method : String)
    (h : consumer ∉ ms.acls.map Prod.fst) :
    reqAuth ms consumer method =
      some (GoError.plain ("no such consumer: " ++ consumer ++ " in ACL list")) ∧
    reqAuth ms consumer method ≠ some (GoError.plain "access denied") ∧
    reqAuth ms consumer method ≠ none := by
  have hl : ms.acls.lookup consumer = none := by
    rw [List.lookup_eq_none_iff]
    intro p hp
    have hne : consumer ≠ p.1 := fun he => h (he ▸ List.mem_map_of_mem Prod.fst hp)
    simpa using hne
  have hreq : reqAuth ms consumer method = some (unknownConsumer consumer) := by
    simp [reqAuth, hl]
  refine ⟨hreq, ?_, ?_⟩
  · rw [hreq]
    intro he
    exact unknownConsumer_ne_accessDenied consumer (Option.some.inj he)
  · rw [hreq]
    exact Option.some_ne_none _

theorem reqAuth_unknown_consumer_witness :
    "guest" ∉ ([("biz_admin", ["/main.Biz/*"])] : ACLs).map Prod.fst ∧
    reqAuth ⟨[("biz_admin", ["/main.Biz/*"])]⟩ "guest" "/main.Biz/Check" =
      some (GoError.plain ("no such consumer: " ++ "guest" ++ " in ACL list")) ∧
    reqAuth ⟨[("biz_admin", ["/main.Biz/*"])]⟩ "guest" "/main.Biz/Check" ≠
      some (GoError.plain "access denied") ∧
    reqAuth ⟨[("biz_admin", ["/main.Biz/*"])]⟩ "guest" "/main.Biz/Check" ≠ none :=
  ⟨by decide,
    reqAuth_unknown_consumer ⟨[("biz_admin", ["/main.Biz/*"])]⟩ "guest" "/main.Biz/Check"
      (by decide)⟩

/-- C3 (as stated, refuted): with the ACL that maps `svc-a` to the patterns
`Foo.*` and `*.Ping`, `reqAuth` denies `Foo.Bar` and `Any.Ping` to `svc-a`:
the separator of the code is `/`, so a pattern written with `.` has one
segment and is skipped. -/
theorem reqAuth_dot_patterns_denied :
    reqAuth ⟨[("svc-a", ["Foo.*", "*.Ping"])]⟩ "svc-a" "Foo.Bar" =
      some (GoError.plain "access denied") ∧
    reqAuth ⟨[("svc-a", ["Foo.*", "*.Ping"])]⟩ "svc-a" "Any.Ping" =
      some (GoError.plain "access denied") := by
  decide

/-- C3 (amended): with the ACL that maps `svc-a` to the patterns `Foo/*` and
`*/Ping`, `reqAuth` grants `Foo/Bar` and `Any/Ping` to `svc-a` and denies
`Bar/Baz`; with the patterns and methods written with `.` it denies
`Bar.Baz`. -/
theorem reqAuth_slash_patterns_example :
    reqAuth ⟨[("svc-a", ["Foo/*", "*/Ping"])]⟩ "svc-a" "Foo/Bar" = none ∧
    reqAuth ⟨[("svc-a", ["Foo/*", "*/Ping"])]⟩ "svc-a" "Any/Ping" = none ∧
    reqAuth ⟨[("svc-a", ["Foo/*", "*/Ping"])]⟩ "svc-a" "Bar/Baz" =
      some (GoError.plain "access denied") ∧
    reqAuth ⟨[("svc-a", ["Foo.*", "*.Ping"])]⟩ "svc-a" "Bar.Baz" =
      some (GoError.plain "access denied") := by
  decide

/-- C4: `reqAuth` returns the same result for the wire form `"/" ++ m` of a
method identifier as for `m` itself, for every ACL and consumer. -/
theorem reqAuth_leading_separator (ms : MainServer) (consumer m : String) :
    reqAuth ms consumer ("/" ++ m) = reqAuth ms consumer m := by
  unfold reqAuth
  cases ms.acls.lookup consumer with
  | none => rfl
  | some allowedMethods => exact reqAuth.scan_slash_append m allowedMethods

/-- C5: when a call is rejected (the consumer cannot be extracted, the peer
is not resolved, or `reqAuth` denies) both interceptors return the trace they
were given: nothing is sent on `loggingBroadcast` or `statisticBroadcast` and
the handler is not invoked. -/
theorem rejected_call_publishes_nothing {α β σ : Type} (Sprintf : String → String)
    (ms : MainServer) (ctx : context.Context) (method : String) (req : α)
    (handler : context.Context → α → Option β × Option GoError) (srv : σ)
    (streamHandler : σ → grpc.ServerStream → Option GoError) (t : Trace)
    (h : (consumerFromCtx ctx).2 ≠ none ∨ ctx.peer = none ∨
      reqAuth ms (consumerFromCtx ctx).1 method ≠ none) :
    (unaryInterceptor Sprintf ms ctx req ⟨method⟩ handler t).1 = t ∧
    (streamInterceptor Sprintf ms srv ⟨ctx⟩ ⟨method⟩ streamHandler t).1 = t := by
  unfold unaryInterceptor streamInterceptor
  rcases hc : consumerFromCtx ctx with ⟨consumer, _ | err⟩
  · rw [hc] at h
    cases hp : ctx.peer with
    | none => simp
    | some p =>
      cases ha : reqAuth ms consumer method with
      | none => simp [hp, ha] at h
      | some e => simp [ha]
  · simp

theorem rejected_call_publishes_nothing_witness :
    ((consumerFromCtx ⟨some [("consumer", ["guest"])], some ⟨"127.0.0.1:8082"⟩⟩).2 ≠ none ∨
      (⟨some [("consumer", ["guest"])], some ⟨"127.0.0.1:8082"⟩⟩ : context.Context).peer = none ∨
      reqAuth ⟨[("biz_admin", ["/main.Biz/*"])]⟩
        (consumerFromCtx ⟨some [("consumer", ["guest"])], some ⟨"127.0.0.1:8082"⟩⟩).1
        "/main.Biz/Check" ≠ none) ∧
    (unaryInterceptor id ⟨[("biz_admin", ["/main.Biz/*"])]⟩
      ⟨some [("consumer", ["guest"])], some ⟨"127.0.0.1:8082"⟩⟩ (7 : Nat) ⟨"/main.Biz/Check"⟩
      (fun _ r => (some r, none)) [Action.handler]).1 = [Action.handler] ∧
    (streamInterceptor id ⟨[("biz_admin", ["/main.Biz/*"])]⟩ (7 : Nat)
      ⟨⟨some [("consumer", ["guest"])], some ⟨"127.0.0.1:8082"⟩⟩⟩ ⟨"/main.Biz/Check"⟩
      (fun _ _ => none) [Action.handler]).1 = [Action.handler] :=
  ⟨by decide,
    rejected_call_publishes_nothing id ⟨[("biz_admin", ["/main.Biz/*"])]⟩
      ⟨some [("consumer", ["guest"])], some ⟨"127.0.0.1:8082"⟩⟩ "/main.Biz/Check" (7 : Nat)
      (fun _ r => (some r, none)) (7 : Nat) (fun _ _ => none) [Action.handler] (by decide)⟩

/-- C6: a call without metadata, or whose metadata has no `consumer` key, is
rejected by both interceptors with a status error of code `Unauthenticated`,
whatever the ACL, the peer and the method are. -/
theorem missing_consumer_unauthenticated {α β σ : Type} (Sprintf : String → String)
    (ms : MainServer) (ctx : context.Context) (method : String) (req : α)
    (handler : context.Context → α → Option β × Option GoError) (srv : σ)
    (streamHandler : σ → grpc.ServerStream → Option GoError) (t : Trace)
    (h : ∀ md, ctx.md = some md → "consumer" ∉ md.map Prod.fst) :
    ∃ msg,
      (unaryInterceptor Sprintf ms ctx req ⟨method⟩ handler t).2 =
        (none, some (GoError.status codes.Code.Unauthenticated msg)) ∧
      (streamInterceptor Sprintf ms srv ⟨ctx⟩ ⟨method⟩ streamHandler t).2 =
        some (GoError.status codes.Code.Unauthenticated msg) := by
  have hc : ∃ err, consumerFromCtx ctx = ("", some err) := by
    unfold consumerFromCtx
    cases hmd : ctx.md with
    | none => exact ⟨_, rfl⟩
    | some md =>
      have hl : md.lookup "consumer" = none := by
        rw [List.lookup_eq_none_iff]
        intro p hp
        have hne : "consumer" ≠ p.1 :=
          fun he => h md hmd (he ▸ List.mem_map_of_mem Prod.fst hp)
        simpa using hne
      simp [metadata.MD.Get, hl]
  obtain ⟨err, herr⟩ := hc
  refine ⟨Sprintf err.Error, ?_, ?_⟩
  · simp [unaryInterceptor, herr, status.Errorf]
  · simp [streamInterceptor, herr, status.Errorf]

theorem missing_consumer_unauthenticated_witness :
    (∀ md, (⟨some [("user-agent", ["grpc-go"])], some ⟨"127.0.0.1:8082"⟩⟩ :
        context.Context).md = some md → "consumer" ∉ md.map Prod.fst) ∧
    ∃ msg,
      (unaryInterceptor id ⟨[("biz_admin", ["/main.Biz/*"])]⟩
        ⟨some [("user-agent", ["grpc-go"])], some ⟨"127.0.0.1:8082"⟩⟩ (7 : Nat)
        ⟨"/main.Biz/Check"⟩ (fun _ r => (some r, none)) []).2 =
        (none, some (GoError.status codes.Code.Unauthenticated msg)) ∧
      (streamInterceptor id ⟨[("biz_admin", ["/main.Biz/*"])]⟩ (7 : Nat)
        ⟨⟨some [("user-agent", ["grpc-go"])], some ⟨"127.0.0.1:8082"⟩⟩⟩
        ⟨"/main.Biz/Check"⟩ (fun _ _ => none) []).2 =
        some (GoError.status codes.Code.Unauthenticated msg) :=
  have hw : ∀ md, (⟨some [("user-agent", ["grpc-go"])], some ⟨"127.0.0.1:8082"⟩⟩ :
      context.Context).md = some md → "consumer" ∉ md.map Prod.fst := by
    intro md hmd
    cases hmd
    decide
  ⟨hw,
    missing_consumer_unauthenticated id ⟨[("biz_admin", ["/main.Biz/*"])]⟩
      ⟨some [("user-agent", ["grpc-go"])], some ⟨"127.0.0.1:8082"⟩⟩ "/main.Biz/Check"
      (7 : Nat) (fun _ r => (some r, none)) (7 : Nat) (fun _ _ => none) [] hw⟩

/-- C7 (as stated, refuted): with an ACL whose entry for the empty key holds
the pattern `*/*`, a call whose `consumer` value is the empty string is not
rejected: the event and the sample are sent, the handler is invoked and its
reply is returned. -/
theorem empty_consumer_with_acl_entry_passes :
    unaryInterceptor id ⟨[("", ["*/*"])]⟩
      ⟨some [("consumer", [""])], some ⟨"127.0.0.1:8082"⟩⟩ (7 : Nat) ⟨"/main.Biz/Check"⟩
      (fun _ r => (some r, none)) [] =
    ([Action.loggingBroadcast ⟨"", "/main.Biz/Check", "127.0.0.1:8082"⟩,
      Action.statisticBroadcast ⟨"", "/main.Biz/Check"⟩, Action.handler],
     (some 7, none)) := by
  decide

/-- C7 (amended): the empty string is looked up in the ACL like any other
consumer.  When `reqAuth` denies it for the method (as it does for every ACL
without an entry for the empty key) and the peer is resolved, a call whose
`consumer` value is the empty string is rejected by both interceptors with
code `Unauthenticated`, the trace is unchanged: nothing is published and the
handler is not invoked. -/
theorem empty_consumer_rejected_when_denied {α β σ : Type} (Sprintf : String → String)
    (ms : MainServer) (ctx : context.Context) (method : String) (req : α)
    (handler : context.Context → α → Option β × Option GoError) (srv : σ)
    (streamHandler : σ → grpc.ServerStream → Option GoError) (t : Trace)
    (p : peer.Peer) (err : GoError)
    (hc : consumerFromCtx ctx = ("", none)) (hp : ctx.peer = some p)
    (hd : reqAuth ms "" method = some err) :
    unaryInterceptor Sprintf ms ctx req ⟨method⟩ handler t =
      (t, (none, some (GoError.status codes.Code.Unauthenticated (Sprintf err.Error)))) ∧
    streamInterceptor Sprintf ms srv ⟨ctx⟩ ⟨method⟩ streamHandler t =
      (t, some (GoError.status codes.Code.Unauthenticated (Sprintf err.Error))) := by
  simp [unaryInterceptor, streamInterceptor, hc, hp, hd, status.Errorf]

theorem empty_consumer_rejected_when_denied_witness :
    consumerFromCtx ⟨some [("consumer", [""])], some ⟨"127.0.0.1:8082"⟩⟩ = ("", none) ∧
    unaryInterceptor id ⟨[("biz_admin", ["/main.Biz/*"])]⟩
      ⟨some [("consumer", [""])], some ⟨"127.0.0.1:8082"⟩⟩ (7 : Nat) ⟨"/main.Biz/Check"⟩
      (fun _ r => (some r, none)) [] =
      ([], (none, some (GoError.status codes.Code.Unauthenticated
        (id (unknownConsumer "").Error)))) ∧
    streamInterceptor id ⟨[("biz_admin", ["/main.Biz/*"])]⟩ (7 : Nat)
      ⟨⟨some [("consumer", [""])], some ⟨"127.0.0.1:8082"⟩⟩⟩ ⟨"/main.Biz/Check"⟩
      (fun _ _ => none) [] =
      ([], some (GoError.status codes.Code.Unauthenticated
        (id (unknownConsumer "").Error))) :=
  ⟨by decide,
    empty_consumer_rejected_when_denied id ⟨[("biz_admin", ["/main.Biz/*"])]⟩
      ⟨some [("consumer", [""])], some ⟨"127.0.0.1:8082"⟩⟩ "/main.Biz/Check" (7 : Nat)
      (fun _ r => (some r, none)) (7 : Nat) (fun _ _ => none) [] ⟨"127.0.0.1:8082"⟩
      (unknownConsumer "") (by decide) rfl (by decide)⟩

/-- C8 (as stated, refuted): a call of the known consumer `biz_user` to a
method that no pattern matches is rejected with code `Unauthenticated`, the
same code as a call whose metadata has no `consumer` key. -/
theorem denied_call_has_code_unauthenticated :
    unaryInterceptor id ⟨[("biz_user", ["/main.Biz/Check"])]⟩
      ⟨some [("consumer", ["biz_user"])], some ⟨"127.0.0.1:8082"⟩⟩ (7 : Nat) ⟨"/main.Biz/Add"⟩
      (fun _ r => (some r, none)) [] =
      ([], (none, some (GoError.status codes.Code.Unauthenticated "access denied"))) ∧
    unaryInterceptor id ⟨[("biz_user", ["/main.Biz/Check"])]⟩
      ⟨some [], some ⟨"127.0.0.1:8082"⟩⟩ (7 : Nat) ⟨"/main.Biz/Add"⟩
      (fun _ r => (some r, none)) [] =
      ([], (none, some (GoError.status codes.Code.Unauthenticated
        "rpc error: code = Unauthenticated desc = no consumer key in context metadata"))) := by
  decide

/-- C8 (amended): for a call with a consumer present and a resolved peer that
`reqAuth` denies with the error `err`, both interceptors return a status error
of code `Unauthenticated` whose message is `err.Error()` passed as format to
`status.Errorf`; this is the code that a call without metadata is rejected
with. -/
theorem denied_call_rejected_unauthenticated {α β σ : Type} (Sprintf : String → String)
    (ms : MainServer) (ctx : context.Context) (method : String) (req : α)
    (handler : context.Context → α → Option β × Option GoError) (srv : σ)
    (streamHandler : σ → grpc.ServerStream → Option GoError) (t : Trace)
    (consumer : String) (p : peer.Peer) (err : GoError)
    (hc : consumerFromCtx ctx = (consumer, none)) (hp : ctx.peer = some p)
    (hd : reqAuth ms consumer method = some err) :
    (unaryInterceptor Sprintf ms ctx req ⟨method⟩ handler t).2 =
      (none, some (GoError.status codes.Code.Unauthenticated (Sprintf err.Error))) ∧
    (streamInterceptor Sprintf ms srv ⟨ctx⟩ ⟨method⟩ streamHandler t).2 =
      some (GoError.status codes.Code.Unauthenticated (Sprintf err.Error)) ∧
    (unaryInterceptor Sprintf ms ⟨none, ctx.peer⟩ req ⟨method⟩ handler t).2 =
      (none, some (GoError.status codes.Code.Unauthenticated
        (Sprintf "no metadata in incoming context"))) ∧
    (streamInterceptor Sprintf ms srv ⟨⟨none, ctx.peer⟩⟩ ⟨method⟩ streamHandler t).2 =
      some (GoError.status codes.Code.Unauthenticated
        (Sprintf "no metadata in incoming context")) := by
  have hn : consumerFromCtx ⟨none, ctx.peer⟩ =
      ("", some (GoError.plain "no metadata in incoming context")) := rfl
  refine ⟨?_, ?_, ?_, ?_⟩
  · simp [unaryInterceptor, hc, hp, hd, status.Errorf]
  · simp [streamInterceptor, hc, hp, hd, status.Errorf]
  · simp [unaryInterceptor, hn, status.Errorf, GoError.Error]
  · simp [streamInterceptor, hn, status.Errorf, GoError.Error]

theorem denied_call_rejected_unauthenticated_witness :
    (unaryInterceptor id ⟨[("biz_user", ["/main.Biz/Check"])]⟩
      ⟨some [("consumer", ["biz_user"])], some ⟨"127.0.0.1:8082"⟩⟩ (7 : Nat) ⟨"/main.Biz/Add"⟩
      (fun _ r => (some r, none)) []).2 =
      (none, some (GoError.status codes.Code.Unauthenticated (id accessDenied.Error))) ∧
    (streamInterceptor id ⟨[("biz_user", ["/main.Biz/Check"])]⟩ (7 : Nat)
      ⟨⟨some [("consumer", ["biz_user"])], some ⟨"127.0.0.1:8082"⟩⟩⟩ ⟨"/main.Biz/Add"⟩
      (fun _ _ => none) []).2 =
      some (GoError.status codes.Code.Unauthenticated (id accessDenied.Error)) ∧
    (unaryInterceptor id ⟨[("biz_user", ["/main.Biz/Check"])]⟩
      ⟨none, (⟨some [("consumer", ["biz_user"])], some ⟨"127.0.0.1:8082"⟩⟩ :
        context.Context).peer⟩ (7 : Nat) ⟨"/main.Biz/Add"⟩
      (fun _ r => (some r, none)) []).2 =
      (none, some (GoError.status codes.Code.Unauthenticated
        (id "no metadata in incoming context"))) ∧
    (streamInterceptor id ⟨[("biz_user", ["/main.Biz/Check"])]⟩ (7 : Nat)
      ⟨⟨none, (⟨some [("consumer", ["biz_user"])], some ⟨"127.0.0.1:8082"⟩⟩ :
        context.Context).peer⟩⟩ ⟨"/main.Biz/Add"⟩ (fun _ _ => none) []).2 =
      some (GoError.status codes.Code.Unauthenticated
        (id "no metadata in incoming context")) :=
  denied_call_rejected_unauthenticated id ⟨[("biz_user", ["/main.Biz/Check"])]⟩
    ⟨some [("consumer", ["biz_user"])], some ⟨"127.0.0.1:8082"⟩⟩ "/main.Biz/Add" (7 : Nat)
    (fun _ r => (some r, none)) (7 : Nat) (fun _ _ => none) [] "biz_user"
    ⟨"127.0.0.1:8082"⟩ accessDenied (by decide) rfl (by decide)

/-- C9: a call that carries a consumer but whose peer is not resolved is
rejected by both interceptors with the status error of code `Internal`,
whatever the ACL holds for that consumer and method; the trace is unchanged. -/
theorem unresolved_peer_internal {α β σ : Type} (Sprintf : String → String)
    (ms : MainServer) (ctx : context.Context) (method : String) (req : α)
    (handler : context.Context → α → Option β × Option GoError) (srv : σ)
    (streamHandler : σ → grpc.ServerStream → Option GoError) (t : Trace)
    (hc : (consumerFromCtx ctx).2 = none) (hp : ctx.peer = none) :
    unaryInterceptor Sprintf ms ctx req ⟨method⟩ handler t =
      (t, (none, some (GoError.status codes.Code.Internal "can`t get peer from context"))) ∧
    streamInterceptor Sprintf ms srv ⟨ctx⟩ ⟨method⟩ streamHandler t =
      (t, some (GoError.status codes.Code.Internal "can`t get peer from context")) := by
  rcases hcc : consumerFromCtx ctx with ⟨consumer, _ | err⟩
  · simp [unaryInterceptor, streamInterceptor, hcc, hp]
  · simp [hcc] at hc

theorem unresolved_peer_internal_witness :
    (consumerFromCtx ⟨some [("consumer", ["biz_admin"])], none⟩).2 = none ∧
    unaryInterceptor id ⟨[("biz_admin", ["/main.Biz/*"])]⟩
      ⟨some [("consumer", ["biz_admin"])], none⟩ (7 : Nat) ⟨"/main.Biz/Check"⟩
      (fun _ r => (some r, none)) [] =
      ([], (none, some (GoError.status codes.Code.Internal "can`t get peer from context"))) ∧
    streamInterceptor id ⟨[("biz_admin", ["/main.Biz/*"])]⟩ (7 : Nat)
      ⟨⟨some [("consumer", ["biz_admin"])], none⟩⟩ ⟨"/main.Biz/Check"⟩
      (fun _ _ => none) [] =
      ([], some (GoError.status codes.Code.Internal "can`t get peer from context")) :=
  ⟨by decide,
    unresolved_peer_internal id ⟨[("biz_admin", ["/main.Biz/*"])]⟩
      ⟨some [("consumer", ["biz_admin"])], none⟩ "/main.Biz/Check" (7 : Nat)
      (fun _ r => (some r, none)) (7 : Nat) (fun _ _ => none) [] (by decide) rfl⟩

/-- C11: for a call whose consumer is extracted, whose peer is resolved and
that `reqAuth` grants, the result of the unary interceptor is the pair
`handler(ctx, req)` itself, reply and error unchanged, and the result of the
stream interceptor is the error `handler(srv, ss)` itself. -/
theorem authorized_call_returns_handler_result {α β σ : Type} (Sprintf : String → String)
    (ms : MainServer) (ctx : context.Context) (method : String) (req : α)
    (handler : context.Context → α → Option β × Option GoError) (srv : σ)
    (streamHandler : σ → grpc.ServerStream → Option GoError) (t : Trace)
    (consumer : String) (p : peer.Peer)
    (hc : consumerFromCtx ctx = (consumer, none)) (hp : ctx.peer = some p)
    (ha : reqAuth ms consumer method = none) :
    (unaryInterceptor Sprintf ms ctx req ⟨method⟩ handler t).2 = handler ctx req ∧
    (streamInterceptor Sprintf ms srv ⟨ctx⟩ ⟨method⟩ streamHandler t).2 =
      streamHandler srv ⟨ctx⟩ := by
  simp [unaryInterceptor, streamInterceptor, hc, hp, ha]

theorem authorized_call_returns_handler_result_witness :
    (unaryInterceptor id ⟨[("biz_admin", ["/main.Biz/*"])]⟩
      ⟨some [("consumer", ["biz_admin"])], some ⟨"127.0.0.1:8082"⟩⟩ (7 : Nat)
      ⟨"/main.Biz/Check"⟩
      (fun _ r => (some (r + 1), some (GoError.status codes.Code.Internal "%d busy"))) []).2 =
      (fun (_ : context.Context) (r : Nat) =>
        (some (r + 1), some (GoError.status codes.Code.Internal "%d busy")))
        ⟨some [("consumer", ["biz_admin"])], some ⟨"127.0.0.1:8082"⟩⟩ 7 ∧
    (streamInterceptor id ⟨[("biz_admin", ["/main.Biz/*"])]⟩ (7 : Nat)
      ⟨⟨some [("consumer", ["biz_admin"])], some ⟨"127.0.0.1:8082"⟩⟩⟩
      ⟨"/main.Biz/Check"⟩ (fun _ _ => some (GoError.plain "stream failed")) []).2 =
      (fun (_ : Nat) (_ : grpc.ServerStream) => some (GoError.plain "stream failed")) 7
        ⟨⟨some [("consumer", ["biz_admin"])], some ⟨"127.0.0.1:8082"⟩⟩⟩ :=
  authorized_call_returns_handler_result id ⟨[("biz_admin", ["/main.Biz/*"])]⟩
    ⟨some [("consumer", ["biz_admin"])], some ⟨"127.0.0.1:8082"⟩⟩ "/main.Biz/Check" (7 : Nat)
    (fun _ r => (some (r + 1), some (GoError.status codes.Code.Internal "%d busy")))
    (7 : Nat) (fun _ _ => some (GoError.plain "stream failed")) [] "biz_admin"
    ⟨"127.0.0.1:8082"⟩ (by decide) rfl (by decide)

/-- C12: on the same ACL, context and method the unary and the stream
interceptor take the same decision.  Their traces are equal, and either both
reject with the same error (code and message) and leave the trace unchanged,
or both send the same `Event`, then the same `statS`, then invoke their
handler and return its result. -/
theorem stream_and_unary_same_decision {α β σ : Type} (Sprintf : String → String)
    (ms : MainServer) (ctx : context.Context) (method : String) (req : α)
    (handler : context.Context → α → Option β × Option GoError) (srv : σ)
    (streamHandler : σ → grpc.ServerStream → Option GoError) (t : Trace) :
    (unaryInterceptor Sprintf ms ctx req ⟨method⟩ handler t).1 =
      (streamInterceptor Sprintf ms srv ⟨ctx⟩ ⟨method⟩ streamHandler t).1 ∧
    ((∃ err,
        unaryInterceptor Sprintf ms ctx req ⟨method⟩ handler t = (t, (none, some err)) ∧
        streamInterceptor Sprintf ms srv ⟨ctx⟩ ⟨method⟩ streamHandler t = (t, some err)) ∨
      (∃ (consumer : String) (p : peer.Peer),
        unaryInterceptor Sprintf ms ctx req ⟨method⟩ handler t =
          (t ++ [Action.loggingBroadcast ⟨consumer, method, p.Addr⟩,
            Action.statisticBroadcast ⟨consumer, method⟩, Action.handler],
           handler ctx req) ∧
        streamInterceptor Sprintf ms srv ⟨ctx⟩ ⟨method⟩ streamHandler t =
          (t ++ [Action.loggingBroadcast ⟨consumer, method, p.Addr⟩,
            Action.statisticBroadcast ⟨consumer, method⟩, Action.handler],
           streamHandler srv ⟨ctx⟩))) := by
  unfold unaryInterceptor streamInterceptor
  rcases hc : consumerFromCtx ctx with ⟨consumer, _ | err⟩
  · cases hp : ctx.peer with
    | none => simp
    | some p =>
      cases ha : reqAuth ms consumer method with
      | none =>
        refine ⟨by simp [ha], Or.inr ⟨consumer, p, ?_, ?_⟩⟩ <;> simp [ha]
      | some e => simp [ha]
  · simp

theorem Counters.get_incr (m : Counters) (k k' : String) :
    Counters.get (Counters.incr m k) k' = Counters.get m k' + if k' = k then 1 else 0 := by
  induction m with
  | nil =>
    by_cases h : k' = k
    · subst h
      simp [Counters.incr, Counters.get, List.lookup]
    · have hb : (k' == k) = false := by simpa using h
      simp [Counters.incr, Counters.get, List.lookup, h, hb]
  | cons p rest ih =>
    obtain ⟨a, n⟩ := p
    unfold Counters.get at ih ⊢
    by_cases ha : a = k
    · by_cases h : k' = k
      · subst ha; subst h
        simp [Counters.incr, List.lookup]
      · have h1 : (k' == a) = false := by simpa [ha] using h
        simp [Counters.incr, List.lookup, ha, h]
        simp [← ha, h1]
    · by_cases hk : (k' == a) = true
      · have hk' : k' = a := by simpa using hk
        have h : k' ≠ k := fun e => ha (hk' ▸ e)
        simp [Counters.incr, List.lookup, ha, hk, h]
      · have hk0 : (k' == a) = false := by simpa using hk
        simp [Counters.incr, List.lookup, ha, hk0, ih]

theorem Statistics.run_samples (samples : List statS) (l : StatisticListener) (c m : String) :
    (Statistics.run l (samples.map Statistics.Input.sample)).sent = l.sent ∧
    Counters.get (Statistics.run l (samples.map Statistics.Input.sample)).stat.ByConsumer c =
      Counters.get l.stat.ByConsumer c + samples.countP (fun s => decide (s.consumer = c)) ∧
    Counters.get (Statistics.run l (samples.map Statistics.Input.sample)).stat.ByMethod m =
      Counters.get l.stat.ByMethod m + samples.countP (fun s => decide (s.method = m)) := by
  induction samples generalizing l with
  | nil => simp [Statistics.run]
  | cons s rest ih =>
    have h := ih (Statistics.accumulate l s)
    simp only [Statistics.run, List.map_cons, List.foldl_cons, Statistics.turn] at h ⊢
    refine ⟨h.1, ?_, ?_⟩
    · rw [h.2.1]
      simp only [Statistics.accumulate, Counters.get_incr, List.countP_cons]
      by_cases hc : s.consumer = c
      · simp [hc]; omega
      · have hc' : c ≠ s.consumer := fun e => hc e.symm
        simp [hc, hc']
    · rw [h.2.2]
      simp only [Statistics.accumulate, Counters.get_incr, List.countP_cons]
      by_cases hm : s.method = m
      · simp [hm]; omega
      · have hm' : m ≠ s.method := fun e => hm e.symm
        simp [hm, hm']

theorem Statistics.run_inputs_append (l : StatisticListener) (xs ys : List Statistics.Input) :
    Statistics.run l (xs ++ ys) = Statistics.run (Statistics.run l xs) ys := by
  simp [Statistics.run, List.foldl_append]

theorem Statistics.run_conserves (inputs : List Statistics.Input) (l : StatisticListener)
    (c m : String) :
    ((Statistics.run l inputs).sent.map fun st => Counters.get st.ByConsumer c).sum +
        Counters.get (Statistics.run l inputs).stat.ByConsumer c =
      (l.sent.map fun st => Counters.get st.ByConsumer c).sum +
        Counters.get l.stat.ByConsumer c + Statistics.samplesOfConsumer c inputs ∧
    ((Statistics.run l inputs).sent.map fun st => Counters.get st.ByMethod m).sum +
        Counters.get (Statistics.run l inputs).stat.ByMethod m =
      (l.sent.map fun st => Counters.get st.ByMethod m).sum +
        Counters.get l.stat.ByMethod m + Statistics.samplesOfMethod m inputs := by
  induction inputs generalizing l with
  | nil => simp [Statistics.run, Statistics.samplesOfConsumer, Statistics.samplesOfMethod]
  | cons i rest ih =>
    have h := ih (Statistics.turn l i)
    simp only [Statistics.run, List.foldl_cons] at h ⊢
    rw [h.1, h.2]
    cases i with
    | sample s =>
      simp only [Statistics.turn, Statistics.accumulate, Counters.get_incr,
        Statistics.samplesOfConsumer, Statistics.samplesOfMethod, List.countP_cons]
      constructor
      · by_cases hc : s.consumer = c
        · simp [hc]; omega
        · have hc' : c ≠ s.consumer := fun e => hc e.symm
          simp [hc, hc']
      · by_cases hm : s.method = m
        · simp [hm]; omega
        · have hm' : m ≠ s.method := fun e => hm e.symm
          simp [hm, hm']
    | tick =>
      simp [Statistics.turn, Statistics.tick, Statistics.tickSend, Statistics.tickReset,
        NewStat, Counters.get, Statistics.samplesOfConsumer, Statistics.samplesOfMethod,
        List.countP_cons]

/-- C15: in a window that starts empty, after any sequence of samples and
then a tick, exactly one snapshot has been passed to `asSrv.Send`; for every
consumer (in particular `x` and `y`) its `ByConsumer` count is the number of
samples of that consumer, and likewise per method; after the tick both maps of
the window are empty. -/
theorem window_snapshot_counts_then_resets (samples : List statS) :
    ∃ snapshot,
      (Statistics.run Statistics.start
        (samples.map Statistics.Input.sample ++ [Statistics.Input.tick])).sent = [snapshot] ∧
      (∀ c, Counters.get snapshot.ByConsumer c =
        samples.countP (fun s => decide (s.consumer = c))) ∧
      (∀ m, Counters.get snapshot.ByMethod m =
        samples.countP (fun s => decide (s.method = m))) ∧
      (Statistics.run Statistics.start
        (samples.map Statistics.Input.sample ++ [Statistics.Input.tick])).stat.ByConsumer = [] ∧
      (Statistics.run Statistics.start
        (samples.map Statistics.Input.sample ++ [Statistics.Input.tick])).stat.ByMethod = [] := by
  refine ⟨(Statistics.run Statistics.start (samples.map Statistics.Input.sample)).stat,
    ?_, ?_, ?_, ?_, ?_⟩
  · have h := (Statistics.run_samples samples Statistics.start "" "").1
    rw [Statistics.run_inputs_append]
    show (Statistics.tick (Statistics.run Statistics.start _)).sent = _
    simp only [Statistics.tick, Statistics.tickSend, Statistics.tickReset]
    rw [h]
    rfl
  · intro c
    have h := (Statistics.run_samples samples Statistics.start c "").2.1
    simpa [Statistics.start, NewStat, Counters.get] using h
  · intro m
    have h := (Statistics.run_samples samples Statistics.start "" m).2.2
    simpa [Statistics.start, NewStat, Counters.get] using h
  · rw [Statistics.run_inputs_append]
    simp [Statistics.run, Statistics.turn, Statistics.tick, Statistics.tickSend,
      Statistics.tickReset, NewStat]
  · rw [Statistics.run_inputs_append]
    simp [Statistics.run, Statistics.turn, Statistics.tick, Statistics.tickSend,
      Statistics.tickReset, NewStat]

/-- C16: the sample branch of `Statistics` adds one to the `ByConsumer` count
of `s.consumer` and one to the `ByMethod` count of `s.method`, leaves the
count of every other consumer and method as it was, and sends nothing. -/
theorem accumulate_adds_one (l : StatisticListener) (s : statS) (c m : String) :
    Counters.get (Statistics.accumulate l s).stat.ByConsumer c =
      Counters.get l.stat.ByConsumer c + (if c = s.consumer then 1 else 0) ∧
    Counters.get (Statistics.accumulate l s).stat.ByMethod m =
      Counters.get l.stat.ByMethod m + (if m = s.method then 1 else 0) ∧
    (Statistics.accumulate l s).sent = l.sent := by
  simp [Statistics.accumulate, Counters.get_incr]

/-- C17: after every finite sequence of samples and ticks from the start of
`Statistics`, for every consumer the sum of its counts over the snapshots
sent so far plus its count in the current window is the number of samples
accumulated for it, and likewise for every method. -/
theorem samples_attributed_to_one_window (inputs : List Statistics.Input) (c m : String) :
    ((Statistics.run Statistics.start inputs).sent.map
        fun st => Counters.get st.ByConsumer c).sum +
        Counters.get (Statistics.run Statistics.start inputs).stat.ByConsumer c =
      Statistics.samplesOfConsumer c inputs ∧
    ((Statistics.run Statistics.start inputs).sent.map
        fun st => Counters.get st.ByMethod m).sum +
        Counters.get (Statistics.run Statistics.start inputs).stat.ByMethod m =
      Statistics.samplesOfMethod m inputs := by
  have h := Statistics.run_conserves inputs Statistics.start c m
  simpa [Statistics.start, NewStat, Counters.get] using h


theorem LoggingListener.receivedAt_set (ls : List LoggingListener) (i j : Nat)
    (l0 l : LoggingListener) (h0 : ls[i]? = some l0) :
    LoggingListener.receivedAt (ls.set i l) j =
      if i = j then l.received else LoggingListener.receivedAt ls j := by
  have hi : i < ls.length := (List.getElem?_eq_some_iff.1 h0).1
  unfold LoggingListener.receivedAt
  rw [List.getElem?_set]
  by_cases hij : i = j
  · subst hij
    simp [hi]
  · simp [hij]

theorem LoggingListener.receivedAt_append (ls : List LoggingListener) (j : Nat)
    (l : LoggingListener) (hj : j < ls.length) :
    LoggingListener.receivedAt (ls ++ [l]) j = LoggingListener.receivedAt ls j := by
  unfold LoggingListener.receivedAt
  rw [List.getElem?_append_left hj]

theorem LoggingListener.receivedAt_eq (ls : List LoggingListener) (i : Nat)
    (l0 : LoggingListener) (h0 : ls[i]? = some l0) :
    LoggingListener.receivedAt ls i = l0.received := by
  simp [LoggingListener.receivedAt, h0]

theorem Hub.step_received (h h' : Hub) (s : Step) (j : Nat) (hs : h.step s = some h')
    (hj : j < h.loggingListeners.length) :
    j < h'.loggingListeners.length ∧
    h'.received j ++ h'.dispatch.pendingFor j =
      h.received j ++ h.dispatch.pendingFor j ++ Step.published [s] := by
  obtain ⟨d, dp, ls, sl⟩ := h
  simp only at hj
  cases s with
  | cancel =>
    simp only [Hub.step, Option.some.injEq] at hs
    subst hs
    simp [hj, Hub.received, Step.published]
  | publishEvent e =>
    simp only [Hub.step] at hs
    split at hs
    · simp only [Option.some.injEq] at hs
      subst hs
      simp [hj, Hub.received, Step.published, Dispatch.pendingFor]
    · simp at hs
  | publishSignal sg =>
    simp only [Hub.step] at hs
    split at hs
    · simp only [Option.some.injEq] at hs
      subst hs
      simp [hj, Hub.received, Step.published, Dispatch.pendingFor]
    · simp at hs
  | lock =>
    simp only [Hub.step] at hs
    split at hs
    · simp only [Option.some.injEq] at hs
      subst hs
      simp [hj, Hub.received, Step.published, Dispatch.pendingFor]
    · simp only [Option.some.injEq] at hs
      subst hs
      simp [hj, Hub.received, Step.published, Dispatch.pendingFor]
    · simp at hs
  | deliver =>
    simp only [Hub.step] at hs
    split at hs
    · next _ e i =>
      split at hs
      · next hnone =>
        simp only [Option.some.injEq] at hs
        subst hs
        have hle : ls.length ≤ i := by simpa using hnone
        have hji : j < i := by omega
        simp [hj, hji, Hub.received, Step.published, Dispatch.pendingFor]
      · next l hsome =>
        split at hs
        · simp only [Option.some.injEq] at hs
          subst hs
          simp only [Hub.received, List.length_set, Dispatch.pendingFor, Step.published,
            List.filterMap_cons, List.filterMap_nil, List.append_nil]
          refine ⟨hj, ?_⟩
          rw [LoggingListener.receivedAt_set ls i j l _ hsome]
          by_cases hij : i = j
          · subst hij
            simp [LoggingListener.receivedAt_eq ls i l hsome]
          · have h1 : (j < i + 1) = (j < i) := by
              apply propext; constructor <;> intro h <;> omega
            simp [hij, h1]
        · simp at hs
    · next _ sg i =>
      split at hs
      · simp only [Option.some.injEq] at hs
        subst hs
        simp [hj, Hub.received, Step.published, Dispatch.pendingFor]
      · split at hs
        · simp only [Option.some.injEq] at hs
          subst hs
          simp [hj, Hub.received, Step.published, Dispatch.pendingFor]
        · simp at hs
    · simp at hs
  | dispatchDone =>
    simp only [Hub.step] at hs
    split at hs
    · split at hs
      · simp only [Option.some.injEq] at hs
        subst hs
        simp [hj, Hub.received, Step.published, Dispatch.pendingFor]
      · simp at hs
    · simp at hs
  | addLogListenersCh =>
    simp only [Hub.step] at hs
    split at hs
    · simp at hs
    · simp only [Option.some.injEq] at hs
      subst hs
      simp only [Hub.received, List.length_append, List.length_singleton, Step.published,
        List.filterMap_cons, List.filterMap_nil, List.append_nil]
      refine ⟨by omega, ?_⟩
      rw [LoggingListener.receivedAt_append ls j _ hj]
  | addStatListenersCh =>
    simp only [Hub.step] at hs
    split at hs
    · simp at hs
    · simp only [Option.some.injEq] at hs
      subst hs
      simp [hj, Hub.received, Step.published]
  | loggingSent i =>
    simp only [Hub.step] at hs
    split at hs
    · next l hsome =>
      split at hs
      · simp only [Option.some.injEq] at hs
        subst hs
        simp only [Hub.received, List.length_set, Step.published,
          List.filterMap_cons, List.filterMap_nil, List.append_nil]
        refine ⟨hj, ?_⟩
        rw [LoggingListener.receivedAt_set ls i j l _ hsome]
        by_cases hij : i = j
        · subst hij
          simp [LoggingListener.receivedAt_eq ls i l hsome]
        · simp [hij]
      · simp at hs
    · simp at hs
  | loggingDone i =>
    simp only [Hub.step] at hs
    split at hs
    · next l hsome =>
      split at hs
      · split at hs
        · simp only [Option.some.injEq] at hs
          subst hs
          simp only [Hub.received, List.length_set, Step.published,
            List.filterMap_cons, List.filterMap_nil, List.append_nil]
          refine ⟨hj, ?_⟩
          rw [LoggingListener.receivedAt_set ls i j l _ hsome]
          by_cases hij : i = j
          · subst hij
            simp [LoggingListener.receivedAt_eq ls i l hsome]
          · simp [hij]
        · simp at hs
      · simp at hs
    · simp at hs
  | tick i =>
    simp only [Hub.step] at hs
    split at hs
    · split at hs
      · simp only [Option.some.injEq] at hs
        subst hs
        simp [hj, Hub.received, Step.published]
      · simp at hs
    · simp at hs
  | statisticsSent i =>
    simp only [Hub.step] at hs
    split at hs
    · split at hs
      · simp only [Option.some.injEq] at hs
        subst hs
        simp [hj, Hub.received, Step.published]
      · simp at hs
    · simp at hs
  | statisticsDone i =>
    simp only [Hub.step] at hs
    split at hs
    · split at hs
      · split at hs
        · simp only [Option.some.injEq] at hs
          subst hs
          simp [hj, Hub.received, Step.published]
        · simp at hs
      · simp at hs
    · simp at hs

theorem Step.published_cons (s : Step) (steps : List Step) :
    Step.published (s :: steps) = Step.published [s] ++ Step.published steps := by
  cases s <;> simp [Step.published]

theorem Hub.run_received (steps : List Step) (h h' : Hub) (j : Nat)
    (hr : h.run steps = some h') (hj : j < h.loggingListeners.length) :
    j < h'.loggingListeners.length ∧
    h'.received j ++ h'.dispatch.pendingFor j =
      h.received j ++ h.dispatch.pendingFor j ++ Step.published steps := by
  induction steps generalizing h with
  | nil =>
    simp only [Hub.run, Option.some.injEq] at hr
    subst hr
    simp [hj, Step.published]
  | cons s rest ih =>
    simp only [Hub.run] at hr
    cases hs : h.step s with
    | none => simp [hs] at hr
    | some h1 =>
      rw [hs] at hr
      obtain ⟨hj1, e1⟩ := Hub.step_received h h1 s j hs hj
      obtain ⟨hj2, e2⟩ := ih h1 hr hj1
      refine ⟨hj2, ?_⟩
      rw [e2, e1, Step.published_cons s rest]
      simp [List.append_assoc]

/-- C13: a logging listener that is registered in a state whose dispatch loop
is at its `select` has, after any sequence of steps in which exactly the
events `E1` and then `E2` are published and which leaves the dispatch loop at
its `select` again (both are dispatched), received exactly `E1` and then `E2`
after what it had received before: each once, in publish order. -/
theorem subscriber_receives_published_events_in_order (h h' : Hub) (steps : List Step)
    (E1 E2 : Event) (j : Nat) (hj : j < h.loggingListeners.length)
    (h0 : h.dispatch = Dispatch.select) (hr : h.run steps = some h')
    (h1 : h'.dispatch = Dispatch.select) (hp : Step.published steps = [E1, E2]) :
    h'.received j = h.received j ++ [E1, E2] := by
  have hrec := (Hub.run_received steps h h' j hr hj).2
  simpa [h0, h1, hp, Dispatch.pendingFor] using hrec

theorem subscriber_receives_published_events_in_order_witness :
    Hub.received
      { done := false, dispatch := Dispatch.select,
        loggingListeners :=
          [{ received := [⟨"a", "/main.Biz/Check", "h"⟩, ⟨"b", "/main.Biz/Add", "h"⟩],
             pc := Handler.send },
           { received := [⟨"a", "/main.Biz/Check", "h"⟩, ⟨"b", "/main.Biz/Add", "h"⟩],
             pc := Handler.send }],
        statisticListeners := [] } 1 =
    Hub.received
      { done := false, dispatch := Dispatch.select,
        loggingListeners :=
          [{ received := [], pc := Handler.select }, { received := [], pc := Handler.select }],
        statisticListeners := [] } 1 ++
      [⟨"a", "/main.Biz/Check", "h"⟩, ⟨"b", "/main.Biz/Add", "h"⟩] :=
  subscriber_receives_published_events_in_order
    { done := false, dispatch := Dispatch.select,
      loggingListeners :=
        [{ received := [], pc := Handler.select }, { received := [], pc := Handler.select }],
      statisticListeners := [] }
    { done := false, dispatch := Dispatch.select,
      loggingListeners :=
        [{ received := [⟨"a", "/main.Biz/Check", "h"⟩, ⟨"b", "/main.Biz/Add", "h"⟩],
           pc := Handler.send },
         { received := [⟨"a", "/main.Biz/Check", "h"⟩, ⟨"b", "/main.Biz/Add", "h"⟩],
           pc := Handler.send }],
      statisticListeners := [] }
    [Step.publishEvent ⟨"a", "/main.Biz/Check", "h"⟩, Step.lock, Step.deliver, Step.deliver,
      Step.deliver, Step.loggingSent 1, Step.loggingSent 0,
      Step.publishEvent ⟨"b", "/main.Biz/Add", "h"⟩, Step.lock, Step.deliver, Step.deliver,
      Step.deliver]
    ⟨"a", "/main.Biz/Check", "h"⟩ ⟨"b", "/main.Biz/Add", "h"⟩ 1 (by decide) rfl (by decide) rfl
    (by decide)

/-- C14: a logging listener that registers in a state `h1` whose dispatch
loop is at its `select`, after `E1` has been published and dispatched, gets an
empty channel, and after any further steps in which exactly `E2` is published
and dispatched it has received `E2` only; a listener registered before `E1`
was published has received both. -/
theorem late_subscriber_receives_only_later_events (h h1 h2 h3 : Hub)
    (steps1 steps2 : List Step) (E1 E2 : Event) (j : Nat)
    (hj : j < h.loggingListeners.length) (hs0 : h.dispatch = Dispatch.select)
    (hr1 : h.run steps1 = some h1) (hp1 : Step.published steps1 = [E1])
    (hs1 : h1.dispatch = Dispatch.select)
    (hreg : h1.step Step.addLogListenersCh = some h2)
    (hr2 : h2.run steps2 = some h3) (hp2 : Step.published steps2 = [E2])
    (hs3 : h3.dispatch = Dispatch.select) :
    h2.loggingListeners.length = h1.loggingListeners.length + 1 ∧
    h2.received h1.loggingListeners.length = [] ∧
    h3.received h1.loggingListeners.length = [E2] ∧
    h3.received j = h.received j ++ [E1, E2] := by
  have hl2 : h2.loggingListeners =
      h1.loggingListeners ++ [({ received := [], pc := Handler.select } : LoggingListener)] := by
    simp only [Hub.step, hs1, Dispatch.holdsLock] at hreg
    simp only [Bool.false_eq_true, ↓reduceIte, Option.some.injEq] at hreg
    rw [← hreg]
  have hd2 : h2.dispatch = Dispatch.select := by
    simp only [Hub.step, hs1, Dispatch.holdsLock] at hreg
    simp only [Bool.false_eq_true, ↓reduceIte, Option.some.injEq] at hreg
    rw [← hreg]
  have hlen : h1.loggingListeners.length < h2.loggingListeners.length := by
    rw [hl2]
    simp
  have hnew : h2.received h1.loggingListeners.length = [] := by
    simp [Hub.received, LoggingListener.receivedAt, hl2]
  have hrec := (Hub.run_received steps2 h2 h3 h1.loggingListeners.length hr2 hlen).2
  refine ⟨by rw [hl2]; simp, hnew, ?_, ?_⟩
  · rw [hnew] at hrec
    simpa [hd2, hs3, hp2, Dispatch.pendingFor] using hrec
  · obtain ⟨hj1, e1⟩ := Hub.run_received steps1 h h1 j hr1 hj
    obtain ⟨hj2, e2⟩ := Hub.step_received h1 h2 Step.addLogListenersCh j hreg hj1
    obtain ⟨_, e3⟩ := Hub.run_received steps2 h2 h3 j hr2 hj2
    have hpa : Step.published [Step.addLogListenersCh] = [] := rfl
    simp only [hs0, hs1, hd2, hs3, hp1, hp2, hpa, Dispatch.pendingFor,
      List.append_nil] at e1 e2 e3
    rw [e3, e2, e1]
    simp

theorem late_subscriber_receives_only_later_events_witness :
    ({ done := false, dispatch := Dispatch.select,
       loggingListeners :=
         [{ received := [⟨"a", "/main.Biz/Check", "h"⟩], pc := Handler.select },
          { received := [], pc := Handler.select }],
       statisticListeners := [] } : Hub).loggingListeners.length =
      ({ done := false, dispatch := Dispatch.select,
         loggingListeners :=
           [{ received := [⟨"a", "/main.Biz/Check", "h"⟩], pc := Handler.select }],
         statisticListeners := [] } : Hub).loggingListeners.length + 1 ∧
    Hub.received
      { done := false, dispatch := Dispatch.select,
        loggingListeners :=
          [{ received := [⟨"a", "/main.Biz/Check", "h"⟩], pc := Handler.select },
           { received := [], pc := Handler.select }],
        statisticListeners := [] }
      ({ done := false, dispatch := Dispatch.select,
         loggingListeners :=
           [{ received := [⟨"a", "/main.Biz/Check", "h"⟩], pc := Handler.select }],
         statisticListeners := [] } : Hub).loggingListeners.length = [] ∧
    Hub.received
      { done := false, dispatch := Dispatch.select,
        loggingListeners :=
          [{ received := [⟨"a", "/main.Biz/Check", "h"⟩, ⟨"b", "/main.Biz/Add", "h"⟩],
             pc := Handler.send },
           { received := [⟨"b", "/main.Biz/Add", "h"⟩], pc := Handler.send }],
        statisticListeners := [] }
      ({ done := false, dispatch := Dispatch.select,
         loggingListeners :=
           [{ received := [⟨"a", "/main.Biz/Check", "h"⟩], pc := Handler.select }],
         statisticListeners := [] } : Hub).loggingListeners.length =
      [⟨"b", "/main.Biz/Add", "h"⟩] ∧
    Hub.received
      { done := false, dispatch := Dispatch.select,
        loggingListeners :=
          [{ received := [⟨"a", "/main.Biz/Check", "h"⟩, ⟨"b", "/main.Biz/Add", "h"⟩],
             pc := Handler.send },
           { received := [⟨"b", "/main.Biz/Add", "h"⟩], pc := Handler.send }],
        statisticListeners := [] } 0 =
      Hub.received
        { done := false, dispatch := Dispatch.select,
          loggingListeners := [{ received := [], pc := Handler.select }],
          statisticListeners := [] } 0 ++
        [⟨"a", "/main.Biz/Check", "h"⟩, ⟨"b", "/main.Biz/Add", "h"⟩] :=
  late_subscriber_receives_only_later_events
    { done := false, dispatch := Dispatch.select,
      loggingListeners := [{ received := [], pc := Handler.select }],
      statisticListeners := [] }
    { done := false, dispatch := Dispatch.select,
      loggingListeners :=
        [{ received := [⟨"a", "/main.Biz/Check", "h"⟩], pc := Handler.select }],
      statisticListeners := [] }
    { done := false, dispatch := Dispatch.select,
      loggingListeners :=
        [{ received := [⟨"a", "/main.Biz/Check", "h"⟩], pc := Handler.select },
         { received := [], pc := Handler.select }],
      statisticListeners := [] }
    { done := false, dispatch := Dispatch.select,
      loggingListeners :=
        [{ received := [⟨"a", "/main.Biz/Check", "h"⟩, ⟨"b", "/main.Biz/Add", "h"⟩],
           pc := Handler.send },
         { received := [⟨"b", "/main.Biz/Add", "h"⟩], pc := Handler.send }],
      statisticListeners := [] }
    [Step.publishEvent ⟨"a", "/main.Biz/Check", "h"⟩, Step.lock, Step.deliver, Step.deliver,
      Step.loggingSent 0]
    [Step.publishEvent ⟨"b", "/main.Biz/Add", "h"⟩, Step.lock, Step.deliver, Step.deliver,
      Step.deliver]
    ⟨"a", "/main.Biz/Check", "h"⟩ ⟨"b", "/main.Biz/Add", "h"⟩ 0 (by decide) rfl rfl
    (by decide) rfl rfl rfl (by decide) rfl

theorem LoggingListener.receivedAt_set_same (ls : List LoggingListener) (i j : Nat)
    (l0 l : LoggingListener) (h0 : ls[i]? = some l0) (hr : l.received = l0.received) :
    LoggingListener.receivedAt (ls.set i l) j = LoggingListener.receivedAt ls j := by
  rw [LoggingListener.receivedAt_set ls i j l0 l h0]
  by_cases hij : i = j
  · subst hij
    simp [LoggingListener.receivedAt_eq ls i l0 h0, hr]
  · simp [hij]

theorem Hub.step_blocked (h h' : Hub) (s u : Step) (hb : h.blockedBy = some u)
    (hs : h.step s = some h') (hne : s ≠ u) :
    h'.blockedBy = some u ∧ h'.dispatch = h.dispatch ∧ (∀ j, h'.received j = h.received j) ∧
    s ≠ Step.deliver ∧ (∀ e, s ≠ Step.publishEvent e) ∧
    (∀ sg, s ≠ Step.publishSignal sg) := by
  obtain ⟨d, dp, ls, sl⟩ := h
  unfold Hub.blockedBy at hb
  simp only at hb
  split at hb
  · next e i =>
    split at hb
    · next l hl =>
      split at hb
      · simp at hb
      · next hpc =>
        simp only [Option.some.injEq] at hb
        subst hb
        cases s with
        | cancel =>
          simp only [Hub.step, Option.some.injEq] at hs
          subst hs
          simp [Hub.blockedBy, hl, hpc, Hub.received]
        | publishEvent e => simp [Hub.step] at hs
        | publishSignal sg => simp [Hub.step] at hs
        | lock => simp [Hub.step] at hs
        | deliver =>
          exfalso
          cases hq : l.pc <;> simp_all [Hub.step]
        | dispatchDone => simp [Hub.step] at hs
        | addLogListenersCh => simp [Hub.step, Dispatch.holdsLock] at hs
        | addStatListenersCh => simp [Hub.step, Dispatch.holdsLock] at hs
        | loggingSent k =>
          have hki : k ≠ i := fun e => hne (by rw [e])
          simp only [Hub.step] at hs
          split at hs
          · next lk hlk =>
            split at hs
            · simp only [Option.some.injEq] at hs
              subst hs
              refine ⟨?_, rfl, ?_, by simp, by simp, by simp⟩
              · simp [Hub.blockedBy, List.getElem?_set, hki, hl, hpc]
              · intro j
                exact LoggingListener.receivedAt_set_same ls k j lk _ hlk rfl
            · simp at hs
          · simp at hs
        | loggingDone k =>
          simp only [Hub.step] at hs
          split at hs
          · next lk hlk =>
            split at hs
            · next hsel =>
              split at hs
              · simp only [Option.some.injEq] at hs
                subst hs
                have hki : k ≠ i := by
                  intro e
                  subst e
                  rw [hl] at hlk
                  simp only [Option.some.injEq] at hlk
                  subst hlk
                  exact hpc hsel
                refine ⟨?_, rfl, ?_, by simp, by simp, by simp⟩
                · simp [Hub.blockedBy, List.getElem?_set, hki, hl, hpc]
                · intro j
                  exact LoggingListener.receivedAt_set_same ls k j lk _ hlk rfl
              · simp at hs
            · simp at hs
          · simp at hs
        | tick k =>
          simp only [Hub.step] at hs
          split at hs
          · split at hs
            · simp only [Option.some.injEq] at hs
              subst hs
              simp [Hub.blockedBy, hl, hpc, Hub.received]
            · simp at hs
          · simp at hs
        | statisticsSent k =>
          simp only [Hub.step] at hs
          split at hs
          · split at hs
            · simp only [Option.some.injEq] at hs
              subst hs
              simp [Hub.blockedBy, hl, hpc, Hub.received]
            · simp at hs
          · simp at hs
        | statisticsDone k =>
          simp only [Hub.step] at hs
          split at hs
          · split at hs
            · split at hs
              · simp only [Option.some.injEq] at hs
                subst hs
                simp [Hub.blockedBy, hl, hpc, Hub.received]
              · simp at hs
            · simp at hs
          · simp at hs
    · simp at hb
  · next sg i =>
    split at hb
    · next l hl =>
      split at hb
      · simp at hb
      · next hpc =>
        simp only [Option.some.injEq] at hb
        subst hb
        cases s with
        | cancel =>
          simp only [Hub.step, Option.some.injEq] at hs
          subst hs
          simp [Hub.blockedBy, hl, hpc, Hub.received]
        | publishEvent e => simp [Hub.step] at hs
        | publishSignal sg => simp [Hub.step] at hs
        | lock => simp [Hub.step] at hs
        | deliver =>
          exfalso
          cases hq : l.pc <;> simp_all [Hub.step]
        | dispatchDone => simp [Hub.step] at hs
        | addLogListenersCh => simp [Hub.step, Dispatch.holdsLock] at hs
        | addStatListenersCh => simp [Hub.step, Dispatch.holdsLock] at hs
        | loggingSent k =>
          simp only [Hub.step] at hs
          split at hs
          · next lk hlk =>
            split at hs
            · simp only [Option.some.injEq] at hs
              subst hs
              refine ⟨?_, rfl, ?_, by simp, by simp, by simp⟩
              · simp [Hub.blockedBy, hl, hpc]
              · intro j
                exact LoggingListener.receivedAt_set_same ls k j lk _ hlk rfl
            · simp at hs
          · simp at hs
        | loggingDone k =>
          simp only [Hub.step] at hs
          split at hs
          · next lk hlk =>
            split at hs
            · split at hs
              · simp only [Option.some.injEq] at hs
                subst hs
                refine ⟨?_, rfl, ?_, by simp, by simp, by simp⟩
                · simp [Hub.blockedBy, hl, hpc]
                · intro j
                  exact LoggingListener.receivedAt_set_same ls k j lk _ hlk rfl
              · simp at hs
            · simp at hs
          · simp at hs
        | tick k =>
          simp only [Hub.step] at hs
          split at hs
          · next lk hlk =>
            split at hs
            · next hsel =>
              simp only [Option.some.injEq] at hs
              subst hs
              have hki : k ≠ i := by
                intro e
                subst e
                rw [hl] at hlk
                simp only [Option.some.injEq] at hlk
                subst hlk
                exact hpc hsel
              simp [Hub.blockedBy, List.getElem?_set, hki, hl, hpc, Hub.received]
            · simp at hs
          · simp at hs
        | statisticsSent k =>
          have hki : k ≠ i := fun e => hne (by rw [e])
          simp only [Hub.step] at hs
          split at hs
          · split at hs
            · simp only [Option.some.injEq] at hs
              subst hs
              simp [Hub.blockedBy, List.getElem?_set, hki, hl, hpc, Hub.received]
            · simp at hs
          · simp at hs
        | statisticsDone k =>
          simp only [Hub.step] at hs
          split at hs
          · next lk hlk =>
            split at hs
            · next hsel =>
              split at hs
              · simp only [Option.some.injEq] at hs
                subst hs
                have hki : k ≠ i := by
                  intro e
                  subst e
                  rw [hl] at hlk
                  simp only [Option.some.injEq] at hlk
                  subst hlk
                  exact hpc hsel
                simp [Hub.blockedBy, List.getElem?_set, hki, hl, hpc, Hub.received]
              · simp at hs
            · simp at hs
          · simp at hs
    · simp at hb
  · simp at hb
theorem Hub.run_blocked (steps : List Step) (h h' : Hub) (u : Step)
    (hb : h.blockedBy = some u) (hu : u ∉ steps) (hr : h.run steps = some h') :
    h'.blockedBy = some u ∧ h'.dispatch = h.dispatch ∧ (∀ j, h'.received j = h.received j) ∧
    Step.deliver ∉ steps ∧ (∀ e, Step.publishEvent e ∉ steps) ∧
    (∀ sg, Step.publishSignal sg ∉ steps) := by
  induction steps generalizing h with
  | nil =>
    simp only [Hub.run, Option.some.injEq] at hr
    subst hr
    simp [hb]
  | cons s rest ih =>
    simp only [List.mem_cons, not_or] at hu
    simp only [Hub.run] at hr
    cases hs : h.step s with
    | none => simp [hs] at hr
    | some h1 =>
      rw [hs] at hr
      obtain ⟨hb1, hd1, hrec1, n1, n3, n4⟩ :=
        Hub.step_blocked h h1 s u hb hs (fun e => hu.1 e.symm)
      obtain ⟨hb2, hd2, hrec2, m1, m3, m4⟩ := ih h1 hb1 hu.2 hr
      refine ⟨hb2, hd2.trans hd1, fun j => (hrec2 j).trans (hrec1 j), ?_, ?_, ?_⟩
      · simp only [List.mem_cons, not_or]
        exact ⟨fun e => n1 e.symm, m1⟩
      · intro e
        simp only [List.mem_cons, not_or]
        exact ⟨fun he => n3 e he.symm, m3 e⟩
      · intro sg
        simp only [List.mem_cons, not_or]
        exact ⟨fun he => n4 sg he.symm, m4 sg⟩


theorem Hub.done_enabled (h : Hub) (hdone : h.done = true) :
    (h.dispatch = Dispatch.select →
      h.step Step.dispatchDone = some { h with dispatch := Dispatch.returned }) ∧
    (∀ (i : Nat) (l : LoggingListener),
      h.loggingListeners[i]? = some l → l.pc = Handler.select →
      h.step (Step.loggingDone i) =
        some { h with
          loggingListeners :=
            h.loggingListeners.set i { l with pc := Handler.returned none } }) ∧
    (∀ (i : Nat) (l : StatisticListener),
      h.statisticListeners[i]? = some l → l.pc = Handler.select →
      h.step (Step.statisticsDone i) =
        some { h with
          statisticListeners :=
            h.statisticListeners.set i { l with pc := Handler.returned none } }) := by
  refine ⟨?_, ?_, ?_⟩
  · intro hd
    simp [Hub.step, hd, hdone]
  · intro i l hl hpc
    simp [Hub.step, hl, hpc, hdone]
  · intro i l hl hpc
    simp [Hub.step, hl, hpc, hdone]

/-- C20 (as stated, refuted): with two logging listeners of which the first
is still inside `alSrv.Send` (it does not read its channel), after an event
is published and the lock is taken the send to the first listener is not
enabled, so the second listener has not received the event; the publishing
call's send of its sample and the publish of a further event are not enabled
either. -/
theorem slow_subscriber_blocks_dispatch_and_publish :
    Hub.run
      { done := false, dispatch := Dispatch.select,
        loggingListeners :=
          [{ received := [⟨"a", "/main.Biz/Check", "h"⟩], pc := Handler.send },
           { received := [], pc := Handler.select }],
        statisticListeners := [] }
      [Step.publishEvent ⟨"b", "/main.Biz/Add", "h"⟩, Step.lock] =
      some
        { done := false, dispatch := Dispatch.event ⟨"b", "/main.Biz/Add", "h"⟩ (some 0),
          loggingListeners :=
            [{ received := [⟨"a", "/main.Biz/Check", "h"⟩], pc := Handler.send },
             { received := [], pc := Handler.select }],
          statisticListeners := [] } ∧
    Hub.step
      { done := false, dispatch := Dispatch.event ⟨"b", "/main.Biz/Add", "h"⟩ (some 0),
        loggingListeners :=
          [{ received := [⟨"a", "/main.Biz/Check", "h"⟩], pc := Handler.send },
           { received := [], pc := Handler.select }],
        statisticListeners := [] } Step.deliver = none ∧
    Hub.step
      { done := false, dispatch := Dispatch.event ⟨"b", "/main.Biz/Add", "h"⟩ (some 0),
        loggingListeners :=
          [{ received := [⟨"a", "/main.Biz/Check", "h"⟩], pc := Handler.send },
           { received := [], pc := Handler.select }],
        statisticListeners := [] } (Step.publishSignal ⟨"b", "/main.Biz/Add"⟩) = none ∧
    Hub.step
      { done := false, dispatch := Dispatch.event ⟨"b", "/main.Biz/Add", "h"⟩ (some 0),
        loggingListeners :=
          [{ received := [⟨"a", "/main.Biz/Check", "h"⟩], pc := Handler.send },
           { received := [], pc := Handler.select }],
        statisticListeners := [] } (Step.publishEvent ⟨"c", "/main.Biz/Test", "h"⟩) = none ∧
    Hub.received
      { done := false, dispatch := Dispatch.event ⟨"b", "/main.Biz/Add", "h"⟩ (some 0),
        loggingListeners :=
          [{ received := [⟨"a", "/main.Biz/Check", "h"⟩], pc := Handler.send },
           { received := [], pc := Handler.select }],
        statisticListeners := [] } 1 = [] := by
  decide

/-- C20 (amended): a publish is a rendezvous with the dispatch loop, and the
loop sends an item to the listeners one after another with blocking sends.
While the listener whose turn it is does not read its channel (the hub is
blocked by the return `u` of that listener's `Send`), in every run in which
`u` does not occur the hub stays blocked at the same send: no deliver step
and no publish of an event or a signal occurs, and no logging listener
receives anything. -/
theorem dispatch_waits_for_listener_that_does_not_read (h h' : Hub) (u : Step)
    (steps : List Step) (hb : h.blockedBy = some u) (hu : u ∉ steps)
    (hr : h.run steps = some h') :
    h'.blockedBy = some u ∧ h'.dispatch = h.dispatch ∧ (∀ j, h'.received j = h.received j) ∧
    Step.deliver ∉ steps ∧ (∀ e, Step.publishEvent e ∉ steps) ∧
    (∀ sg, Step.publishSignal sg ∉ steps) :=
  Hub.run_blocked steps h h' u hb hu hr

theorem dispatch_waits_for_listener_that_does_not_read_witness :
    Hub.blockedBy
      { done := true, dispatch := Dispatch.event ⟨"b", "/main.Biz/Add", "h"⟩ (some 0),
        loggingListeners :=
          [{ received := [⟨"a", "/main.Biz/Check", "h"⟩], pc := Handler.send },
           { received := [], pc := Handler.returned none }],
        statisticListeners := [Statistics.tickSend Statistics.start] } =
      some (Step.loggingSent 0) ∧
    ({ done := true, dispatch := Dispatch.event ⟨"b", "/main.Biz/Add", "h"⟩ (some 0),
       loggingListeners :=
         [{ received := [⟨"a", "/main.Biz/Check", "h"⟩], pc := Handler.send },
          { received := [], pc := Handler.returned none }],
       statisticListeners := [Statistics.tickSend Statistics.start] } : Hub).dispatch =
      ({ done := false, dispatch := Dispatch.event ⟨"b", "/main.Biz/Add", "h"⟩ (some 0),
         loggingListeners :=
           [{ received := [⟨"a", "/main.Biz/Check", "h"⟩], pc := Handler.send },
            { received := [], pc := Handler.select }],
         statisticListeners := [Statistics.start] } : Hub).dispatch ∧
    (∀ j,
      Hub.received
        { done := true, dispatch := Dispatch.event ⟨"b", "/main.Biz/Add", "h"⟩ (some 0),
          loggingListeners :=
            [{ received := [⟨"a", "/main.Biz/Check", "h"⟩], pc := Handler.send },
             { received := [], pc := Handler.returned none }],
          statisticListeners := [Statistics.tickSend Statistics.start] } j =
      Hub.received
        { done := false, dispatch := Dispatch.event ⟨"b", "/main.Biz/Add", "h"⟩ (some 0),
          loggingListeners :=
            [{ received := [⟨"a", "/main.Biz/Check", "h"⟩], pc := Handler.send },
             { received := [], pc := Handler.select }],
          statisticListeners := [Statistics.start] } j) ∧
    Step.deliver ∉ [Step.tick 0, Step.cancel, Step.loggingDone 1] ∧
    (∀ e, Step.publishEvent e ∉ [Step.tick 0, Step.cancel, Step.loggingDone 1]) ∧
    (∀ sg, Step.publishSignal sg ∉ [Step.tick 0, Step.cancel, Step.loggingDone 1]) :=
  dispatch_waits_for_listener_that_does_not_read
    { done := false, dispatch := Dispatch.event ⟨"b", "/main.Biz/Add", "h"⟩ (some 0),
      loggingListeners :=
        [{ received := [⟨"a", "/main.Biz/Check", "h"⟩], pc := Handler.send },
         { received := [], pc := Handler.select }],
      statisticListeners := [Statistics.start] }
    { done := true, dispatch := Dispatch.event ⟨"b", "/main.Biz/Add", "h"⟩ (some 0),
      loggingListeners :=
        [{ received := [⟨"a", "/main.Biz/Check", "h"⟩], pc := Handler.send },
         { received := [], pc := Handler.returned none }],
      statisticListeners := [Statistics.tickSend Statistics.start] }
    (Step.loggingSent 0) [Step.tick 0, Step.cancel, Step.loggingDone 1] (by decide) (by decide)
    rfl


/-- C18 (as stated, refuted): the payload `null` is not a JSON object, and
the payload that maps `biz` to `null` has no array of strings, yet
`json.Unmarshal` accepts both, and `StartMyMicroservice` binds the listener
and starts the server and the dispatch loop with no error. -/
theorem start_accepts_null_payload :
    StartMyMicroservice (fun _ => none) "127.0.0.1:8082" "null" =
      ([StartAction.listen "127.0.0.1:8082", StartAction.serve [],
        StartAction.dispatch Hub.start, StartAction.stop], none) ∧
    StartMyMicroservice (fun _ => none) "127.0.0.1:8082" "\x7b\"biz\": null\x7d" =
      ([StartAction.listen "127.0.0.1:8082", StartAction.serve [("biz", [])],
        StartAction.dispatch Hub.start, StartAction.stop], none) := by
  decide

/-- C18 (amended): for every payload that `json.Unmarshal` rejects,
`StartMyMicroservice` returns the wrapped decoder error and sets nothing
going: no listener is bound, no server and no dispatch loop is started,
whatever `net.Listen` would do. -/
theorem start_fails_on_rejected_payload (Listen : String → Option GoError)
    (addr ACLData : String) (h : json.Unmarshal ACLData = none) :
    StartMyMicroservice Listen addr ACLData = ([], some StartError.unmarshalACLs) := by
  simp [StartMyMicroservice, h]

theorem start_fails_on_rejected_payload_witness :
    json.Unmarshal "\x7b\"logger\": \"/main.Admin/Logging\"\x7d" = none ∧
    StartMyMicroservice (fun _ => none) "127.0.0.1:8082"
      "\x7b\"logger\": \"/main.Admin/Logging\"\x7d" = ([], some StartError.unmarshalACLs) :=
  ⟨by decide,
    start_fails_on_rejected_payload (fun _ => none) "127.0.0.1:8082"
      "\x7b\"logger\": \"/main.Admin/Logging\"\x7d" (by decide)⟩


theorem Hub.run_append (xs ys : List Step) (h : Hub) :
    h.run (xs ++ ys) = (h.run xs).bind fun h1 => h1.run ys := by
  induction xs generalizing h with
  | nil => simp [Hub.run]
  | cons s rest ih =>
    simp only [List.cons_append, Hub.run]
    cases h.step s with
    | none => simp
    | some h1 => simpa using ih h1

theorem List.set_length_append_cons {α : Type} (pre : List α) (x y : α) (rest : List α) :
    (pre ++ x :: rest).set pre.length y = pre ++ y :: rest := by
  induction pre with
  | nil => simp
  | cons a pre ih => simp [ih]

theorem List.getElem?_length_append_cons {α : Type} (pre : List α) (x : α) (rest : List α) :
    (pre ++ x :: rest)[pre.length]? = some x := by
  induction pre with
  | nil => simp
  | cons a pre ih => simpa using ih

theorem Hub.run_deliver_events (e : Event) (suf pre : List LoggingListener) (d : Bool)
    (sl : List StatisticListener) (hsel : ∀ l ∈ suf, l.pc = Handler.select) :
    Hub.run
      { done := d, dispatch := Dispatch.event e (some pre.length),
        loggingListeners := pre ++ suf, statisticListeners := sl }
      (List.replicate (suf.length + 1) Step.deliver) =
    some
      { done := d, dispatch := Dispatch.select,
        loggingListeners :=
          pre ++ suf.map fun l => { received := l.received ++ [e], pc := Handler.send },
        statisticListeners := sl } := by
  induction suf generalizing pre with
  | nil =>
    simp [Hub.run, Hub.step]
  | cons l rest ih =>
    have hl : l.pc = Handler.select := hsel l (List.mem_cons_self _ _)
    have hrest : ∀ l' ∈ rest, l'.pc = Handler.select :=
      fun l' hm => hsel l' (List.mem_cons_of_mem _ hm)
    have h1 := ih (pre ++ [{ received := l.received ++ [e], pc := Handler.send }]) hrest
    simp only [List.length_append, List.length_singleton, List.append_assoc,
      List.singleton_append] at h1
    have hstep : Hub.step
        { done := d, dispatch := Dispatch.event e (some pre.length),
          loggingListeners := pre ++ l :: rest, statisticListeners := sl } Step.deliver =
        some
          { done := d, dispatch := Dispatch.event e (some (pre.length + 1)),
            loggingListeners :=
              pre ++ { received := l.received ++ [e], pc := Handler.send } :: rest,
            statisticListeners := sl } := by
      simp only [Hub.step, List.getElem?_length_append_cons, hl, List.set_length_append_cons]
    rw [List.length_cons, List.replicate_succ]
    simp only [Hub.run, hstep, List.map_cons]
    exact h1

theorem Hub.run_logging_sent (suf pre : List LoggingListener) (d : Bool) (dp : Dispatch)
    (sl : List StatisticListener) (hsend : ∀ l ∈ suf, l.pc = Handler.send) :
    Hub.run
      { done := d, dispatch := dp, loggingListeners := pre ++ suf,
        statisticListeners := sl }
      ((List.range' pre.length suf.length).map Step.loggingSent) =
    some
      { done := d, dispatch := dp,
        loggingListeners := pre ++ suf.map fun l => { l with pc := Handler.select },
        statisticListeners := sl } := by
  induction suf generalizing pre with
  | nil => simp [Hub.run]
  | cons l rest ih =>
    have hl : l.pc = Handler.send := hsend l (List.mem_cons_self _ _)
    have hrest : ∀ l' ∈ rest, l'.pc = Handler.send :=
      fun l' hm => hsend l' (List.mem_cons_of_mem _ hm)
    have h1 := ih (pre ++ [{ l with pc := Handler.select }]) hrest
    simp only [List.length_append, List.length_singleton, List.append_assoc,
      List.singleton_append] at h1
    have hstep : Hub.step
        { done := d, dispatch := dp, loggingListeners := pre ++ l :: rest,
          statisticListeners := sl } (Step.loggingSent pre.length) =
        some
          { done := d, dispatch := dp,
            loggingListeners := pre ++ { l with pc := Handler.select } :: rest,
            statisticListeners := sl } := by
      simp only [Hub.step, List.getElem?_length_append_cons, hl, List.set_length_append_cons]
    rw [List.length_cons, List.range'_succ, List.map_cons]
    simp only [Hub.run, hstep, List.map_cons]
    exact h1

theorem Step.published_append (xs ys : List Step) :
    Step.published (xs ++ ys) = Step.published xs ++ Step.published ys := by
  simp [Step.published, List.filterMap_append]

theorem Step.published_replicate_deliver (n : Nat) :
    Step.published (List.replicate n Step.deliver) = [] := by
  induction n with
  | zero => rfl
  | succ n ih => simp [List.replicate_succ, Step.published_cons, ih, Step.published]

theorem Step.published_logging_sent (is : List Nat) :
    Step.published (is.map Step.loggingSent) = [] := by
  induction is with
  | nil => rfl
  | cons i rest ih => simp [Step.published_cons, ih, Step.published]

theorem Hub.run_append_some (xs ys : List Step) (h h1 h2 : Hub) (hx : h.run xs = some h1)
    (hy : h1.run ys = some h2) : h.run (xs ++ ys) = some h2 := by
  rw [Hub.run_append, hx]
  exact hy

theorem Hub.two_events_can_be_dispatched (h : Hub) (E1 E2 : Event)
    (h0 : h.dispatch = Dispatch.select)
    (hsel : ∀ l ∈ h.loggingListeners, l.pc = Handler.select) :
    ∃ steps h', Step.published steps = [E1, E2] ∧ h.run steps = some h' ∧
      h'.dispatch = Dispatch.select ∧
      ∀ j, j < h.loggingListeners.length → h'.received j = h.received j ++ [E1, E2] := by
  obtain ⟨d, dp, ls, sl⟩ := h
  simp only at h0 hsel
  subst h0
  have hd1 := Hub.run_deliver_events E1 ls [] d sl hsel
  have hs1 := Hub.run_logging_sent
    (ls.map fun (l : LoggingListener) =>
      ({ received := l.received ++ [E1], pc := Handler.send } : LoggingListener)) [] d
    Dispatch.select sl
    (by intro l hl; obtain ⟨l0, _, rfl⟩ := List.mem_map.1 hl; rfl)
  have hd2 := Hub.run_deliver_events E2
    ((ls.map fun (l : LoggingListener) =>
      ({ received := l.received ++ [E1], pc := Handler.send } : LoggingListener)).map
      fun (l : LoggingListener) => ({ l with pc := Handler.select } : LoggingListener)) [] d sl
    (by intro l hl; obtain ⟨l0, _, rfl⟩ := List.mem_map.1 hl; rfl)
  simp only [List.length_nil, List.nil_append, List.length_map] at hd1 hs1 hd2
  have hp1 : Hub.run
      { done := d, dispatch := Dispatch.select, loggingListeners := ls,
        statisticListeners := sl } [Step.publishEvent E1, Step.lock] =
      some
        { done := d, dispatch := Dispatch.event E1 (some 0), loggingListeners := ls,
          statisticListeners := sl } := rfl
  have hp2 : Hub.run
      { done := d, dispatch := Dispatch.select,
        loggingListeners :=
          (ls.map fun (l : LoggingListener) =>
            ({ received := l.received ++ [E1], pc := Handler.send } : LoggingListener)).map
            fun (l : LoggingListener) => ({ l with pc := Handler.select } : LoggingListener),
        statisticListeners := sl } [Step.publishEvent E2, Step.lock] =
      some
        { done := d, dispatch := Dispatch.event E2 (some 0),
          loggingListeners :=
            (ls.map fun (l : LoggingListener) =>
              ({ received := l.received ++ [E1], pc := Handler.send } : LoggingListener)).map
              fun (l : LoggingListener) => ({ l with pc := Handler.select } : LoggingListener),
          statisticListeners := sl } := rfl
  have hrun := Hub.run_append_some _ _ _ _ _
    (Hub.run_append_some _ _ _ _ _ (Hub.run_append_some _ _ _ _ _ hp1 hd1) hs1)
    (Hub.run_append_some _ _ _ _ _ hp2 hd2)
  have hpub : Step.published
      ([Step.publishEvent E1, Step.lock] ++ List.replicate (ls.length + 1) Step.deliver ++
        (List.range' 0 ls.length).map Step.loggingSent ++
        ([Step.publishEvent E2, Step.lock] ++
          List.replicate (ls.length + 1) Step.deliver)) = [E1, E2] := by
    simp [Step.published_append, Step.published_replicate_deliver,
      Step.published_logging_sent, Step.published]
  refine ⟨_, _, hpub, hrun, rfl, ?_⟩
  intro j hj
  have hrec := (Hub.run_received _ _ _ j hrun hj).2
  rw [hpub] at hrec
  simpa [Dispatch.pendingFor] using hrec


/-! ## Monotonicity and shape of the pattern list -/

theorem reqAuth.scan_sublist (method : String) {ps ps' : List String} (h : ps.Sublist ps')
    (hg : reqAuth.scan method ps = none) : reqAuth.scan method ps' = none := by
  obtain ⟨p, hp, hm⟩ := (reqAuth.scan_eq_none_iff method ps).1 hg
  exact (reqAuth.scan_eq_none_iff method ps').2 ⟨p, h.subset hp, hm⟩

theorem reqAuth.scan_perm (method : String) {ps ps' : List String} (h : ps.Perm ps') :
    reqAuth.scan method ps' = reqAuth.scan method ps := by
  by_cases hg : reqAuth.scan method ps = none
  · obtain ⟨p, hp, hm⟩ := (reqAuth.scan_eq_none_iff method ps).1 hg
    rw [hg]
    exact (reqAuth.scan_eq_none_iff method ps').2 ⟨p, h.subset hp, hm⟩
  · have hg' : reqAuth.scan method ps' ≠ none := by
      intro h'
      obtain ⟨p, hp, hm⟩ := (reqAuth.scan_eq_none_iff method ps').1 h'
      exact hg ((reqAuth.scan_eq_none_iff method ps).2 ⟨p, h.symm.subset hp, hm⟩)
    rcases reqAuth.scan_eq_none_or_denied method ps with h1 | h1
    · exact absurd h1 hg
    · rcases reqAuth.scan_eq_none_or_denied method ps' with h2 | h2
      · exact absurd h2 hg'
      · rw [h1, h2]

/-- C23: `reqAuth` is monotone in the consumer's pattern list.  If the ACL
`ms` grants `method` to `consumer` with the pattern list `ps`, then every ACL
`ms'` whose list `ps'` for that consumer has `ps` as a sublist (patterns
inserted before, between or after those of `ps`) grants it as well; and when
`ps'` is a reordering of `ps` the two ACLs return the same result. -/
theorem reqAuth_monotone_in_pattern_list (ms ms' : MainServer) (consumer method : String)
    (ps ps' : List String)
    (h : ms.acls.lookup consumer = some ps) (h' : ms'.acls.lookup consumer = some ps') :
    (ps.Sublist ps' → reqAuth ms consumer method = none → reqAuth ms' consumer method = none) ∧
    (ps.Perm ps' → reqAuth ms' consumer method = reqAuth ms consumer method) := by
  simp only [reqAuth, h, h']
  exact ⟨fun hs hg => reqAuth.scan_sublist method hs hg, fun hp => reqAuth.scan_perm method hp⟩

theorem reqAuth_monotone_in_pattern_list_witness :
    (["Foo/*"].Sublist ["A/b", "Foo/*", "*/Ping"] →
      reqAuth ⟨[("svc-a", ["Foo/*"])]⟩ "svc-a" "/Foo/Bar" = none →
      reqAuth ⟨[("svc-a", ["A/b", "Foo/*", "*/Ping"])]⟩ "svc-a" "/Foo/Bar" = none) ∧
    (["Foo/*"].Perm ["A/b", "Foo/*", "*/Ping"] →
      reqAuth ⟨[("svc-a", ["A/b", "Foo/*", "*/Ping"])]⟩ "svc-a" "/Foo/Bar" =
        reqAuth ⟨[("svc-a", ["Foo/*"])]⟩ "svc-a" "/Foo/Bar") :=
  reqAuth_monotone_in_pattern_list ⟨[("svc-a", ["Foo/*"])]⟩
    ⟨[("svc-a", ["A/b", "Foo/*", "*/Ping"])]⟩ "svc-a" "/Foo/Bar" ["Foo/*"]
    ["A/b", "Foo/*", "*/Ping"] (by decide) (by decide)

theorem reqAuth.allows_two_segments (method p : String) (h : reqAuth.allows method p = true) :
    (segments p).length = 2 ∧ (segments method).length = 2 := by
  have hm := (reqAuth.allows_iff method p).1 h
  exact ⟨hm.1, hm.2.1⟩

theorem reqAuth.scan_filter_two_segments (method : String) (ps : List String) :
    reqAuth.scan method (ps.filter (fun p => decide ((segments p).length = 2))) =
      reqAuth.scan method ps := by
  induction ps with
  | nil => rfl
  | cons p rest ih =>
    by_cases hp : (segments p).length = 2
    · simp only [List.filter_cons, hp, decide_True, if_true, reqAuth.scan, ih]
    · have hf : reqAuth.allows method p = false := by
        cases hb : reqAuth.allows method p with
        | false => rfl
        | true => exact absurd (reqAuth.allows_two_segments method p hb).1 hp
      simp [List.filter_cons, hp, reqAuth.scan, hf, ih]

/-- C24: for a known consumer (pattern list `ps`), a method that does not
have exactly two `/`-separated segments after its leading `/` are stripped is
denied whatever the patterns are (so also under `*/*`); a pattern without
exactly two segments grants no method, and the result of `reqAuth` is the one
of the ACL `ms'` that keeps only the consumer's two-segment patterns. -/
theorem reqAuth_requires_two_segments (ms ms' : MainServer) (consumer method : String)
    (ps : List String) (h : ms.acls.lookup consumer = some ps)
    (h' : ms'.acls.lookup consumer =
      some (ps.filter (fun p => decide ((segments p).length = 2)))) :
    ((segments method).length ≠ 2 → reqAuth ms consumer method = some accessDenied) ∧
    (∀ p, (segments p).length ≠ 2 → reqAuth.allows method p = false) ∧
    ((∀ p ∈ ps, (segments p).length ≠ 2) → reqAuth ms consumer method = some accessDenied) ∧
    reqAuth ms' consumer method = reqAuth ms consumer method := by
  have hp : ∀ p, (segments p).length ≠ 2 → reqAuth.allows method p = false := by
    intro p hp
    cases hb : reqAuth.allows method p with
    | false => rfl
    | true => exact absurd (reqAuth.allows_two_segments method p hb).1 hp
  simp only [reqAuth, h, h']
  refine ⟨?_, hp, ?_, reqAuth.scan_filter_two_segments method ps⟩
  · intro hm
    rcases reqAuth.scan_eq_none_or_denied method ps with hg | hg
    · obtain ⟨p, _, hpm⟩ := (reqAuth.scan_eq_none_iff method ps).1 hg
      exact absurd hpm.2.1 hm
    · exact hg
  · intro hall
    rcases reqAuth.scan_eq_none_or_denied method ps with hg | hg
    · obtain ⟨p, hmem, hpm⟩ := (reqAuth.scan_eq_none_iff method ps).1 hg
      exact absurd hpm.1 (hall p hmem)
    · exact hg

theorem reqAuth_requires_two_segments_witness :
    ((segments "a/b/c").length ≠ 2 →
      reqAuth ⟨[("svc-a", ["*/*", "x"])]⟩ "svc-a" "a/b/c" = some accessDenied) ∧
    (∀ p, (segments p).length ≠ 2 → reqAuth.allows "a/b/c" p = false) ∧
    ((∀ p ∈ ["*/*", "x"], (segments p).length ≠ 2) →
      reqAuth ⟨[("svc-a", ["*/*", "x"])]⟩ "svc-a" "a/b/c" = some accessDenied) ∧
    reqAuth ⟨[("svc-a", ["*/*"])]⟩ "svc-a" "a/b/c" =
      reqAuth ⟨[("svc-a", ["*/*", "x"])]⟩ "svc-a" "a/b/c" :=
  reqAuth_requires_two_segments ⟨[("svc-a", ["*/*", "x"])]⟩ ⟨[("svc-a", ["*/*"])]⟩ "svc-a"
    "a/b/c" ["*/*", "x"] (by decide) (by decide)

/-- The examples of C24 evaluated: under the pattern `*/*` the methods `a`,
`a/b/c` and the empty string are denied, and a method of two segments is
granted; under the patterns `*` and `*/*/*` a method of two segments is
denied. -/
theorem reqAuth_star_star_examples :
    reqAuth ⟨[("svc-a", ["*/*"])]⟩ "svc-a" "a" = some accessDenied ∧
    reqAuth ⟨[("svc-a", ["*/*"])]⟩ "svc-a" "a/b/c" = some accessDenied ∧
    reqAuth ⟨[("svc-a", ["*/*"])]⟩ "svc-a" "" = some accessDenied ∧
    reqAuth ⟨[("svc-a", ["*/*"])]⟩ "svc-a" "a/b" = none ∧
    reqAuth ⟨[("svc-a", ["*", "*/*/*"])]⟩ "svc-a" "a/b" = some accessDenied := by
  decide



/-! ## A call running against the hub -/

theorem Hub.blockedBy_eq_some (h : Hub) (u : Step) (hb : h.blockedBy = some u) :
    (∃ i, u = Step.loggingSent i) ∨ (∃ i, u = Step.statisticsSent i) := by
  unfold Hub.blockedBy at hb
  split at hb
  · split at hb
    · split_ifs at hb
      exact Or.inl ⟨_, (Option.some.inj hb).symm⟩
    · simp at hb
  · split at hb
    · split_ifs at hb
      exact Or.inr ⟨_, (Option.some.inj hb).symm⟩
    · simp at hb
  · simp at hb

theorem Call.step_trace (c c' : Call) (m : Move) (hs : c.step m = some c') :
    c'.trace ++ c'.todo = c.trace ++ c.todo ∧
    c'.trace.length = c.trace.length + (if m = Move.call then 1 else 0) := by
  cases m with
  | hub s =>
    simp only [Call.step] at hs
    split at hs
    · cases Option.some.inj hs
      simp
    · simp at hs
  | call =>
    simp only [Call.step] at hs
    split at hs
    · simp at hs
    · next e rest htodo =>
      split at hs
      · cases Option.some.inj hs
        simp [htodo]
      · simp at hs
    · next s rest htodo =>
      split at hs
      · cases Option.some.inj hs
        simp [htodo]
      · simp at hs
    · next rest htodo =>
      cases Option.some.inj hs
      simp [htodo]

theorem Call.run_trace (moves : List Move) (c c' : Call) (hr : c.run moves = some c') :
    c'.trace ++ c'.todo = c.trace ++ c.todo ∧
    c'.trace.length = c.trace.length + moves.count Move.call := by
  induction moves generalizing c with
  | nil =>
    simp only [Call.run, Option.some.injEq] at hr
    subst hr
    simp
  | cons m rest ih =>
    simp only [Call.run] at hr
    cases hs : c.step m with
    | none => simp [hs] at hr
    | some c1 =>
      rw [hs] at hr
      obtain ⟨h1, h2⟩ := Call.step_trace c c1 m hs
      obtain ⟨h3, h4⟩ := ih c1 hr
      refine ⟨h3.trans h1, ?_⟩
      rw [h4, h2, List.count_cons]
      by_cases hm : m = Move.call
      · simp [hm]
        omega
      · have hm' : ¬ (m == Move.call) = true := by simpa using hm
        simp [hm, hm']

/-- A send of the call is enabled exactly when the dispatch loop stands at
its `select`. -/
theorem Call.send_enabled_iff (c : Call) (hs : c.atSend = true) :
    (∃ c', c.step Move.call = some c') ↔ c.hub.dispatch = Dispatch.select := by
  obtain ⟨h, todo, trace⟩ := c
  cases todo with
  | nil => simp [Call.atSend] at hs
  | cons a rest =>
    cases a with
    | loggingBroadcast e =>
      simp only [Call.step, Hub.step]
      cases h.dispatch <;> simp
    | statisticBroadcast s =>
      simp only [Call.step, Hub.step]
      cases h.dispatch <;> simp
    | handler => simp [Call.atSend] at hs

theorem Call.step_waits (c c' : Call) (m : Move) (u : Step)
    (hb : c.hub.blockedBy = some u) (hsend : c.atSend = true) (hne : m ≠ Move.hub u)
    (hs : c.step m = some c') :
    c'.hub.blockedBy = some u ∧ c'.todo = c.todo ∧ c'.trace = c.trace := by
  have hu := Hub.blockedBy_eq_some c.hub u hb
  cases m with
  | hub s =>
    simp only [Call.step] at hs
    split at hs
    · next h1 hstep =>
      cases Option.some.inj hs
      have hsu : s ≠ u := fun e => hne (by rw [e])
      exact ⟨(Hub.step_blocked c.hub h1 s u hb hstep hsu).1, rfl, rfl⟩
    · simp at hs
  | call =>
    obtain ⟨h, todo, trace⟩ := c
    cases todo with
    | nil => simp [Call.atSend] at hsend
    | cons a rest =>
      cases a with
      | loggingBroadcast e =>
        simp only [Call.step] at hs
        split at hs
        · next h1 hstep =>
          have hsu : Step.publishEvent e ≠ u := by
            rcases hu with ⟨i, rfl⟩ | ⟨i, rfl⟩ <;> simp
          exact absurd rfl ((Hub.step_blocked h h1 _ u hb hstep hsu).2.2.2.2.1 e)
        · simp at hs
      | statisticBroadcast s =>
        simp only [Call.step] at hs
        split at hs
        · next h1 hstep =>
          have hsu : Step.publishSignal s ≠ u := by
            rcases hu with ⟨i, rfl⟩ | ⟨i, rfl⟩ <;> simp
          exact absurd rfl ((Hub.step_blocked h h1 _ u hb hstep hsu).2.2.2.2.2 s)
        · simp at hs
      | handler => simp [Call.atSend] at hsend

/-- While the dispatch loop waits for the listener whose turn it is, a call
that stands at a send stays there: in every run in which that listener's
`Send` does not return, the call completes no statement. -/
theorem Call.run_waits (moves : List Move) (c c' : Call) (u : Step)
    (hb : c.hub.blockedBy = some u) (hsend : c.atSend = true)
    (hu : Move.hub u ∉ moves) (hr : c.run moves = some c') :
    c'.hub.blockedBy = some u ∧ c'.todo = c.todo ∧ c'.trace = c.trace := by
  induction moves generalizing c with
  | nil =>
    simp only [Call.run, Option.some.injEq] at hr
    subst hr
    exact ⟨hb, rfl, rfl⟩
  | cons m rest ih =>
    simp only [List.mem_cons, not_or] at hu
    simp only [Call.run] at hr
    cases hs : c.step m with
    | none => simp [hs] at hr
    | some c1 =>
      rw [hs] at hr
      obtain ⟨hb1, ht1, hr1⟩ := Call.step_waits c c1 m u hb hsend (fun e => hu.1 e.symm) hs
      have hsend1 : c1.atSend = true := by
        simpa [Call.atSend, ht1] using hsend
      obtain ⟨hb2, ht2, hr2⟩ := ih c1 hb1 hsend1 hu.2 hr
      exact ⟨hb2, ht2.trans ht1, hr2.trans hr1⟩

/-- The statements of an accepted call, in program order: the send of the
`Event`, the send of the `statS`, the call of the handler; the same for both
interceptors. -/
theorem accepted_call_statements {α β σ : Type} (Sprintf : String → String)
    (ms : MainServer) (ctx : context.Context) (method : String) (req : α)
    (handler : context.Context → α → Option β × Option GoError) (srv : σ)
    (streamHandler : σ → grpc.ServerStream → Option GoError) (t : Trace)
    (consumer : String) (p : peer.Peer)
    (hc : consumerFromCtx ctx = (consumer, none)) (hp : ctx.peer = some p)
    (ha : reqAuth ms consumer method = none) :
    (unaryInterceptor Sprintf ms ctx req ⟨method⟩ handler t).1 =
      t ++ [Action.loggingBroadcast ⟨consumer, method, p.Addr⟩,
        Action.statisticBroadcast ⟨consumer, method⟩, Action.handler] ∧
    (streamInterceptor Sprintf ms srv ⟨ctx⟩ ⟨method⟩ streamHandler t).1 =
      t ++ [Action.loggingBroadcast ⟨consumer, method, p.Addr⟩,
        Action.statisticBroadcast ⟨consumer, method⟩, Action.handler] := by
  simp [unaryInterceptor, streamInterceptor, hc, hp, ha]

/-- With the dispatch loop at its `select` and no listener registered, an
accepted call can run to its end: each send is taken by the dispatch loop,
which goes through its empty `range` loop before the next send. -/
theorem Call.can_complete (h : Hub) (e : Event) (s : statS)
    (hd : h.dispatch = Dispatch.select) (hl : h.loggingListeners = [])
    (hsl : h.statisticListeners = []) :
    Call.run
      { hub := h,
        todo := [Action.loggingBroadcast e, Action.statisticBroadcast s, Action.handler],
        trace := [] }
      [Move.call, Move.hub Step.lock, Move.hub Step.deliver, Move.call, Move.hub Step.lock,
        Move.hub Step.deliver, Move.call] =
      some
        { hub := h, todo := [],
          trace := [Action.loggingBroadcast e, Action.statisticBroadcast s, Action.handler] } := by
  obtain ⟨d, dp, ls, sl⟩ := h
  simp only at hd hl hsl
  subst hd hl hsl
  simp [Call.run, Call.step, Hub.step]


/-- C10 on the code: a call that passes the three checks, against a hub with
one logging listener that is inside `alSrv.Send` and does not read its
channel.  The send of the `Event` is taken by the dispatch loop, which takes
the lock and then waits at `ch <- event`.  From there on, in every run in
which that `Send` does not return, the call stays at the send of its `statS`:
it has published the `Event` only, and the handler is not invoked. -/
theorem authorized_call_waits_at_stat_send :
    consumerFromCtx ⟨some [("consumer", ["biz_admin"])], some ⟨"127.0.0.1:8082"⟩⟩ =
      ("biz_admin", none) ∧
    reqAuth ⟨[("biz_admin", ["/main.Biz/*"])]⟩ "biz_admin" "/main.Biz/Check" = none ∧
    Call.run
        (Call.unary id ⟨[("biz_admin", ["/main.Biz/*"])]⟩
          ⟨some [("consumer", ["biz_admin"])], some ⟨"127.0.0.1:8082"⟩⟩ (7 : Nat)
          ⟨"/main.Biz/Check"⟩ (fun _ r => (some r, none))
          { done := false, dispatch := Dispatch.select,
            loggingListeners := [{ received := [], pc := Handler.send }],
            statisticListeners := [] })
        [Move.call, Move.hub Step.lock] =
      some
        { hub :=
            { done := false,
              dispatch := Dispatch.event ⟨"biz_admin", "/main.Biz/Check", "127.0.0.1:8082"⟩ (some 0),
              loggingListeners := [{ received := [], pc := Handler.send }],
              statisticListeners := [] },
          todo := [Action.statisticBroadcast ⟨"biz_admin", "/main.Biz/Check"⟩, Action.handler],
          trace := [Action.loggingBroadcast ⟨"biz_admin", "/main.Biz/Check", "127.0.0.1:8082"⟩] } ∧
    ∀ (moves : List Move) (c' : Call), Move.hub (Step.loggingSent 0) ∉ moves →
      Call.run
          { hub :=
              { done := false,
                dispatch :=
                  Dispatch.event ⟨"biz_admin", "/main.Biz/Check", "127.0.0.1:8082"⟩ (some 0),
                loggingListeners := [{ received := [], pc := Handler.send }],
                statisticListeners := [] },
            todo := [Action.statisticBroadcast ⟨"biz_admin", "/main.Biz/Check"⟩, Action.handler],
            trace := [Action.loggingBroadcast ⟨"biz_admin", "/main.Biz/Check", "127.0.0.1:8082"⟩] }
          moves = some c' →
      c'.trace = [Action.loggingBroadcast ⟨"biz_admin", "/main.Biz/Check", "127.0.0.1:8082"⟩] ∧
      Action.statisticBroadcast ⟨"biz_admin", "/main.Biz/Check"⟩ ∉ c'.trace ∧
      Action.handler ∉ c'.trace := by
  refine ⟨by decide, by decide, by decide, ?_⟩
  intro moves c' hu hr
  have h := (Call.run_waits moves _ c' (Step.loggingSent 0) (by decide) (by decide) hu hr).2.2
  simp only at h
  rw [h]
  simp

/-- C10 (amended): for a call whose consumer is extracted, whose peer is
resolved and that `reqAuth` grants, both interceptors have the same three
statements ahead: the send of one `Event` with the consumer, the method and
the peer address, the send of one `statS` with the same consumer and method,
and the call of the handler.  In every run of the call against a hub, what
the call has completed and what it has ahead are together these three
statements in this order; the call completes one statement per step of its
own; so once the handler is invoked exactly one `Event` and then exactly one
`statS` have been published before it.  A send is enabled exactly when the
dispatch loop is at its `select`, and while the dispatch loop waits for a
listener that does not read, a call that stands at a send completes
nothing. -/
theorem authorized_call_publishes_event_then_stat {α β σ : Type} (Sprintf : String → String)
    (ms : MainServer) (ctx : context.Context) (method : String) (req : α)
    (handler : context.Context → α → Option β × Option GoError) (srv : σ)
    (streamHandler : σ → grpc.ServerStream → Option GoError)
    (consumer : String) (p : peer.Peer) (h : Hub) (moves : List Move) (c' : Call)
    (hc : consumerFromCtx ctx = (consumer, none)) (hp : ctx.peer = some p)
    (ha : reqAuth ms consumer method = none)
    (hr : (Call.unary Sprintf ms ctx req ⟨method⟩ handler h).run moves = some c') :
    Call.stream Sprintf ms srv ⟨ctx⟩ ⟨method⟩ streamHandler h =
      Call.unary Sprintf ms ctx req ⟨method⟩ handler h ∧
    (Call.unary Sprintf ms ctx req ⟨method⟩ handler h).todo =
      [Action.loggingBroadcast ⟨consumer, method, p.Addr⟩,
        Action.statisticBroadcast ⟨consumer, method⟩, Action.handler] ∧
    c'.trace ++ c'.todo =
      [Action.loggingBroadcast ⟨consumer, method, p.Addr⟩,
        Action.statisticBroadcast ⟨consumer, method⟩, Action.handler] ∧
    c'.trace.length = moves.count Move.call ∧
    (Action.handler ∈ c'.trace →
      c'.trace = [Action.loggingBroadcast ⟨consumer, method, p.Addr⟩,
        Action.statisticBroadcast ⟨consumer, method⟩, Action.handler]) ∧
    (c'.atSend = true →
      ((∃ c'', c'.step Move.call = some c'') ↔ c'.hub.dispatch = Dispatch.select)) ∧
    (∀ (u : Step) (more : List Move) (c'' : Call), c'.hub.blockedBy = some u →
      c'.atSend = true → Move.hub u ∉ more → c'.run more = some c'' →
      c''.trace = c'.trace) := by
  obtain ⟨hu, hst⟩ := accepted_call_statements Sprintf ms ctx method req handler srv
    streamHandler [] consumer p hc hp ha
  simp only [List.nil_append] at hu hst
  have htodo : (Call.unary Sprintf ms ctx req ⟨method⟩ handler h).todo =
      [Action.loggingBroadcast ⟨consumer, method, p.Addr⟩,
        Action.statisticBroadcast ⟨consumer, method⟩, Action.handler] := hu
  obtain ⟨ht, hlen⟩ := Call.run_trace moves _ c' hr
  rw [htodo] at ht
  have ht' : c'.trace ++ c'.todo =
      [Action.loggingBroadcast ⟨consumer, method, p.Addr⟩,
        Action.statisticBroadcast ⟨consumer, method⟩, Action.handler] := by
    simpa [Call.unary] using ht
  refine ⟨?_, htodo, ht', ?_, ?_, ?_, ?_⟩
  · simp only [Call.stream, Call.unary, hu, hst]
  · simpa [Call.unary] using hlen
  · intro hmem
    generalize c'.trace = tr at ht' hmem
    generalize c'.todo = td at ht'
    rcases tr with _ | ⟨a, _ | ⟨b, _ | ⟨c, _ | ⟨d, tr⟩⟩⟩⟩
    · simp at hmem
    · simp only [List.cons_append, List.nil_append, List.cons.injEq] at ht'
      obtain ⟨rfl, _⟩ := ht'
      simp at hmem
    · simp only [List.cons_append, List.nil_append, List.cons.injEq] at ht'
      obtain ⟨rfl, rfl, _⟩ := ht'
      simp at hmem
    · simp only [List.cons_append, List.nil_append, List.cons.injEq] at ht'
      obtain ⟨rfl, rfl, rfl, _⟩ := ht'
      rfl
    · have := congrArg List.length ht'
      simp at this
  · intro hs
    exact Call.send_enabled_iff c' hs
  · intro u more c'' hb hs hnot hrun
    exact (Call.run_waits more c' c'' u hb hs hnot hrun).2.2

theorem authorized_call_publishes_event_then_stat_witness :
    Call.stream id ⟨[("biz_admin", ["/main.Biz/*"])]⟩ (7 : Nat)
        ⟨⟨some [("consumer", ["biz_admin"])], some ⟨"127.0.0.1:8082"⟩⟩⟩ ⟨"/main.Biz/Check"⟩
        (fun _ _ => none)
        { done := false, dispatch := Dispatch.select,
          loggingListeners := [{ received := [], pc := Handler.select }],
          statisticListeners := [Statistics.start] } =
      Call.unary id ⟨[("biz_admin", ["/main.Biz/*"])]⟩
        ⟨some [("consumer", ["biz_admin"])], some ⟨"127.0.0.1:8082"⟩⟩ (7 : Nat)
        ⟨"/main.Biz/Check"⟩ (fun _ r => (some r, none))
        { done := false, dispatch := Dispatch.select,
          loggingListeners := [{ received := [], pc := Handler.select }],
          statisticListeners := [Statistics.start] } ∧
    ({ hub :=
          { done := false, dispatch := Dispatch.select,
            loggingListeners :=
              [{ received := [⟨"biz_admin", "/main.Biz/Check", "127.0.0.1:8082"⟩],
                 pc := Handler.send }],
            statisticListeners :=
              [Statistics.accumulate Statistics.start ⟨"biz_admin", "/main.Biz/Check"⟩] },
        todo := [],
        trace := [Action.loggingBroadcast ⟨"biz_admin", "/main.Biz/Check", "127.0.0.1:8082"⟩,
          Action.statisticBroadcast ⟨"biz_admin", "/main.Biz/Check"⟩, Action.handler] } :
      Call).trace =
      [Action.loggingBroadcast
          ⟨"biz_admin", "/main.Biz/Check", (⟨"127.0.0.1:8082"⟩ : peer.Peer).Addr⟩,
        Action.statisticBroadcast ⟨"biz_admin", "/main.Biz/Check"⟩, Action.handler] :=
  have w := authorized_call_publishes_event_then_stat id ⟨[("biz_admin", ["/main.Biz/*"])]⟩
    ⟨some [("consumer", ["biz_admin"])], some ⟨"127.0.0.1:8082"⟩⟩ "/main.Biz/Check" (7 : Nat)
    (fun _ r => (some r, none)) (7 : Nat) (fun _ _ => none) "biz_admin" ⟨"127.0.0.1:8082"⟩
    { done := false, dispatch := Dispatch.select,
      loggingListeners := [{ received := [], pc := Handler.select }],
      statisticListeners := [Statistics.start] }
    [Move.call, Move.hub Step.lock, Move.hub Step.deliver, Move.hub Step.deliver, Move.call,
      Move.hub Step.lock, Move.hub Step.deliver, Move.hub Step.deliver, Move.call]
    { hub :=
        { done := false, dispatch := Dispatch.select,
          loggingListeners :=
            [{ received := [⟨"biz_admin", "/main.Biz/Check", "127.0.0.1:8082"⟩],
               pc := Handler.send }],
          statisticListeners :=
            [Statistics.accumulate Statistics.start ⟨"biz_admin", "/main.Biz/Check"⟩] },
      todo := [],
      trace := [Action.loggingBroadcast ⟨"biz_admin", "/main.Biz/Check", "127.0.0.1:8082"⟩,
        Action.statisticBroadcast ⟨"biz_admin", "/main.Biz/Check"⟩, Action.handler] }
    (by decide) rfl (by decide) (by decide)
  ⟨w.1, w.2.2.2.2.1 (by decide)⟩



/-! ## Cancellation: what stays enabled, and how the handlers end -/

end Microservice

/-! ## Library functions: sorting, searching, parsing -/

namespace GoLib

theorem sort.Slice_perm {α : Type} (x : List α) (less : α → α → Bool) :
    (sort.Slice x less).Perm x :=
  List.perm_insertionSort _ x

theorem sort.Slice_sorted_desc {α κ : Type} [LinearOrder κ] (key : α → κ) (less : α → α → Bool)
    (h : ∀ a b, less a b = true ↔ key b < key a) (x : List α) :
    (sort.Slice x less).Sorted (fun a b => key b ≤ key a) := by
  have hr : ∀ a b, less b a = false ↔ key b ≤ key a := by
    intro a b
    rw [← Bool.not_eq_true, h b a, not_lt]
  haveI : IsTotal α (fun a b => less b a = false) :=
    ⟨fun a b => by simp only [hr]; exact le_total _ _⟩
  haveI : IsTrans α (fun a b => less b a = false) :=
    ⟨fun a b c hab hbc => by simp only [hr] at *; exact le_trans hbc hab⟩
  exact (List.sorted_insertionSort (fun a b => less b a = false) x).imp (fun {a b} hab => (hr a b).1 hab)

theorem sort.Slice_sorted_asc {α κ : Type} [LinearOrder κ] (key : α → κ) (less : α → α → Bool)
    (h : ∀ a b, less a b = true ↔ key a < key b) (x : List α) :
    (sort.Slice x less).Sorted (fun a b => key a ≤ key b) := by
  have hr : ∀ a b, less b a = false ↔ key a ≤ key b := by
    intro a b
    rw [← Bool.not_eq_true, h b a, not_lt]
  haveI : IsTotal α (fun a b => less b a = false) :=
    ⟨fun a b => by simp only [hr]; exact le_total _ _⟩
  haveI : IsTrans α (fun a b => less b a = false) :=
    ⟨fun a b c hab hbc => by simp only [hr] at *; exact le_trans hab hbc⟩
  exact (List.sorted_insertionSort (fun a b => less b a = false) x).imp (fun {a b} hab => (hr a b).1 hab)

theorem strings.lessChars_iff (as bs : List Char) :
    strings.lessChars as bs = true ↔ as < bs := by
  have hc : ∀ c d : Char, c < d ↔ c.toNat < d.toNat := fun c d => Iff.rfl
  induction as generalizing bs with
  | nil =>
    cases bs with
    | nil => exact ⟨fun h => by simp [strings.lessChars] at h, fun h => nomatch h⟩
    | cons b bs => exact ⟨fun _ => List.Lex.nil, fun _ => by simp [strings.lessChars]⟩
  | cons a as ih =>
    cases bs with
    | nil => exact ⟨fun h => by simp [strings.lessChars] at h, fun h => nomatch h⟩
    | cons b bs =>
      simp only [strings.lessChars]
      constructor
      · intro h
        split_ifs at h with h1 h2
        · exact List.Lex.rel ((hc a b).2 h1)
        · have hab : a = b :=
            Char.ext (UInt32.ext (Nat.le_antisymm (Nat.not_lt.1 h2) (Nat.not_lt.1 h1)))
          subst hab
          exact List.Lex.cons ((ih bs).1 h)
      · intro h
        cases h with
        | rel h' => simp [(hc a b).1 h']
        | cons h' =>
          simp only [Nat.lt_irrefl, if_false]
          exact (ih bs).2 h'

/-- The model of Go's `<` on strings is the order of `String`. -/
theorem strings.Less_iff (a b : String) : strings.Less a b = true ↔ a < b := by
  unfold strings.Less
  rw [strings.lessChars_iff]
  exact String.lt_iff_toList_lt.symm

theorem strings.containsChars_iff (pat cs : List Char) :
    strings.containsChars pat cs = true ↔ ∃ a b, cs = a ++ pat ++ b := by
  induction cs with
  | nil =>
    simp only [strings.containsChars, List.isEmpty_iff]
    constructor
    · rintro rfl
      exact ⟨[], [], rfl⟩
    · rintro ⟨a, b, h⟩
      have h' := congrArg List.length h
      simp only [List.length_nil, List.length_append] at h'
      exact List.length_eq_zero.1 (by omega)
  | cons c cs ih =>
    simp only [strings.containsChars, Bool.or_eq_true, ih, List.isPrefixOf_iff_prefix]
    constructor
    · rintro (⟨b, hb⟩ | ⟨a, b, hab⟩)
      · exact ⟨[], b, by simpa using hb.symm⟩
      · exact ⟨c :: a, b, by simp [hab]⟩
    · rintro ⟨a, b, hab⟩
      cases a with
      | nil => exact Or.inl ⟨b, by simpa using hab.symm⟩
      | cons d a =>
        simp only [List.cons_append, List.cons.injEq] at hab
        exact Or.inr ⟨a, b, hab.2⟩

/-- The model of `strings.Contains` says that `substr` is a substring of `s`. -/
theorem strings.Contains_iff (s substr : String) :
    strings.Contains s substr = true ↔ ∃ a b : String, s = a ++ substr ++ b := by
  unfold strings.Contains
  rw [strings.containsChars_iff]
  constructor
  · rintro ⟨a, b, h⟩
    exact ⟨⟨a⟩, ⟨b⟩, String.ext (by simpa [String.data_append] using h)⟩
  · rintro ⟨a, b, h⟩
    exact ⟨a.data, b.data, by rw [h]; simp [String.data_append]⟩

end GoLib

/-! ## hw4_test_coverage: theorems -/

namespace Coverage

open GoLib

theorem sortUsers_perm (OrderByAsc OrderByDesc : Int) (users : List User) (orderField : String)
    (orderBy : Int) : (sortUsers OrderByAsc OrderByDesc users orderField orderBy).Perm users := by
  unfold sortUsers
  split_ifs <;> first | exact sort.Slice_perm _ _ | exact List.Perm.refl _

/-- What `sortUsers` does under `case OrderByAsc`: for each of the fields
`Id`, `Name` and `Age` the result is a permutation of the input in which the
field is in descending (non-increasing) order. -/
theorem sortUsers_OrderByAsc_sorts_descending (OrderByAsc OrderByDesc : Int)
    (users : List User) :
    ((sortUsers OrderByAsc OrderByDesc users "Id" OrderByAsc).Perm users ∧
      (sortUsers OrderByAsc OrderByDesc users "Id" OrderByAsc).Sorted
        (fun a b => b.Id ≤ a.Id)) ∧
    ((sortUsers OrderByAsc OrderByDesc users "Name" OrderByAsc).Perm users ∧
      (sortUsers OrderByAsc OrderByDesc users "Name" OrderByAsc).Sorted
        (fun a b => b.Name ≤ a.Name)) ∧
    ((sortUsers OrderByAsc OrderByDesc users "Age" OrderByAsc).Perm users ∧
      (sortUsers OrderByAsc OrderByDesc users "Age" OrderByAsc).Sorted
        (fun a b => b.Age ≤ a.Age)) := by
  refine ⟨⟨sortUsers_perm _ _ _ _ _, ?_⟩, ⟨sortUsers_perm _ _ _ _ _, ?_⟩,
    ⟨sortUsers_perm _ _ _ _ _, ?_⟩⟩
  · have h : sortUsers OrderByAsc OrderByDesc users "Id" OrderByAsc =
        sort.Slice users (fun ui uj => decide (ui.Id > uj.Id)) := by
      simp [sortUsers]
    rw [h]
    exact sort.Slice_sorted_desc (fun u => u.Id) (fun ui uj => decide (ui.Id > uj.Id))
      (fun a b => by simp) users
  · have h : sortUsers OrderByAsc OrderByDesc users "Name" OrderByAsc =
        sort.Slice users (fun ui uj => strings.Less uj.Name ui.Name) := by
      simp [sortUsers]
    rw [h]
    exact sort.Slice_sorted_desc (fun u => u.Name) (fun ui uj => strings.Less uj.Name ui.Name)
      (fun a b => strings.Less_iff b.Name a.Name) users
  · have h : sortUsers OrderByAsc OrderByDesc users "Age" OrderByAsc =
        sort.Slice users (fun ui uj => decide (ui.Age > uj.Age)) := by
      simp [sortUsers]
    rw [h]
    exact sort.Slice_sorted_desc (fun u => u.Age) (fun ui uj => decide (ui.Age > uj.Age))
      (fun a b => by simp) users

/-- C27 on the code: for every value of the constants, `sortUsers` with the
field `Id` and the order `OrderByAsc` turns the users with the Ids 1, 2 into
the users with the Ids 2, 1, which are not in ascending order; the same
happens with the fields `Name` and `Age`. -/
theorem sortUsers_OrderByAsc_example :
    ∀ OrderByAsc OrderByDesc : Int,
      (sortUsers OrderByAsc OrderByDesc
          [⟨1, "Ann", 20, "", "female"⟩, ⟨2, "Bob", 30, "", "male"⟩] "Id" OrderByAsc =
        [⟨2, "Bob", 30, "", "male"⟩, ⟨1, "Ann", 20, "", "female"⟩]) ∧
      (sortUsers OrderByAsc OrderByDesc
          [⟨1, "Ann", 20, "", "female"⟩, ⟨2, "Bob", 30, "", "male"⟩] "Name" OrderByAsc =
        [⟨2, "Bob", 30, "", "male"⟩, ⟨1, "Ann", 20, "", "female"⟩]) ∧
      (sortUsers OrderByAsc OrderByDesc
          [⟨1, "Ann", 20, "", "female"⟩, ⟨2, "Bob", 30, "", "male"⟩] "Age" OrderByAsc =
        [⟨2, "Bob", 30, "", "male"⟩, ⟨1, "Ann", 20, "", "female"⟩]) ∧
      ¬ ((sortUsers OrderByAsc OrderByDesc
          [⟨1, "Ann", 20, "", "female"⟩, ⟨2, "Bob", 30, "", "male"⟩] "Id" OrderByAsc).Sorted
        (fun a b => a.Id ≤ b.Id)) := by
  intro OrderByAsc OrderByDesc
  have h1 : sortUsers OrderByAsc OrderByDesc
      [⟨1, "Ann", 20, "", "female"⟩, ⟨2, "Bob", 30, "", "male"⟩] "Id" OrderByAsc =
      [⟨2, "Bob", 30, "", "male"⟩, ⟨1, "Ann", 20, "", "female"⟩] := by
    simp only [sortUsers, if_true]
    decide
  have h2 : sortUsers OrderByAsc OrderByDesc
      [⟨1, "Ann", 20, "", "female"⟩, ⟨2, "Bob", 30, "", "male"⟩] "Name" OrderByAsc =
      [⟨2, "Bob", 30, "", "male"⟩, ⟨1, "Ann", 20, "", "female"⟩] := by
    simp only [sortUsers, if_true]
    decide
  have h3 : sortUsers OrderByAsc OrderByDesc
      [⟨1, "Ann", 20, "", "female"⟩, ⟨2, "Bob", 30, "", "male"⟩] "Age" OrderByAsc =
      [⟨2, "Bob", 30, "", "male"⟩, ⟨1, "Ann", 20, "", "female"⟩] := by
    simp only [sortUsers, if_true]
    decide
  refine ⟨h1, h2, h3, ?_⟩
  rw [h1]
  simp [List.Sorted]


/-- A request that passes every check of `SearchServer` is answered with the
page cut out of the sorted matching users. -/
theorem SearchServer_accepted (OrderByAsc OrderByDesc : Int)
    (getUsers : String → Option (List User)) (r : Request) (allUsers : List User)
    (limit offset orderBy : Int)
    (htoken : r.header "AccessToken" = "access")
    (hquery : r.form "query" ∉ ["invalid_json", "bad_request_invalid_json",
      "bad_request_unknown_error", "internal_server_error"])
    (hlimit : strconv.Atoi (r.form "limit") = some limit)
    (hoffset : strconv.Atoi (r.form "offset") = some offset)
    (horderBy : strconv.Atoi (r.form "order_by") = some orderBy)
    (hrange : -1 ≤ orderBy ∧ orderBy ≤ 1)
    (hfield : r.form "order_field" ∈ ["", "Name", "Id", "Age"])
    (husers : getUsers "dataset.xml" = some allUsers) :
    SearchServer OrderByAsc OrderByDesc getUsers r =
      match paginate (sortUsers OrderByAsc OrderByDesc (matching (r.form "query") allUsers)
          (if r.form "order_field" = "" then "Name" else r.form "order_field") orderBy)
          limit offset with
      | none => Response.panic
      | some users => Response.users users := by
  simp only [List.mem_cons, List.mem_singleton, List.not_mem_nil, or_false, not_or] at hquery
  obtain ⟨hq1, hq2, hq3, hq4⟩ := hquery
  have hf : ¬ ((if r.form "order_field" = "" then "Name" else r.form "order_field") ≠ "Name" ∧
      (if r.form "order_field" = "" then "Name" else r.form "order_field") ≠ "Id" ∧
      (if r.form "order_field" = "" then "Name" else r.form "order_field") ≠ "Age") := by
    simp only [List.mem_cons, List.mem_singleton, List.not_mem_nil, or_false] at hfield
    rcases hfield with h | h | h | h <;> simp [h]
  have hr : ¬ (orderBy > 1 ∨ orderBy < -1) := by omega
  simp only [SearchServer, validAccessToken, htoken, hq1, hq2, hq3, hq4, hlimit, hoffset,
    horderBy, husers, hf, hr, ne_eq, not_true_eq_false, if_false]

theorem paginate_zero_offset (users : List User) (limit : Int) (h : 0 ≤ limit) :
    paginate users limit 0 = some (users.take limit.toNat) := by
  unfold paginate
  by_cases hl : (users.length : Int) > limit
  · have hn : ¬ limit < 0 := by omega
    simp only [hl, hn, if_true, if_false]
    by_cases h0 : ((users.take limit.toNat).length : Int) > 0
    · simp [h0]
    · simp [h0]
  · have ht : users.take limit.toNat = users := by
      apply List.take_of_length_le
      omega
    simp only [hl, if_false, ht]
    by_cases h0 : (users.length : Int) > 0
    · simp [h0]
    · simp [h0]

/-- C21: a request that passes the checks of `SearchServer`, with a limit
`limit ≥ 0` and the offset 0, is answered with the first `limit` users of the
sorted matching list; their number is `min(limit, n)`, where `n` is the
number of matching users, so it never exceeds `limit`. -/
theorem SearchServer_returns_first_limit_users (OrderByAsc OrderByDesc : Int)
    (getUsers : String → Option (List User)) (r : Request) (allUsers : List User)
    (limit orderBy : Int)
    (htoken : r.header "AccessToken" = "access")
    (hquery : r.form "query" ∉ ["invalid_json", "bad_request_invalid_json",
      "bad_request_unknown_error", "internal_server_error"])
    (hlimit : strconv.Atoi (r.form "limit") = some limit)
    (hnonneg : 0 ≤ limit)
    (hoffset : strconv.Atoi (r.form "offset") = some 0)
    (horderBy : strconv.Atoi (r.form "order_by") = some orderBy)
    (hrange : -1 ≤ orderBy ∧ orderBy ≤ 1)
    (hfield : r.form "order_field" ∈ ["", "Name", "Id", "Age"])
    (husers : getUsers "dataset.xml" = some allUsers) :
    ∃ returned : List User,
      SearchServer OrderByAsc OrderByDesc getUsers r = Response.users returned ∧
      returned = (sortUsers OrderByAsc OrderByDesc (matching (r.form "query") allUsers)
          (if r.form "order_field" = "" then "Name" else r.form "order_field")
          orderBy).take limit.toNat ∧
      (returned.length : Int) = min limit ((matching (r.form "query") allUsers).length : Int) ∧
      (returned.length : Int) ≤ limit := by
  refine ⟨_, ?_, rfl, ?_, ?_⟩
  · rw [SearchServer_accepted OrderByAsc OrderByDesc getUsers r allUsers limit 0 orderBy htoken
      hquery hlimit hoffset horderBy hrange hfield husers, paginate_zero_offset _ _ hnonneg]
  · rw [List.length_take, (sortUsers_perm _ _ _ _ _).length_eq]
    omega
  · rw [List.length_take]
    omega

theorem SearchServer_returns_first_limit_users_witness :
    ∃ returned : List User,
      SearchServer (-1) 1
        (fun _ => some [⟨0, "Boyd Wolf", 22, "Nulla", "male"⟩, ⟨1, "Hilda Mayer", 21, "Sit", "female"⟩,
          ⟨2, "Brooks Aguilar", 25, "Velit", "male"⟩])
        ⟨fun _ => "access", fun k => if k = "limit" then "2" else if k = "offset" then "0"
          else if k = "order_by" then "1" else ""⟩ = Response.users returned ∧
      returned = (sortUsers (-1) 1
          (matching "" [⟨0, "Boyd Wolf", 22, "Nulla", "male"⟩, ⟨1, "Hilda Mayer", 21, "Sit", "female"⟩,
            ⟨2, "Brooks Aguilar", 25, "Velit", "male"⟩])
          (if "" = "" then "Name" else "") 1).take (2 : Int).toNat ∧
      (returned.length : Int) = min 2
        ((matching "" [⟨0, "Boyd Wolf", 22, "Nulla", "male"⟩, ⟨1, "Hilda Mayer", 21, "Sit", "female"⟩,
            ⟨2, "Brooks Aguilar", 25, "Velit", "male"⟩]).length : Int) ∧
      (returned.length : Int) ≤ 2 :=
  SearchServer_returns_first_limit_users (-1) 1
    (fun _ => some [⟨0, "Boyd Wolf", 22, "Nulla", "male"⟩, ⟨1, "Hilda Mayer", 21, "Sit", "female"⟩,
      ⟨2, "Brooks Aguilar", 25, "Velit", "male"⟩])
    ⟨fun _ => "access", fun k => if k = "limit" then "2" else if k = "offset" then "0"
      else if k = "order_by" then "1" else ""⟩
    [⟨0, "Boyd Wolf", 22, "Nulla", "male"⟩, ⟨1, "Hilda Mayer", 21, "Sit", "female"⟩,
      ⟨2, "Brooks Aguilar", 25, "Velit", "male"⟩]
    2 1 (by decide) (by decide) (by decide) (by decide) (by decide) (by decide) (by decide)
    (by decide) rfl

/-- The run of the witness of C21, evaluated: three users in the data set,
limit 2, no query, order 1 on the default field `Name`. -/
theorem SearchServer_limit_example :
    SearchServer (-1) 1
        (fun _ => some [⟨0, "Boyd Wolf", 22, "Nulla", "male"⟩, ⟨1, "Hilda Mayer", 21, "Sit", "female"⟩,
          ⟨2, "Brooks Aguilar", 25, "Velit", "male"⟩])
        ⟨fun _ => "access", fun k => if k = "limit" then "2" else if k = "offset" then "0"
          else if k = "order_by" then "1" else ""⟩ =
      Response.users [⟨0, "Boyd Wolf", 22, "Nulla", "male"⟩, ⟨2, "Brooks Aguilar", 25, "Velit", "male"⟩] := by
  decide


/-- A response that carries users comes from the last line of `SearchServer`:
the data set was read, and the users are a page of the sorted matching list. -/
theorem SearchServer_users_inv (OrderByAsc OrderByDesc : Int)
    (getUsers : String → Option (List User)) (r : Request) (returned : List User)
    (h : SearchServer OrderByAsc OrderByDesc getUsers r = Response.users returned) :
    ∃ (allUsers : List User) (limit offset orderBy : Int),
      getUsers "dataset.xml" = some allUsers ∧
      paginate (sortUsers OrderByAsc OrderByDesc (matching (r.form "query") allUsers)
        (if r.form "order_field" = "" then "Name" else r.form "order_field") orderBy)
        limit offset = some returned := by
  simp only [SearchServer] at h
  generalize (if r.form "order_field" = "" then "Name" else r.form "order_field") = f at h ⊢
  repeat' split at h
  all_goals first
    | (simp at h; done)
    | skip
  rename_i limit _ _ offset _ _ orderBy _ _ _ allUsers husers _ _ users hp
  exact ⟨allUsers, limit, offset, orderBy, husers, hp.trans (congrArg some (Response.users.inj h))⟩

theorem paginate_sublist (users page : List User) (limit offset : Int)
    (h : paginate users limit offset = some page) : page.Sublist users := by
  unfold paginate at h
  by_cases hl : (users.length : Int) > limit
  · by_cases hn : limit < 0
    · simp [hl, hn] at h
    · simp only [hl, hn, if_true, if_false] at h
      split_ifs at h
      · exact (Option.some.inj h) ▸ (List.drop_sublist _ _).trans (List.take_sublist _ _)
      · exact (Option.some.inj h) ▸ List.take_sublist _ _
  · simp only [hl, if_false] at h
    split_ifs at h
    · exact (Option.some.inj h) ▸ List.drop_sublist _ _
    · exact (Option.some.inj h) ▸ List.Sublist.refl _

theorem paginate_of_length_le (users : List User) (limit : Int)
    (h : (users.length : Int) ≤ limit) : paginate users limit 0 = some users := by
  unfold paginate
  have hl : ¬ (users.length : Int) > limit := by omega
  simp only [hl, if_false]
  by_cases h0 : (users.length : Int) > 0
  · simp [h0]
  · simp [h0]

/-- C22: for a request with a non-empty query that passes the checks of
`SearchServer`, let the candidates be `sortUsers` applied to the users of the
data set whose `Name` or `About` contains the query.  The candidates are
exactly the users of the data set that have the query as a substring of
`Name` or of `About` (each as often as the data set holds it); the answer of
the server is the page of the candidates cut out by the limit and the offset
of the request; every user it returns is a candidate, so contains the query;
and with a limit that is not below the number of candidates and the offset 0
the server returns all candidates. -/
theorem SearchServer_returns_matching_users (OrderByAsc OrderByDesc : Int)
    (getUsers : String → Option (List User)) (r : Request) (allUsers : List User)
    (limit offset orderBy : Int)
    (htoken : r.header "AccessToken" = "access")
    (hquery : r.form "query" ∉ ["invalid_json", "bad_request_invalid_json",
      "bad_request_unknown_error", "internal_server_error"])
    (hnonempty : r.form "query" ≠ "")
    (hlimit : strconv.Atoi (r.form "limit") = some limit)
    (hoffset : strconv.Atoi (r.form "offset") = some offset)
    (horderBy : strconv.Atoi (r.form "order_by") = some orderBy)
    (hrange : -1 ≤ orderBy ∧ orderBy ≤ 1)
    (hfield : r.form "order_field" ∈ ["", "Name", "Id", "Age"])
    (husers : getUsers "dataset.xml" = some allUsers) :
    (∀ u, u ∈ sortUsers OrderByAsc OrderByDesc
          (allUsers.filter (fun u => strings.Contains u.Name (r.form "query") ||
            strings.Contains u.About (r.form "query")))
          (if r.form "order_field" = "" then "Name" else r.form "order_field") orderBy ↔
        u ∈ allUsers ∧ ((∃ a b : String, u.Name = a ++ r.form "query" ++ b) ∨
          (∃ a b : String, u.About = a ++ r.form "query" ++ b))) ∧
    (sortUsers OrderByAsc OrderByDesc
        (allUsers.filter (fun u => strings.Contains u.Name (r.form "query") ||
          strings.Contains u.About (r.form "query")))
        (if r.form "order_field" = "" then "Name" else r.form "order_field") orderBy).Perm
      (allUsers.filter (fun u => strings.Contains u.Name (r.form "query") ||
        strings.Contains u.About (r.form "query"))) ∧
    SearchServer OrderByAsc OrderByDesc getUsers r =
      (match paginate (sortUsers OrderByAsc OrderByDesc
          (allUsers.filter (fun u => strings.Contains u.Name (r.form "query") ||
            strings.Contains u.About (r.form "query")))
          (if r.form "order_field" = "" then "Name" else r.form "order_field") orderBy)
          limit offset with
        | none => Response.panic
        | some users => Response.users users) ∧
    (∀ returned, SearchServer OrderByAsc OrderByDesc getUsers r = Response.users returned →
      returned.Sublist (sortUsers OrderByAsc OrderByDesc
        (allUsers.filter (fun u => strings.Contains u.Name (r.form "query") ||
          strings.Contains u.About (r.form "query")))
        (if r.form "order_field" = "" then "Name" else r.form "order_field") orderBy) ∧
      ∀ u ∈ returned, u ∈ allUsers ∧ ((∃ a b : String, u.Name = a ++ r.form "query" ++ b) ∨
        (∃ a b : String, u.About = a ++ r.form "query" ++ b))) ∧
    (((allUsers.filter (fun u => strings.Contains u.Name (r.form "query") ||
        strings.Contains u.About (r.form "query"))).length : Int) ≤ limit → offset = 0 →
      SearchServer OrderByAsc OrderByDesc getUsers r =
        Response.users (sortUsers OrderByAsc OrderByDesc
          (allUsers.filter (fun u => strings.Contains u.Name (r.form "query") ||
            strings.Contains u.About (r.form "query")))
          (if r.form "order_field" = "" then "Name" else r.form "order_field") orderBy)) := by
  have hm : matching (r.form "query") allUsers = allUsers.filter (fun u =>
      strings.Contains u.Name (r.form "query") || strings.Contains u.About (r.form "query")) := by
    simp [matching, hnonempty]
  have hacc := SearchServer_accepted OrderByAsc OrderByDesc getUsers r allUsers limit offset
    orderBy htoken hquery hlimit hoffset horderBy hrange hfield husers
  rw [hm] at hacc
  have hperm := sortUsers_perm OrderByAsc OrderByDesc (allUsers.filter (fun u =>
      strings.Contains u.Name (r.form "query") || strings.Contains u.About (r.form "query")))
    (if r.form "order_field" = "" then "Name" else r.form "order_field") orderBy
  have hmem : ∀ u, u ∈ sortUsers OrderByAsc OrderByDesc (allUsers.filter (fun u =>
      strings.Contains u.Name (r.form "query") || strings.Contains u.About (r.form "query")))
      (if r.form "order_field" = "" then "Name" else r.form "order_field") orderBy ↔
      u ∈ allUsers ∧ ((∃ a b : String, u.Name = a ++ r.form "query" ++ b) ∨
        (∃ a b : String, u.About = a ++ r.form "query" ++ b)) := by
    intro u
    rw [hperm.mem_iff, List.mem_filter, Bool.or_eq_true, strings.Contains_iff,
      strings.Contains_iff]
  refine ⟨hmem, hperm, hacc, ?_, ?_⟩
  · intro returned hresp
    rw [hacc] at hresp
    cases hp : paginate (sortUsers OrderByAsc OrderByDesc (allUsers.filter (fun u =>
        strings.Contains u.Name (r.form "query") || strings.Contains u.About (r.form "query")))
        (if r.form "order_field" = "" then "Name" else r.form "order_field") orderBy)
        limit offset with
    | none => simp [hp] at hresp
    | some users =>
      rw [hp] at hresp
      cases Response.users.inj hresp
      have hsub := paginate_sublist _ _ _ _ hp
      exact ⟨hsub, fun u hu => (hmem u).1 (hsub.subset hu)⟩
  · intro hlen hoff
    subst hoff
    rw [hacc, paginate_of_length_le _ _ (by rw [hperm.length_eq]; exact hlen)]

theorem SearchServer_returns_matching_users_witness :
    SearchServer (-1) 1
        (fun _ => some [⟨0, "Boyd Wolf", 22, "Nulla", "male"⟩,
          ⟨1, "Hilda Mayer", 21, "Sit", "female"⟩, ⟨2, "Brooks Aguilar", 25, "Hi Boyd", "male"⟩])
        ⟨fun _ => "access", fun k => if k = "query" then "Boyd" else if k = "limit" then "25"
          else if k = "offset" then "0" else if k = "order_by" then "0" else ""⟩ =
      Response.users (sortUsers (-1) 1
        (List.filter (fun u => strings.Contains u.Name "Boyd" || strings.Contains u.About "Boyd")
          [⟨0, "Boyd Wolf", 22, "Nulla", "male"⟩, ⟨1, "Hilda Mayer", 21, "Sit", "female"⟩,
            ⟨2, "Brooks Aguilar", 25, "Hi Boyd", "male"⟩])
        (if "" = "" then "Name" else "") 0) :=
  (SearchServer_returns_matching_users (-1) 1
    (fun _ => some [⟨0, "Boyd Wolf", 22, "Nulla", "male"⟩,
      ⟨1, "Hilda Mayer", 21, "Sit", "female"⟩, ⟨2, "Brooks Aguilar", 25, "Hi Boyd", "male"⟩])
    ⟨fun _ => "access", fun k => if k = "query" then "Boyd" else if k = "limit" then "25"
      else if k = "offset" then "0" else if k = "order_by" then "0" else ""⟩
    [⟨0, "Boyd Wolf", 22, "Nulla", "male"⟩, ⟨1, "Hilda Mayer", 21, "Sit", "female"⟩,
      ⟨2, "Brooks Aguilar", 25, "Hi Boyd", "male"⟩]
    25 0 0 (by decide) (by decide) (by decide) (by decide) (by decide) (by decide) (by decide)
    (by decide) rfl).2.2.2.2 (by decide) rfl

/-- The run of the witness of C22, evaluated: the query `Boyd` is in the
name of one user and in the description of another; both are returned, the
third user is not. -/
theorem SearchServer_query_example :
    SearchServer (-1) 1
        (fun _ => some [⟨0, "Boyd Wolf", 22, "Nulla", "male"⟩,
          ⟨1, "Hilda Mayer", 21, "Sit", "female"⟩, ⟨2, "Brooks Aguilar", 25, "Hi Boyd", "male"⟩])
        ⟨fun _ => "access", fun k => if k = "query" then "Boyd" else if k = "limit" then "25"
          else if k = "offset" then "0" else if k = "order_by" then "0" else ""⟩ =
      Response.users [⟨0, "Boyd Wolf", 22, "Nulla", "male"⟩,
        ⟨2, "Brooks Aguilar", 25, "Hi Boyd", "male"⟩] := by
  decide

end Coverage

/-! ## hw2_signer: theorems -/

namespace Signer

open GoLib

theorem collect_strings (inputs : List String) :
    collect (inputs.map Input.string) = some inputs := by
  induction inputs with
  | nil => rfl
  | cons s rest ih => simp [collect, ih]

theorem sort.Strings_perm (x : List String) : (sort.Strings x).Perm x :=
  sort.Slice_perm x _

theorem sort.Strings_sorted (x : List String) : (sort.Strings x).Sorted (fun a b => a ≤ b) :=
  sort.Slice_sorted_asc (fun s : String => s) (fun a b => strings.Less a b)
    (fun a b => strings.Less_iff a b) x

theorem sort.Strings_eq_of_perm {x y : List String} (h : x.Perm y) :
    sort.Strings x = sort.Strings y :=
  List.eq_of_perm_of_sorted
    (((sort.Strings_perm x).trans h).trans (sort.Strings_perm y).symm)
    (sort.Strings_sorted x) (sort.Strings_sorted y)

/-- C28: for every list of input strings, `CombineResults` sends exactly one
value: the inputs in ascending lexicographic order (a sorted permutation of
the inputs) joined with `_`.  The value is the same for every sequence of
inputs that is a permutation of this one. -/
theorem CombineResults_joins_sorted_inputs (inputs : List String) :
    ∃ sorted : List String,
      sorted.Perm inputs ∧ sorted.Sorted (fun a b => a ≤ b) ∧
      CombineResults (inputs.map Input.string) = some [strings.Join sorted "_"] ∧
      ∀ inputs' : List String, inputs'.Perm inputs →
        CombineResults (inputs'.map Input.string) = CombineResults (inputs.map Input.string) := by
  refine ⟨sort.Strings inputs, sort.Strings_perm inputs, sort.Strings_sorted inputs, ?_, ?_⟩
  · simp [CombineResults, collect_strings]
  · intro inputs' h
    simp [CombineResults, collect_strings, sort.Strings_eq_of_perm h]

/-- Two runs of `CombineResults` on the same three strings, delivered in two
orders. -/
theorem CombineResults_example :
    CombineResults [Input.string "29568666", Input.string "4958044", Input.string "1173136"] =
      some ["1173136_29568666_4958044"] ∧
    CombineResults [Input.string "b", Input.string "a", Input.string "c"] = some ["a_b_c"] ∧
    CombineResults [Input.string "c", Input.string "b", Input.string "a"] = some ["a_b_c"] ∧
    CombineResults [] = some [""] := by
  decide

end Signer

/-! ## hw5_codegen: theorems -/

namespace Codegen

open GoLib

theorem param_post (r : Request) (key : String) (h : r.Method = "POST") :
    param r key = r.form key := by
  simp [param, h]

/-- C26: the handler calls `Create` exactly when the request satisfies
`createAccepted`; it then passes the login, the full name, the parsed age and
the status, with `user` in place of an empty status.  In every other case it
returns an `ApiError` and `Create` is not called. -/
theorem handlerCreate_reaches_Create_iff {ρ ε : Type} (Create : CreateParams → ρ × Option ε)
    (r : Request) :
    (createAccepted r ↔ ∃ params, (handlerCreate Create r).called = some params) ∧
    (¬ createAccepted r →
      (∃ e : ApiError, handlerCreate Create r = Outcome.apiError e) ∧
      (handlerCreate Create r).called = none) ∧
    (∀ params, (handlerCreate Create r).called = some params →
      params.Login = r.form "login" ∧ params.Name = r.form "full_name" ∧
      strconv.Atoi (r.form "age") = some params.Age ∧
      params.Status = (if r.form "status" = "" then "user" else r.form "status")) := by
  by_cases hm : r.Method = "POST"
  swap
  · have hn : ¬ createAccepted r := fun h => hm h.1
    simp [handlerCreate, hm, hn, Outcome.called]
  by_cases hx : r.header "X-Auth" = "100500"
  swap
  · have hn : ¬ createAccepted r := fun h => hx h.2.1
    simp [handlerCreate, hm, hx, hn, Outcome.called]
  by_cases hl : r.form "login" = ""
  · have hn : ¬ createAccepted r := fun h => h.2.2.1 hl
    simp [handlerCreate, hm, hx, hl, hn, Outcome.called, param_post]
  by_cases hlen : (r.form "login").utf8ByteSize < 10
  · have hn : ¬ createAccepted r := fun h => absurd h.2.2.2.1 (by omega)
    simp [handlerCreate, hm, hx, hl, hlen, hn, Outcome.called, param_post]
  by_cases hs : r.form "status" ≠ "" ∧
      (r.form "status" ≠ "user" ∧ r.form "status" ≠ "moderator" ∧ r.form "status" ≠ "admin")
  · have hn : ¬ createAccepted r := by
      intro h
      have := h.2.2.2.2.1
      simp only [List.mem_cons, List.mem_singleton, List.not_mem_nil, or_false] at this
      rcases this with h' | h' | h' | h'
      · exact hs.1 h'
      · exact hs.2.1 h'
      · exact hs.2.2.1 h'
      · exact hs.2.2.2 h'
    simp [handlerCreate, hm, hx, hl, hlen, hs, hn, Outcome.called, param_post]
  have hs' : r.form "status" ∈ ["", "user", "moderator", "admin"] := by
    simp only [List.mem_cons, List.mem_singleton, List.not_mem_nil, or_false]
    by_contra hc
    simp only [not_or] at hc
    exact hs ⟨hc.1, hc.2.1, hc.2.2.1, hc.2.2.2⟩
  cases ha : strconv.Atoi (r.form "age") with
  | none =>
    have hn : ¬ createAccepted r := by
      rintro ⟨_, _, _, _, _, age, hage, _⟩
      rw [ha] at hage
      exact absurd hage (by simp)
    simp [handlerCreate, hm, hx, hl, hlen, hs, ha, hn, Outcome.called, param_post]
  | some age =>
    by_cases h0 : age < 0
    · have hn : ¬ createAccepted r := by
        rintro ⟨_, _, _, _, _, age', hage, h1, _⟩
        rw [ha] at hage
        cases Option.some.inj hage
        omega
      simp [handlerCreate, hm, hx, hl, hlen, hs, ha, h0, hn, Outcome.called, param_post]
    by_cases h1 : age > 128
    · have hn : ¬ createAccepted r := by
        rintro ⟨_, _, _, _, _, age', hage, _, h2⟩
        rw [ha] at hage
        cases Option.some.inj hage
        omega
      simp [handlerCreate, hm, hx, hl, hlen, hs, ha, h0, h1, hn, Outcome.called, param_post]
    have hacc : createAccepted r :=
      ⟨hm, hx, hl, by omega, hs', age, ha, by omega, by omega⟩
    have hrun : handlerCreate Create r =
        match Create ⟨r.form "login", r.form "full_name",
          if r.form "status" = "" then "user" else r.form "status", age⟩ with
        | (_, some err) => Outcome.createFailed ⟨r.form "login", r.form "full_name",
            if r.form "status" = "" then "user" else r.form "status", age⟩ err
        | (res, none) => Outcome.ok ⟨r.form "login", r.form "full_name",
            if r.form "status" = "" then "user" else r.form "status", age⟩ res := by
      simp only [handlerCreate, hm, hx, hl, hlen, hs, ha, h0, h1, param_post, ne_eq,
        not_true_eq_false, if_false]
    rw [hrun]
    rcases hc : Create ⟨r.form "login", r.form "full_name",
        if r.form "status" = "" then "user" else r.form "status", age⟩ with ⟨res, _ | err⟩
    · simp [Outcome.called, hacc]
    · simp [Outcome.called, hacc]

/-- Runs of `handlerCreate` with a business method that returns its argument:
a valid request with an empty status reaches `Create` with the status `user`;
a login of nine bytes, an age of 129, an age that is not a number and the
method `GET` are answered with an `ApiError`. -/
theorem handlerCreate_examples :
    handlerCreate (fun p => (p, (none : Option Unit)))
        ⟨"POST", fun _ => "100500", fun _ => none,
          fun k => if k = "login" then "0123456789" else if k = "age" then "128" else ""⟩ =
      Outcome.ok ⟨"0123456789", "", "user", 128⟩ ⟨"0123456789", "", "user", 128⟩ ∧
    handlerCreate (fun p => (p, (none : Option Unit)))
        ⟨"POST", fun _ => "100500", fun _ => none,
          fun k => if k = "login" then "012345678" else if k = "age" then "128" else ""⟩ =
      Outcome.apiError ⟨400, "login len must be >= 10"⟩ ∧
    handlerCreate (fun p => (p, (none : Option Unit)))
        ⟨"POST", fun _ => "100500", fun _ => none,
          fun k => if k = "login" then "0123456789" else if k = "age" then "129" else ""⟩ =
      Outcome.apiError ⟨400, "age must be <= 128"⟩ ∧
    handlerCreate (fun p => (p, (none : Option Unit)))
        ⟨"POST", fun _ => "100500", fun _ => none,
          fun k => if k = "login" then "0123456789" else if k = "age" then "12a" else ""⟩ =
      Outcome.apiError ⟨400, "age must be int"⟩ ∧
    handlerCreate (fun p => (p, (none : Option Unit)))
        ⟨"GET", fun _ => "100500", fun _ => some ["0123456789"],
          fun k => if k = "login" then "0123456789" else if k = "age" then "12" else ""⟩ =
      Outcome.apiError ⟨406, "bad method"⟩ := by
  decide

end Codegen

/-! ## hw8_i2s: theorems -/

namespace I2s

theorem int64_intCast (n : Int) (h : -(2 : Int) ^ 63 ≤ n ∧ n < (2 : Int) ^ 63) :
    int64 (n : ℚ) = n := by
  have hq : (n : ℚ).num.tdiv (n : ℚ).den = n := by simp
  unfold int64
  rw [hq, if_pos h]

theorem float64Dropped_of_lt (a : Nat) (h : a < 2 ^ 53) : float64Dropped a = 0 := by
  unfold float64Dropped
  rw [List.length_eq_zero, List.filter_eq_nil_iff]
  intro k _
  have : 2 ^ 53 ≤ 2 ^ (53 + k) := Nat.pow_le_pow_right (by norm_num) (by omega)
  simp only [decide_eq_true_eq]
  omega

theorem float64Round_of_lt (a : Nat) (h : a < 2 ^ 53) : float64Round a = a := by
  simp [float64Round, float64Dropped_of_lt a h, Nat.mod_one]

/-- An `int` of absolute value at most `2^53` is a number that `float64`
holds exactly. -/
theorem float64OfInt_of_natAbs_le (n : Int) (h : n.natAbs ≤ 2 ^ 53) :
    float64OfInt n = (n : ℚ) := by
  rcases Nat.lt_or_ge n.natAbs (2 ^ 53) with hlt | hge
  · unfold float64OfInt
    rw [float64Round_of_lt n.natAbs hlt, Int.sign_mul_natAbs]
    rfl
  · have ha : n.natAbs = 2 ^ 53 := le_antisymm h hge
    have hn : n = 2 ^ 53 ∨ n = -(2 ^ 53) := by omega
    rcases hn with rfl | rfl <;> rfl

theorem agrees_cons (name : String) (x : Iface) (entries : List (String × Iface)) :
    ∀ (fields : List (String × GoType)) (vs : List Value),
      name ∉ fields.map Prod.fst → agrees entries fields vs →
      agrees ((name, x) :: entries) fields vs
  | [], _, _, _ => by simp [agrees]
  | _ :: _, [], _, _ => by simp [agrees]
  | (name', t) :: fields, v :: vs, hn, h => by
    simp only [List.map_cons, List.mem_cons, not_or] at hn
    simp only [agrees] at h ⊢
    refine ⟨?_, agrees_cons name x entries fields vs hn.2 h.2⟩
    have hne : (name' == name) = false := by
      simp only [beq_eq_false_iff_ne, ne_eq]
      exact fun he => hn.1 he.symm
    simp only [List.lookup, hne]
    exact h.1

theorem GoType.fieldsDecodable_exported :
    ∀ (fields : List (String × GoType)), GoType.fieldsDecodable fields = true →
      ∀ f ∈ fields, isExported f.1 = true
  | [], _ => by simp
  | (name, t) :: fields, h => by
    simp only [GoType.fieldsDecodable, Bool.and_eq_true] at h
    intro f hf
    rcases List.mem_cons.1 hf with rfl | hf
    · exact h.1.1
    · exact GoType.fieldsDecodable_exported fields h.2 f hf

theorem Value.allExact_mem :
    ∀ (vs : List Value), Value.allExact vs = true → ∀ v ∈ vs, v.exact = true
  | [], _ => by simp
  | w :: ws, h => by
    simp only [Value.allExact, Bool.and_eq_true] at h
    intro v hv
    rcases List.mem_cons.1 hv with rfl | hv
    · exact h.1
    · exact Value.allExact_mem ws h.2 v hv

theorem Value.allSlicesNonEmpty_mem :
    ∀ (vs : List Value), Value.allSlicesNonEmpty vs = true →
      ∀ v ∈ vs, v.slicesNonEmpty = true
  | [], _ => by simp
  | w :: ws, h => by
    simp only [Value.allSlicesNonEmpty, Bool.and_eq_true] at h
    intro v hv
    rcases List.mem_cons.1 hv with rfl | hv
    · exact h.1
    · exact Value.allSlicesNonEmpty_mem ws h.2 v hv

theorem agrees_reprFields :
    ∀ (fields : List (String × GoType)) (vs : List Value),
      (fields.map Prod.fst).Nodup → (∀ f ∈ fields, isExported f.1 = true) →
      agrees (reprFields fields vs) fields vs
  | [], _, _, _ => by simp [agrees]
  | _ :: _, [], _, _ => by simp [agrees]
  | (name, t) :: fields, v :: vs, hn, hx => by
    simp only [List.map_cons, List.nodup_cons] at hn
    have hname : isExported name = true := hx (name, t) (List.mem_cons_self _ _)
    simp only [reprFields, hname, if_true, agrees]
    refine ⟨by simp [List.lookup], ?_⟩
    exact agrees_cons name (repr t v) _ fields vs hn.1
      (agrees_reprFields fields vs hn.2 (fun f hf => hx f (List.mem_cons_of_mem _ hf)))

theorem unmarshalSlice.loop_repr (i2sElem : Iface → Value → Result Value) (zeroElem : Value)
    (represent : Value → Iface) :
    ∀ (vs done : List Value), (∀ v ∈ vs, i2sElem (represent v) zeroElem = Result.ok v) →
      unmarshalSlice.loop i2sElem zeroElem (vs.map represent) done.length done =
        Result.ok (done ++ vs)
  | [], done, _ => by simp [unmarshalSlice.loop]
  | v :: vs, done, h => by
    have hv := h v (List.mem_cons_self v vs)
    have hget : (done ++ [zeroElem]).getD done.length zeroElem = zeroElem := by
      simp [List.getD_eq_getElem?_getD]
    have hset : (done ++ [zeroElem]).set done.length v = done ++ [v] := by
      simp
    have hlen : done.length + 1 = (done ++ [v]).length := by simp
    simp only [List.map_cons, unmarshalSlice.loop, hget, hv, hset]
    rw [hlen, unmarshalSlice.loop_repr i2sElem zeroElem represent vs (done ++ [v])
      (fun w hw => h w (List.mem_cons_of_mem v hw))]
    simp

mutual
theorem i2sPtr_repr : ∀ (t : GoType) (v : Value), t.decodable = true → hasType t v = true →
    v.exact = true → v.slicesNonEmpty = true → i2sPtr (repr t v) t (zero t) = Result.ok v
  | GoType.struct fields, Value.struct vs, hd, ht, he, hs => by
    simp only [GoType.decodable, Bool.and_eq_true, decide_eq_true_eq] at hd
    simp only [hasType] at ht
    simp only [Value.exact] at he
    simp only [Value.slicesNonEmpty] at hs
    simp only [repr, zero, i2sPtr]
    rw [fields_repr fields vs (reprFields fields vs) hd.2 ht he hs
      (agrees_reprFields fields vs hd.1 (GoType.fieldsDecodable_exported fields hd.2))]
  | GoType.slice elem, Value.slice [], _, _, _, hs => by simp [Value.slicesNonEmpty] at hs
  | GoType.slice elem, Value.slice (w :: ws), hd, ht, he, hs => by
    simp only [GoType.decodable] at hd
    simp only [hasType, List.all_eq_true] at ht
    simp only [Value.exact] at he
    have hs' : Value.allSlicesNonEmpty (w :: ws) = true := by
      simpa [Value.slicesNonEmpty, Value.allSlicesNonEmpty] using hs
    have hloop := unmarshalSlice.loop_repr (fun d x => i2sPtr d elem x) (zero elem)
      (fun v => repr elem v) (w :: ws) []
      (fun v hv => i2sPtr_repr elem v hd (ht v hv) (Value.allExact_mem _ he v hv)
        (Value.allSlicesNonEmpty_mem _ hs' v hv))
    simp only [List.length_nil, List.nil_append, List.map_cons] at hloop
    simp only [repr, zero, i2sPtr, unmarshalSlice, List.map_cons, hloop]
  | GoType.slice _, Value.nilSlice, _, _, _, hs => by simp [Value.slicesNonEmpty] at hs
  | GoType.struct _, Value.int _, _, ht, _, _ => by simp [hasType] at ht
  | GoType.struct _, Value.string _, _, ht, _, _ => by simp [hasType] at ht
  | GoType.struct _, Value.bool _, _, ht, _, _ => by simp [hasType] at ht
  | GoType.struct _, Value.slice _, _, ht, _, _ => by simp [hasType] at ht
  | GoType.struct _, Value.nilSlice, _, ht, _, _ => by simp [hasType] at ht
  | GoType.struct _, Value.other, _, ht, _, _ => by simp [hasType] at ht
  | GoType.slice _, Value.int _, _, ht, _, _ => by simp [hasType] at ht
  | GoType.slice _, Value.string _, _, ht, _, _ => by simp [hasType] at ht
  | GoType.slice _, Value.bool _, _, ht, _, _ => by simp [hasType] at ht
  | GoType.slice _, Value.struct _, _, ht, _, _ => by simp [hasType] at ht
  | GoType.slice _, Value.other, _, ht, _, _ => by simp [hasType] at ht
  | GoType.int, _, hd, _, _, _ => by simp [GoType.decodable] at hd
  | GoType.string, _, hd, _, _, _ => by simp [GoType.decodable] at hd
  | GoType.bool, _, hd, _, _, _ => by simp [GoType.decodable] at hd
  | GoType.other, _, hd, _, _, _ => by simp [GoType.decodable] at hd
theorem fields_repr : ∀ (fields : List (String × GoType)) (vs : List Value)
    (entries : List (String × Iface)), GoType.fieldsDecodable fields = true →
    fieldsHaveType fields vs = true → Value.allExact vs = true →
    Value.allSlicesNonEmpty vs = true → agrees entries fields vs →
    unmarshalStruct.fields entries fields (zeroFields fields) = Result.ok vs
  | [], [], _, _, _, _, _, _ => by simp [unmarshalStruct.fields]
  | [], _ :: _, _, _, ht, _, _, _ => by simp [fieldsHaveType] at ht
  | _ :: _, [], _, _, ht, _, _, _ => by simp [fieldsHaveType] at ht
  | (name, t) :: fields, v :: vs, entries, hd, ht, he, hs, ha => by
    simp only [GoType.fieldsDecodable, Bool.and_eq_true, Bool.or_eq_true,
      decide_eq_true_eq] at hd
    simp only [fieldsHaveType, Bool.and_eq_true] at ht
    simp only [Value.allExact, Bool.and_eq_true] at he
    simp only [Value.allSlicesNonEmpty, Bool.and_eq_true] at hs
    simp only [agrees] at ha
    have hname : isExported name = true := hd.1.1
    have hrest := fields_repr fields vs entries hd.2 ht.2 he.2 hs.2 ha.2
    have hfield : (match t.Kind with
        | Kind.Int =>
          match repr t v with
          | Iface.float64 fValue =>
            if isExported name then Result.ok (Value.int (int64 fValue))
            else Result.panic
          | d => Result.error (I2sError.invalidValueType d.Kind Kind.Float64)
        | Kind.String =>
          match repr t v with
          | Iface.string s =>
            if isExported name then Result.ok (Value.string s) else Result.panic
          | d => Result.error (I2sError.invalidValueType d.Kind Kind.String)
        | Kind.Bool =>
          match repr t v with
          | Iface.bool b =>
            if isExported name then Result.ok (Value.bool b) else Result.panic
          | d => Result.error (I2sError.invalidValueType d.Kind Kind.Bool)
        | Kind.Slice =>
          if (repr t v).Kind ≠ Kind.Slice then
            Result.error (I2sError.invalidValueType (repr t v).Kind Kind.Slice)
          else if isExported name then i2sPtr (repr t v) t (zero t)
          else Result.panic
        | Kind.Struct =>
          if (repr t v).Kind ≠ Kind.Map then
            Result.error (I2sError.invalidValueType (repr t v).Kind Kind.Map)
          else if isExported name then i2sPtr (repr t v) t (zero t)
          else Result.panic
        | _ => Result.ok (zero t)) = Result.ok v := by
      cases t with
      | int =>
        cases v with
        | int n =>
          simp only [hasType, decide_eq_true_eq] at ht
          simp only [Value.exact, decide_eq_true_eq] at he
          simp only [GoType.Kind, repr, he.1, int64_intCast n ht.1, hname, if_true]
        | _ => simp [hasType] at ht
      | string =>
        cases v with
        | string s => simp only [GoType.Kind, repr, hname, if_true]
        | _ => simp [hasType] at ht
      | bool =>
        cases v with
        | bool b => simp only [GoType.Kind, repr, hname, if_true]
        | _ => simp [hasType] at ht
      | struct fs =>
        have hdt : (GoType.struct fs).decodable = true := by
          simpa [GoType.Kind] using hd.1.2
        cases v with
        | struct ws =>
          have hr := i2sPtr_repr (GoType.struct fs) (Value.struct ws) hdt ht.1 he.1 hs.1
          simp only [GoType.Kind, hname, if_true]
          rw [hr]
          simp [repr, Iface.Kind]
        | _ => simp [hasType] at ht
      | slice elem =>
        have hdt : (GoType.slice elem).decodable = true := by
          simpa [GoType.Kind] using hd.1.2
        cases v with
        | slice ws =>
          have hr := i2sPtr_repr (GoType.slice elem) (Value.slice ws) hdt ht.1 he.1 hs.1
          simp only [GoType.Kind, hname, if_true]
          rw [hr]
          simp [repr, Iface.Kind]
        | nilSlice => simp [Value.slicesNonEmpty] at hs
        | _ => simp [hasType] at ht
      | other => simp [GoType.Kind, GoType.decodable] at hd
    simp only [zeroFields, unmarshalStruct.fields, ha.1, hfield, hrest]
end

/-- C25 on the code, at four values of struct types of the claim.

* `ID = 9007199254740993` (`2^53 + 1`): the representation holds the
  `float64` number `9007199254740992`, and `i2s` returns `ID =
  9007199254740992`.
* A `nil` slice field `Many`: the representation holds `nil` (JSON `null`),
  and `i2s` returns the error `invalid value type got: invalid, want: slice`.
* An empty slice field `Many` that is not `nil`: the representation holds an
  empty slice, the loop of `unmarshalSlice` does not run, and `i2s` leaves the
  `nil` slice of the zero value.
* An unexported field `id = 5`: the representation has no entry for it and
  `i2s` leaves `id = 0`; on a map that does have the entry `id`, `i2s`
  panics. -/
theorem i2s_round_trip_fails :
    (GoType.claimed (GoType.struct [("ID", GoType.int)]) = true ∧
      hasType (GoType.struct [("ID", GoType.int)])
        (Value.struct [Value.int 9007199254740993]) = true ∧
      repr (GoType.struct [("ID", GoType.int)]) (Value.struct [Value.int 9007199254740993]) =
        Iface.map [("ID", Iface.float64 9007199254740992)] ∧
      i2s (repr (GoType.struct [("ID", GoType.int)])
            (Value.struct [Value.int 9007199254740993]))
          (Out.ptr (GoType.struct [("ID", GoType.int)])
            (zero (GoType.struct [("ID", GoType.int)]))) =
        Result.ok (Value.struct [Value.int 9007199254740992]) ∧
      Result.ok (Value.struct [Value.int 9007199254740992]) ≠
        Result.ok (Value.struct [Value.int 9007199254740993])) ∧
    (GoType.claimed
        (GoType.struct [("Many", GoType.slice (GoType.struct [("Name", GoType.string)]))]) =
        true ∧
      hasType (GoType.struct [("Many", GoType.slice (GoType.struct [("Name", GoType.string)]))])
        (Value.struct [Value.nilSlice]) = true ∧
      repr (GoType.struct [("Many", GoType.slice (GoType.struct [("Name", GoType.string)]))])
          (Value.struct [Value.nilSlice]) = Iface.map [("Many", Iface.nil)] ∧
      i2s (repr (GoType.struct [("Many", GoType.slice (GoType.struct [("Name", GoType.string)]))])
            (Value.struct [Value.nilSlice]))
          (Out.ptr (GoType.struct [("Many", GoType.slice (GoType.struct [("Name", GoType.string)]))])
            (zero (GoType.struct
              [("Many", GoType.slice (GoType.struct [("Name", GoType.string)]))]))) =
        Result.error (I2sError.invalidValueType Kind.Invalid Kind.Slice)) ∧
    (hasType (GoType.struct [("Many", GoType.slice (GoType.struct [("Name", GoType.string)]))])
        (Value.struct [Value.slice []]) = true ∧
      repr (GoType.struct [("Many", GoType.slice (GoType.struct [("Name", GoType.string)]))])
          (Value.struct [Value.slice []]) = Iface.map [("Many", Iface.slice [])] ∧
      i2s (repr (GoType.struct [("Many", GoType.slice (GoType.struct [("Name", GoType.string)]))])
            (Value.struct [Value.slice []]))
          (Out.ptr (GoType.struct [("Many", GoType.slice (GoType.struct [("Name", GoType.string)]))])
            (zero (GoType.struct
              [("Many", GoType.slice (GoType.struct [("Name", GoType.string)]))]))) =
        Result.ok (Value.struct [Value.nilSlice]) ∧
      Result.ok (Value.struct [Value.nilSlice]) ≠ Result.ok (Value.struct [Value.slice []])) ∧
    (GoType.claimed (GoType.struct [("id", GoType.int)]) = true ∧
      hasType (GoType.struct [("id", GoType.int)]) (Value.struct [Value.int 5]) = true ∧
      repr (GoType.struct [("id", GoType.int)]) (Value.struct [Value.int 5]) = Iface.map [] ∧
      i2s (repr (GoType.struct [("id", GoType.int)]) (Value.struct [Value.int 5]))
          (Out.ptr (GoType.struct [("id", GoType.int)])
            (zero (GoType.struct [("id", GoType.int)]))) =
        Result.ok (Value.struct [Value.int 0]) ∧
      Result.ok (Value.struct [Value.int 0]) ≠ Result.ok (Value.struct [Value.int 5]) ∧
      i2s (Iface.map [("id", Iface.float64 5)])
          (Out.ptr (GoType.struct [("id", GoType.int)])
            (zero (GoType.struct [("id", GoType.int)]))) = Result.panic) := by
  refine ⟨⟨rfl, rfl, rfl, rfl, ?_⟩, ⟨rfl, rfl, rfl, rfl⟩, ⟨rfl, rfl, rfl, ?_⟩,
    ⟨rfl, rfl, rfl, rfl, ?_, rfl⟩⟩
  · simp
  · simp
  · simp

/-- C25 (amended): for every struct type with distinct names of exported
fields that are of kind `int`, `string` or `bool`, structs of that sort or
slices of such structs, and every value `vs` of it in which every `int` is a
number that `float64` holds exactly and every slice has at least one element,
`i2s` on the generic representation of the value and a pointer to the zero
value of the type returns no error and leaves the value `vs` in the
target. -/
theorem i2s_decodes_generic_representation (fields : List (String × GoType)) (vs : List Value)
    (hdec : (GoType.struct fields).decodable = true)
    (hty : hasType (GoType.struct fields) (Value.struct vs) = true)
    (hex : (Value.struct vs).exact = true)
    (hsl : (Value.struct vs).slicesNonEmpty = true) :
    i2s (repr (GoType.struct fields) (Value.struct vs))
        (Out.ptr (GoType.struct fields) (zero (GoType.struct fields))) =
      Result.ok (Value.struct vs) := by
  simp only [i2s]
  exact i2sPtr_repr (GoType.struct fields) (Value.struct vs) hdec hty hex hsl

theorem i2s_decodes_generic_representation_witness :
    i2s (repr
          (GoType.struct [("ID", GoType.int), ("Username", GoType.string), ("Active", GoType.bool),
            ("Sub", GoType.struct [("Age", GoType.int)]),
            ("Many", GoType.slice (GoType.struct [("Name", GoType.string)]))])
          (Value.struct [Value.int 42, Value.string "rvasily", Value.bool true,
            Value.struct [Value.int (-7)],
            Value.slice [Value.struct [Value.string "a"], Value.struct [Value.string "b"]]]))
        (Out.ptr
          (GoType.struct [("ID", GoType.int), ("Username", GoType.string), ("Active", GoType.bool),
            ("Sub", GoType.struct [("Age", GoType.int)]),
            ("Many", GoType.slice (GoType.struct [("Name", GoType.string)]))])
          (zero
            (GoType.struct [("ID", GoType.int), ("Username", GoType.string),
              ("Active", GoType.bool), ("Sub", GoType.struct [("Age", GoType.int)]),
              ("Many", GoType.slice (GoType.struct [("Name", GoType.string)]))]))) =
      Result.ok
        (Value.struct [Value.int 42, Value.string "rvasily", Value.bool true,
          Value.struct [Value.int (-7)],
          Value.slice [Value.struct [Value.string "a"], Value.struct [Value.string "b"]]]) :=
  i2s_decodes_generic_representation
    [("ID", GoType.int), ("Username", GoType.string), ("Active", GoType.bool),
      ("Sub", GoType.struct [("Age", GoType.int)]),
      ("Many", GoType.slice (GoType.struct [("Name", GoType.string)]))]
    [Value.int 42, Value.string "rvasily", Value.bool true, Value.struct [Value.int (-7)],
      Value.slice [Value.struct [Value.string "a"], Value.struct [Value.string "b"]]]
    (by decide) (by decide) (by decide) (by decide)

/-- Runs of `i2s` on data that is not the representation of a value of the
target type: a missing key leaves the field at its content, a string for an
`int` field is an error, a slice of `int` is an unsupported target, a `nil`
element of a slice of structs panics, elements are appended to a slice that
is not empty and decoded into its first positions, and a target that is not
a pointer is an error. -/
theorem i2s_examples :
    i2s (Iface.map [("Name", Iface.string "a")])
        (Out.ptr (GoType.struct [("ID", GoType.int), ("Name", GoType.string)])
          (Value.struct [Value.int 3, Value.string ""])) =
      Result.ok (Value.struct [Value.int 3, Value.string "a"]) ∧
    i2s (Iface.map [("ID", Iface.string "a")])
        (Out.ptr (GoType.struct [("ID", GoType.int)]) (Value.struct [Value.int 0])) =
      Result.error (I2sError.invalidValueType Kind.String Kind.Float64) ∧
    i2s (Iface.map [("Many", Iface.slice [Iface.float64 1])])
        (Out.ptr (GoType.struct [("Many", GoType.slice GoType.int)])
          (Value.struct [Value.nilSlice])) =
      Result.error (I2sError.unsupportedOut Kind.Int) ∧
    i2s (Iface.slice [Iface.nil])
        (Out.ptr (GoType.slice (GoType.struct [])) Value.nilSlice) = Result.panic ∧
    i2s (Iface.slice [Iface.map [("A", Iface.float64 7)]])
        (Out.ptr (GoType.slice (GoType.struct [("A", GoType.int)]))
          (Value.slice [Value.struct [Value.int 1]])) =
      Result.ok (Value.slice [Value.struct [Value.int 7], Value.struct [Value.int 0]]) ∧
    i2s (Iface.map []) Out.nonPointer = Result.error I2sError.notPointer :=
  ⟨rfl, rfl, rfl, rfl, rfl, rfl⟩

end I2s
